import Mathlib

/-!
# Workflow engine: dependency sorter, input composer, orchestrator

A shallow embedding of `backend/internal/api/workflow.go` together with the
data model of `backend/internal/types/types.go`, the registry of
`backend/internal/executor/registry.go` and the executors of `conditions.go`,
`basic_actions.go`, `http_request.go` (its validation) and `transforms.go`
(data transform and filter), followed by theorems about them.
A run takes its task executor from an `Env`; `registryEnv` is the `Env` of a
registry.

Modelling conventions.

* A Go `map[string]V` is an association list `GoMap V` read by first match
  (`GoMap.get?`) and written by `GoMap.set` (replace in place, else append).
  A `range` loop over a map visits every key once (`GoMap.range`); where the
  visiting order can change the result (the in-degree map of
  `topologicalSort`) the order is an explicit argument `iter`.
* `interface{}` payloads are the JSON-like `Value`.
* The unbounded `for len(queue) > 0` loop takes a fuel argument and returns
  `none` when the fuel runs out before the queue is empty.
* Go `int` counters are `Int`; they are bounded by the number of edges, so no
  wrap-around is modelled.
* `time.Now()` readings and the task executor are supplied by an `Env`.
* `reflect.DeepEqual`, the `%v` format and `Sscanf` are supplied by a `GoLib`;
  the order in which an executor's `range` visits `$previous` is an explicit
  argument `order`.
* A slice expression that would panic gives `none` (`sliceBytes`), and so do
  the functions that call it.
-/

namespace WorkflowEngine

/-! ## Go maps -/

/-- A Go `map[string]V`, as an association list read by first match. -/
abbrev GoMap (V : Type) := List (String × V)

namespace GoMap

variable {V : Type}

/-- The comma-ok read `v, ok := m[k]`. -/
def get? : GoMap V → String → Option V
  | [], _ => none
  | (k', v) :: rest, k => if k' = k then some v else get? rest k

/-- The plain read `m[k]`, giving the zero value `d` for an absent key. -/
def getD (m : GoMap V) (k : String) (d : V) : V :=
  (m.get? k).getD d

/-- The write `m[k] = v`. -/
def set : GoMap V → String → V → GoMap V
  | [], k, v => [(k, v)]
  | (k', v') :: rest, k, v =>
    if k' = k then (k, v) :: rest else (k', v') :: set rest k v

/-- The entries a `range` loop visits: every key once, with the value a read
of that key gives. -/
def range : GoMap V → List (String × V)
  | [] => []
  | (k, v) :: rest => (k, v) :: (range rest).filter (fun kv => kv.1 ≠ k)

/-- The keys of the map, each once. -/
def keys (m : GoMap V) : List String :=
  (range m).map Prod.fst

end GoMap

/-! ## Data model (`types.go`) -/

/-- A JSON-like `interface{}` value. -/
inductive Value where
  | null : Value
  | bool (b : Bool) : Value
  | num (n : Int) : Value
  | str (s : String) : Value
  | arr (items : List Value) : Value
  | obj (fields : List (String × Value)) : Value

/-- The type `TaskInput`, a `map[string]interface{}`. -/
abbrev TaskInput := GoMap Value

/-- The struct `TaskOutput`. -/
structure TaskOutput where
  Error : String
  Data : Value
  Extra : GoMap Value

/-- The method `TaskOutput.IsSuccess`. -/
def TaskOutput.IsSuccess (o : TaskOutput) : Bool :=
  o.Error == ""

/-- The struct `WorkflowNode`; `Position` is never read by the engine and is
left out. -/
structure WorkflowNode where
  ID : String
  Type_ : String
  Label : String
  Config : TaskInput

/-- The struct `WorkflowEdge`. -/
structure WorkflowEdge where
  Source : String
  Target : String
deriving DecidableEq

/-- The struct `Workflow`. -/
structure Workflow where
  Nodes : List WorkflowNode
  Edges : List WorkflowEdge

/-- The struct `NodeExecutionLog`; a nil `Input` is the empty map and a nil
`Output` pointer is `none`. -/
structure NodeExecutionLog where
  NodeID : String
  NodeName : String
  Status : String
  Message : String
  Input : TaskInput
  Output : Option TaskOutput
  Duration : Int
  Timestamp : String

/-- The struct `WorkflowExecutionResult`. -/
structure WorkflowExecutionResult where
  Status : String
  StartTime : String
  EndTime : String
  Logs : List NodeExecutionLog
  FinalOutput : Option TaskOutput
  Error : String

/-! ## Dependency sorter (`topologicalSort`) -/

/-- The map `graph` after both building loops of `topologicalSort`. -/
def buildGraph (nodes : List WorkflowNode) (edges : List WorkflowEdge) :
    GoMap (List String) :=
  edges.foldl
    (fun g e => g.set e.Source (g.getD e.Source [] ++ [e.Target]))
    (nodes.foldl (fun g n => g.set n.ID []) [])

/-- The map `inDegree` after both building loops of `topologicalSort`. -/
def buildInDegree (nodes : List WorkflowNode) (edges : List WorkflowEdge) :
    GoMap Int :=
  edges.foldl
    (fun d e => d.set e.Target (d.getD e.Target 0 + 1))
    (nodes.foldl (fun d n => d.set n.ID 0) [])

/-- The inner loop `for _, neighbor := range graph[current]`: decrement the
neighbour's counter and enqueue it when the counter is now zero. -/
def relax : List String → GoMap Int → List String → GoMap Int × List String
  | [], inDegree, queue => (inDegree, queue)
  | neighbor :: rest, inDegree, queue =>
    let inDegree1 := inDegree.set neighbor (inDegree.getD neighbor 0 - 1)
    let queue1 :=
      if inDegree1.getD neighbor 0 = 0 then queue ++ [neighbor] else queue
    relax rest inDegree1 queue1

/-- The loop `for len(queue) > 0`, with fuel. -/
def bfs (graph : GoMap (List String)) :
    Nat → GoMap Int → List String → List String → Option (List String)
  | _, _, [], result => some result
  | 0, _, _ :: _, _ => none
  | fuel + 1, inDegree, current :: queue, result =>
    let next := relax (graph.getD current []) inDegree queue
    bfs graph fuel next.1 next.2 (result ++ [current])

/-- The function `topologicalSort`. The list `iter` is the order in which
`range inDegree` visits the keys. -/
def topologicalSort (fuel : Nat) (iter : List String)
    (nodes : List WorkflowNode) (edges : List WorkflowEdge) :
    Option (List String) :=
  let graph := buildGraph nodes edges
  let inDegree := buildInDegree nodes edges
  let queue := iter.filter (fun nodeID => inDegree.get? nodeID = some 0)
  bfs graph fuel inDegree queue []

/-- The list `iter` is a possible visiting order of `range inDegree`: the
keys of the in-degree map, each once. -/
def IsRangeOrder (iter : List String) (nodes : List WorkflowNode)
    (edges : List WorkflowEdge) : Prop :=
  iter.Perm (buildInDegree nodes edges).keys

/-! ## Input composer (`prepareInput`, `getPredecessors`) -/

/-- The function `getPredecessors`. -/
def getPredecessors (nodeID : String) (edges : List WorkflowEdge) :
    List String :=
  edges.foldl
    (fun result edge =>
      if edge.Target = nodeID then result ++ [edge.Source] else result)
    []

/-- The record `{"error": output.Error, "data": output.Data}` stored under a
predecessor id in `$previous`. -/
def previousRecord (output : TaskOutput) : Value :=
  Value.obj [("error", Value.str output.Error), ("data", output.Data)]

/-- The loop of `prepareInput` that fills the map `previous`. -/
def buildPrevious (predecessors : List String)
    (nodeOutputs : GoMap TaskOutput) : GoMap Value :=
  predecessors.foldl
    (fun previous predID =>
      match nodeOutputs.get? predID with
      | some output => previous.set predID (previousRecord output)
      | none => previous)
    []

/-- The loop of `prepareInput` that merges the entries of `data` into
`input`, for the keys `input` does not have yet. -/
def flatten (input : TaskInput) (data : GoMap Value) : TaskInput :=
  (GoMap.range data).foldl
    (fun input kv =>
      if (input.get? kv.1).isSome then input else input.set kv.1 kv.2)
    input

/-- The function `prepareInput`. -/
def prepareInput (nodeID : String) (config : TaskInput)
    (edges : List WorkflowEdge) (nodeOutputs : GoMap TaskOutput) :
    TaskInput :=
  let input : TaskInput :=
    (GoMap.range config).foldl (fun input kv => input.set kv.1 kv.2) []
  let predecessors := getPredecessors nodeID edges
  if predecessors.length > 0 then
    let previous := buildPrevious predecessors nodeOutputs
    let input := input.set "$previous" (Value.obj previous)
    if predecessors.length = 1 then
      match nodeOutputs.get? (predecessors.headD "") with
      | some output =>
        match output.Data with
        | Value.obj data => flatten input data
        | _ => input
      | none => input
    else input
  else input

/-! ## Execution orchestrator (`runWorkflow`) -/

/-- What a run takes from outside: the task registry and the clock.
`execute k taskType input` is what the `k`-th call of `executor.Execute` of
the run returns (tasks may do I/O, so the result may depend on `k`);
`now k` is the `k`-th reading of `time.Now()`, in milliseconds;
`format` is `Format(time.RFC3339)`. -/
structure Env where
  execute : Nat → String → TaskInput → TaskOutput
  now : Nat → Int
  format : Int → String

/-- One call of `executor.Execute` made by a run: the node it was made for,
the two arguments and the output returned. -/
structure Invocation where
  NodeID : String
  TaskType : String
  Input : TaskInput
  Output : TaskOutput

/-- What a run of `runWorkflow` produces: the returned result and the calls
of the task executor it made, in order. -/
structure Run where
  result : WorkflowExecutionResult
  calls : List Invocation

/-- The variables of `runWorkflow` that its node loop updates; `clock` counts
the readings of `time.Now()` taken so far. -/
structure RunState where
  logs : List NodeExecutionLog
  nodeOutputs : GoMap TaskOutput
  finalOutput : Option TaskOutput
  clock : Nat
  calls : List Invocation

/-- The zero value of `WorkflowNode`, read from `nodeMap` for an absent id. -/
def zeroNode : WorkflowNode := ⟨"", "", "", []⟩

/-- The map `nodeMap` of `runWorkflow`. -/
def buildNodeMap (nodes : List WorkflowNode) : GoMap WorkflowNode :=
  nodes.foldl (fun nodeMap node => nodeMap.set node.ID node) []

/-- The loop `for _, nodeID := range executionOrder` of `runWorkflow`,
with the return that follows it. -/
def runNodes (env : Env) (workflow : Workflow)
    (nodeMap : GoMap WorkflowNode) (startTime : Int) :
    List String → RunState → Run
  | [], s =>
    { result :=
        { Status := "success"
          StartTime := env.format startTime
          EndTime := env.format (env.now s.clock)
          Logs := s.logs
          FinalOutput := s.finalOutput
          Error := "" }
      calls := s.calls }
  | nodeID :: rest, s =>
    let node := nodeMap.getD nodeID zeroNode
    let nodeStartTime := env.now s.clock
    let logs := s.logs ++ [
      { NodeID := nodeID
        NodeName := node.Label
        Status := "running"
        Message := "开始执行任务: " ++ node.Label
        Input := []
        Output := none
        Duration := 0
        Timestamp := env.format nodeStartTime }]
    let input := prepareInput nodeID node.Config workflow.Edges s.nodeOutputs
    let output := env.execute s.calls.length node.Type_ input
    let endTime := env.now (s.clock + 1)
    let duration := endTime - nodeStartTime
    let nodeOutputs := s.nodeOutputs.set nodeID output
    let calls := s.calls ++ [
      { NodeID := nodeID, TaskType := node.Type_, Input := input,
        Output := output }]
    if !output.IsSuccess then
      { result :=
          { Status := "error"
            StartTime := env.format startTime
            EndTime := env.format endTime
            Logs := logs ++ [
              { NodeID := nodeID
                NodeName := node.Label
                Status := "error"
                Message := "任务执行失败: " ++ output.Error
                Input := input
                Output := some output
                Duration := duration
                Timestamp := env.format endTime }]
            FinalOutput := some output
            Error :=
              "任务 \"" ++ node.Label ++ "\" 执行失败: " ++ output.Error }
        calls := calls }
    else
      runNodes env workflow nodeMap startTime rest
        { logs := logs ++ [
            { NodeID := nodeID
              NodeName := node.Label
              Status := "success"
              Message := "任务执行成功: " ++ node.Label
              Input := input
              Output := some output
              Duration := duration
              Timestamp := env.format endTime }]
          nodeOutputs := nodeOutputs
          finalOutput := some output
          clock := s.clock + 2
          calls := calls }

/-- The function `runWorkflow`, given the fuel and the visiting order that
`topologicalSort` takes. -/
def runWorkflow (env : Env) (fuel : Nat) (iter : List String)
    (workflow : Workflow) : Option Run :=
  let startTime := env.now 0
  match topologicalSort fuel iter workflow.Nodes workflow.Edges with
  | none => none
  | some executionOrder =>
    if executionOrder.length ≠ workflow.Nodes.length then
      some
        { result :=
            { Status := "error"
              StartTime := env.format startTime
              EndTime := env.format (env.now 1)
              Logs := []
              FinalOutput := none
              Error := "工作流存在循环依赖，无法执行" }
          calls := [] }
    else
      some (runNodes env workflow (buildNodeMap workflow.Nodes) startTime
        executionOrder
        { logs := []
          nodeOutputs := []
          finalOutput := none
          clock := 1
          calls := [] })

/-! ## Vocabulary of the statements -/

/-- The node ids of a node list, in order. -/
def nodeIDs (nodes : List WorkflowNode) : List String :=
  nodes.map (fun n => n.ID)

/-- The distinct ids mentioned by the nodes or by an endpoint of an edge. -/
def mentionedIDs (nodes : List WorkflowNode) (edges : List WorkflowEdge) :
    List String :=
  (nodeIDs nodes ++ edges.map (fun e => e.Source)
    ++ edges.map (fun e => e.Target)).dedup

/-- The targets of the edges leaving `c`, in edge order. -/
def succs (edges : List WorkflowEdge) (c : String) : List String :=
  (edges.filter (fun e => e.Source = c)).map (fun e => e.Target)

/-- The number of edges into `k` whose source is not in `done`. -/
def pending (edges : List WorkflowEdge) (done : List String) (k : String) :
    Nat :=
  edges.countP (fun e => e.Target = k ∧ e.Source ∉ done)

/-- The edge relation of an edge list: there is an edge from `a` to `b`. -/
def EdgeRel (edges : List WorkflowEdge) (a b : String) : Prop :=
  ∃ e ∈ edges, e.Source = a ∧ e.Target = b

/-- Some id reaches itself along one or more edges. -/
def HasCycle (edges : List WorkflowEdge) : Prop :=
  ∃ a, Relation.TransGen (EdgeRel edges) a a

/-- No id reaches itself along one or more edges. -/
def Acyclic (edges : List WorkflowEdge) : Prop :=
  ∀ a, ¬ Relation.TransGen (EdgeRel edges) a a

/-- Every edge has its source at a strictly smaller index of `order` than its
target, both being in `order`. -/
def EdgesForward (edges : List WorkflowEdge) (order : List String) : Prop :=
  ∀ e ∈ edges, order.indexOf e.Source < order.indexOf e.Target ∧
    order.indexOf e.Target < order.length

/-! ## Vocabulary of the proofs about the node loop -/

/-- The label `nodeMap[nodeID].Label` used in log entries and messages. -/
def labelOf (nodeMap : GoMap WorkflowNode) (nodeID : String) : String :=
  (nodeMap.getD nodeID zeroNode).Label

/-- The call of the task executor that the loop body makes for `nodeID` in
state `s`. -/
def invocationAt (env : Env) (workflow : Workflow)
    (nodeMap : GoMap WorkflowNode) (s : RunState) (nodeID : String) :
    Invocation :=
  let node := nodeMap.getD nodeID zeroNode
  let input := prepareInput nodeID node.Config workflow.Edges s.nodeOutputs
  { NodeID := nodeID, TaskType := node.Type_, Input := input,
    Output := env.execute s.calls.length node.Type_ input }

/-- The "running" log entry of a call whose start time is reading `clock`. -/
def runningEntry (env : Env) (nodeMap : GoMap WorkflowNode) (clock : Nat)
    (c : Invocation) : NodeExecutionLog :=
  { NodeID := c.NodeID
    NodeName := labelOf nodeMap c.NodeID
    Status := "running"
    Message := "开始执行任务: " ++ labelOf nodeMap c.NodeID
    Input := []
    Output := none
    Duration := 0
    Timestamp := env.format (env.now clock) }

/-- The terminal log entry of a call whose start time is reading `clock`. -/
def terminalEntry (env : Env) (nodeMap : GoMap WorkflowNode) (clock : Nat)
    (c : Invocation) : NodeExecutionLog :=
  { NodeID := c.NodeID
    NodeName := labelOf nodeMap c.NodeID
    Status := if c.Output.IsSuccess then "success" else "error"
    Message :=
      if c.Output.IsSuccess then "任务执行成功: " ++ labelOf nodeMap c.NodeID
      else "任务执行失败: " ++ c.Output.Error
    Input := c.Input
    Output := some c.Output
    Duration := env.now (clock + 1) - env.now clock
    Timestamp := env.format (env.now (clock + 1)) }

/-- The log entries of a sequence of calls, the first starting at reading
`clock`: a running entry and a terminal entry for each. -/
def logsOf (env : Env) (nodeMap : GoMap WorkflowNode) :
    Nat → List Invocation → List NodeExecutionLog
  | _, [] => []
  | clock, c :: cs =>
    runningEntry env nodeMap clock c :: terminalEntry env nodeMap clock c
      :: logsOf env nodeMap (clock + 2) cs

/-- The state of the loop after a successful call `c` made in state `s`. -/
def nextState (env : Env) (nodeMap : GoMap WorkflowNode) (s : RunState)
    (c : Invocation) : RunState :=
  { logs := s.logs
      ++ [runningEntry env nodeMap s.clock c, terminalEntry env nodeMap s.clock c]
    nodeOutputs := s.nodeOutputs.set c.NodeID c.Output
    finalOutput := some c.Output
    clock := s.clock + 2
    calls := s.calls ++ [c] }

/-- The state in which `runWorkflow` enters its node loop. -/
def initialState : RunState :=
  { logs := [], nodeOutputs := [], finalOutput := none, clock := 1,
    calls := [] }

/-- The loop invariant of the queue loop, for the key set `K` of the in-degree
map: no id is in `result ++ queue` twice, every counter is the number of
in-edges from sources not yet emitted, the ids emitted or queued are the keys
with no such in-edge left, and the ids emitted so far respect the edges. -/
structure SortInv (edges : List WorkflowEdge) (K : List String)
    (deg : GoMap Int) (queue result : List String) : Prop where
  nodup : (result ++ queue).Nodup
  deg_eq : ∀ k, deg.get? k
    = if k ∈ K then some (pending edges result k : Int) else none
  mem_iff : ∀ k, k ∈ result ++ queue ↔ k ∈ K ∧ pending edges result k = 0
  forward : ∀ e ∈ edges, e.Target ∈ result →
    result.indexOf e.Source < result.indexOf e.Target

/-- What the node loop does from state `s` on the ids `ids`, in terms of the
calls `new` it makes: the calls go through a prefix of `ids`, the log grows by
their entries, every call but the last succeeds, and the result is either a
success after all of `ids` or the failure of the last call. -/
structure RunTrace (env : Env) (nodeMap : GoMap WorkflowNode)
    (ids : List String) (s : RunState) (run : Run) (new : List Invocation) :
    Prop where
  calls_eq : run.calls = s.calls ++ new
  ids_eq : new.map (fun c => c.NodeID) = ids.take new.length
  logs_eq : run.result.Logs = s.logs ++ logsOf env nodeMap s.clock new
  init_ok : ∀ c ∈ new.dropLast, c.Output.Error = ""
  outcome :
    (new.length = ids.length ∧ (∀ c ∈ new, c.Output.Error = "")
      ∧ run.result.Status = "success" ∧ run.result.Error = ""
      ∧ run.result.FinalOutput
        = (new.getLast?.map (fun c => c.Output)).or s.finalOutput)
    ∨ (∃ c, new.getLast? = some c ∧ c.Output.Error ≠ ""
      ∧ run.result.Status = "error"
      ∧ run.result.FinalOutput = some c.Output
      ∧ run.result.Error = "任务 \"" ++ labelOf nodeMap c.NodeID
          ++ "\" 执行失败: " ++ c.Output.Error)

/-! ## Example data -/

/-- A node with id `id`, task type "log" and an empty config. -/
def mkNode (id : String) : WorkflowNode := ⟨id, "log", id, []⟩

/-- An environment for the examples: a task of type "fail" fails with the
error "boom", every other task succeeds with nil data; the clock reads
0, 1, 2, ... -/
def demoEnv : Env :=
  { execute := fun _ taskType _ =>
      if taskType = "fail" then ⟨"boom", Value.null, []⟩
      else ⟨"", Value.null, []⟩
    now := fun k => (k : Int)
    format := fun _ => "t" }

/-- The chain A → B → C in which the task of B fails. -/
def chainWorkflow : Workflow :=
  { Nodes := [⟨"A", "log", "first", []⟩, ⟨"B", "fail", "second", []⟩,
      ⟨"C", "log", "third", []⟩]
    Edges := [⟨"A", "B"⟩, ⟨"B", "C"⟩] }

/-- A three-node acyclic workflow: A → B, A → C, B → C. -/
def diamondNodes : List WorkflowNode := [mkNode "A", mkNode "B", mkNode "C"]

/-- The edges of the three-node acyclic workflow. -/
def diamondEdges : List WorkflowEdge :=
  [⟨"A", "B"⟩, ⟨"A", "C"⟩, ⟨"B", "C"⟩]

/-- A rank that increases along the edges of `diamondEdges`. -/
def diamondRank (k : String) : Nat :=
  if k = "A" then 0 else if k = "B" then 1 else 2

/-- The edges of a three-node workflow with the cycle B → C → B. -/
def loopEdges : List WorkflowEdge :=
  [⟨"A", "B"⟩, ⟨"B", "C"⟩, ⟨"C", "B"⟩]

/-- Two nodes A and B. -/
def pairNodes : List WorkflowNode := [mkNode "A", mkNode "B"]

/-- A self-loop on A and an edge from B to X, which is not a node. -/
def danglingEdges : List WorkflowEdge := [⟨"A", "A"⟩, ⟨"B", "X"⟩]

/-- The acyclic workflow A → B, A → C, B → C, all tasks of type "log". -/
def diamondWorkflow : Workflow := ⟨diamondNodes, diamondEdges⟩

/-- The cyclic workflow A → B, B → C, C → B. -/
def loopWorkflow : Workflow := ⟨diamondNodes, loopEdges⟩

/-- The run of the chain A → B → C under `demoEnv`. -/
def chainRun : Run :=
  runNodes demoEnv chainWorkflow (buildNodeMap chainWorkflow.Nodes)
    (demoEnv.now 0) ["A", "B", "C"] initialState

/-- The call that `chainRun` makes for B. -/
def chainCallB : Invocation :=
  { NodeID := "B", TaskType := "fail",
    Input := [("$previous",
      Value.obj [("A", previousRecord ⟨"", Value.null, []⟩)])],
    Output := ⟨"boom", Value.null, []⟩ }

/-- The run of the workflow A → B, A → C, B → C under `demoEnv`. -/
def diamondRun : Run :=
  runNodes demoEnv diamondWorkflow (buildNodeMap diamondWorkflow.Nodes)
    (demoEnv.now 0) ["A", "B", "C"] initialState

/-- Recorded outputs in which A succeeded with the data `x = 1, y = 2`. -/
def recordedA : GoMap TaskOutput :=
  [("A", ⟨"", Value.obj [("x", Value.num 1), ("y", Value.num 2)], []⟩)]

/-- The config `y = 99`. -/
def configY : TaskInput := [("y", Value.num 99)]

/-! ## Task registry (`registry.go`) -/

/-- The type `TaskExecutorFunc`. -/
abbrev TaskExecutorFunc := TaskInput → TaskOutput

/-- The struct `ParamOption`. -/
structure ParamOption where
  Label : String
  Value : Value

/-- The struct `ParamConfig`. -/
structure ParamConfig where
  Name : String
  Type_ : String
  Label : String
  Required : Bool
  Default : Value
  Description : String
  Options : List ParamOption

/-- The struct `TaskConfig`. -/
structure TaskConfig where
  ID : String
  Name : String
  Category : String
  Description : String
  Params : List ParamConfig

/-- The struct `registeredExecutor`. -/
structure registeredExecutor where
  config : TaskConfig
  executor : TaskExecutorFunc

/-- The function `Get`, on the state `registry` of the registry map. -/
def Get (registry : GoMap registeredExecutor) (taskType : String) :
    Option TaskExecutorFunc :=
  match registry.get? taskType with
  | some reg => some reg.executor
  | none => none

/-- The function `Execute`, on the state `registry` of the registry map. -/
def Execute (registry : GoMap registeredExecutor) (taskType : String)
    (input : TaskInput) : TaskOutput :=
  match Get registry taskType with
  | none =>
    { Error := "未知的任务类型: " ++ taskType, Data := Value.null, Extra := [] }
  | some executor => executor input

/-- The environment of a run whose tasks are those of `registry`. -/
def registryEnv (registry : GoMap registeredExecutor) (now : Nat → Int)
    (format : Int → String) : Env :=
  { execute := fun _ taskType input => Execute registry taskType input
    now := now
    format := format }

/-! ## More vocabulary of the statements -/

/-- The map `nodeOutputs` after the calls `cs` were recorded in `m`. -/
def recordOutputs (m : GoMap TaskOutput) (cs : List Invocation) :
    GoMap TaskOutput :=
  cs.foldl (fun m c => m.set c.NodeID c.Output) m

/-- The edges that are left when the edges with an endpoint that is not a
node id are removed. -/
def removeDangling (nodes : List WorkflowNode) (edges : List WorkflowEdge) :
    List WorkflowEdge :=
  edges.filter
    (fun e => e.Source ∈ nodeIDs nodes ∧ e.Target ∈ nodeIDs nodes)

/-- An environment for the examples in which a task of type "fail" fails with
the error "boom" and the data 7, and every other task succeeds with nil
data. -/
def dataEnv : Env :=
  { execute := fun _ taskType _ =>
      if taskType = "fail" then ⟨"boom", Value.num 7, []⟩
      else ⟨"", Value.null, []⟩
    now := fun k => (k : Int)
    format := fun _ => "t" }

/-- The run of the chain A → B → C under `dataEnv`. -/
def dataRun : Run :=
  runNodes dataEnv chainWorkflow (buildNodeMap chainWorkflow.Nodes)
    (dataEnv.now 0) ["A", "B", "C"] initialState

/-- A registry in which only the task type "log" is registered. -/
def logRegistry : GoMap registeredExecutor :=
  [("log", ⟨⟨"log", "Log", "basic", "", []⟩, fun _ => ⟨"", Value.null, []⟩⟩)]

/-- The environment of `logRegistry`. -/
def logEnv : Env := registryEnv logRegistry (fun k => (k : Int)) (fun _ => "t")

/-- The workflow A → B in which the task type "nope" of B is not one of
`logRegistry`. -/
def unknownWorkflow : Workflow :=
  { Nodes := [⟨"A", "log", "first", []⟩, ⟨"B", "nope", "second", []⟩]
    Edges := [⟨"A", "B"⟩] }

/-- The run of `unknownWorkflow` under `logEnv`. -/
def unknownRun : Run :=
  runNodes logEnv unknownWorkflow (buildNodeMap unknownWorkflow.Nodes)
    (logEnv.now 0) ["A", "B"] initialState

/-- The call that `unknownRun` makes for B. -/
def unknownCallB : Invocation :=
  { NodeID := "B", TaskType := "nope",
    Input := [("$previous",
      Value.obj [("A", previousRecord ⟨"", Value.null, []⟩)])],
    Output := ⟨"未知的任务类型: nope", Value.null, []⟩ }

/-- The single node A. -/
def soloNodes : List WorkflowNode := [mkNode "A"]

/-- The acyclic edges A → B, A → C, B → C followed by the edge C → X, whose
target X is not a node. -/
def diamondDanglingEdges : List WorkflowEdge :=
  diamondEdges ++ [⟨"C", "X"⟩]

/-! ## Registering executors (`registry.go`, `http_request.go`,
`conditions.go`, `basic_actions.go`) -/

/-- The function `Register`, on the state `registry` of the registry map. -/
def Register (registry : GoMap registeredExecutor) (config : TaskConfig)
    (executor : TaskExecutorFunc) : GoMap registeredExecutor :=
  registry.set config.ID { config := config, executor := executor }

/-- The function `GetConfig`, on the state `registry` of the registry map;
`none` is the answer `(TaskConfig{}, false)`. -/
def GetConfig (registry : GoMap registeredExecutor) (taskType : String) :
    Option TaskConfig :=
  match registry.get? taskType with
  | some reg => some reg.config
  | none => none

/-- The function `executeHTTPRequest`. What it does once the URL is not
empty (building and sending the request, reading the response) is the
argument `send`. -/
def executeHTTPRequest (send : TaskInput → TaskOutput) (input : TaskInput) :
    TaskOutput :=
  let url :=
    match input.get? "url" with
    | some (Value.str s) => s
    | _ => ""
  if url = "" then
    { Error := "URL 不能为空", Data := Value.null, Extra := [] }
  else send input

/-- The `TaskConfig` that `registerHTTPRequest` registers. -/
def httpRequestConfig : TaskConfig :=
  { ID := "http-request"
    Name := "HTTP 请求"
    Category := "action"
    Description := "发送 HTTP 请求并获取响应"
    Params := [
      { Name := "url", Type_ := "string", Label := "请求 URL", Required := true,
        Default := Value.null, Description := "完整的请求地址", Options := [] },
      { Name := "method", Type_ := "select", Label := "请求方法",
        Required := true, Default := Value.str "GET", Description := "",
        Options := [⟨"GET", Value.str "GET"⟩, ⟨"POST", Value.str "POST"⟩,
          ⟨"PUT", Value.str "PUT"⟩, ⟨"DELETE", Value.str "DELETE"⟩,
          ⟨"PATCH", Value.str "PATCH"⟩] },
      { Name := "headers", Type_ := "json", Label := "请求头", Required := false,
        Default := Value.obj [], Description := "JSON 格式的请求头",
        Options := [] },
      { Name := "body", Type_ := "json", Label := "请求体", Required := false,
        Default := Value.null,
        Description := "JSON 格式的请求体（POST/PUT/PATCH）", Options := [] },
      { Name := "timeout", Type_ := "number", Label := "超时时间",
        Required := false, Default := Value.num 30,
        Description := "请求超时时间（秒）", Options := [] }] }

/-- The function `registerHTTPRequest`. -/
def registerHTTPRequest (send : TaskInput → TaskOutput)
    (registry : GoMap registeredExecutor) : GoMap registeredExecutor :=
  Register registry httpRequestConfig (executeHTTPRequest send)

/-- The `TaskConfig` that `registerIfCondition` registers. -/
def ifConditionConfig : TaskConfig :=
  { ID := "if-condition"
    Name := "条件判断"
    Category := "condition"
    Description := "根据条件判断是否继续执行"
    Params := [
      { Name := "field", Type_ := "string", Label := "判断字段", Required := true,
        Default := Value.null,
        Description := "要判断的字段路径（支持嵌套，如 data.value）",
        Options := [] },
      { Name := "operator", Type_ := "select", Label := "比较运算符",
        Required := true, Default := Value.str "equals", Description := "",
        Options := [⟨"等于", Value.str "equals"⟩,
          ⟨"不等于", Value.str "notEquals"⟩, ⟨"大于", Value.str "gt"⟩,
          ⟨"大于等于", Value.str "gte"⟩, ⟨"小于", Value.str "lt"⟩,
          ⟨"小于等于", Value.str "lte"⟩, ⟨"包含", Value.str "contains"⟩,
          ⟨"为空", Value.str "isEmpty"⟩, ⟨"不为空", Value.str "isNotEmpty"⟩] },
      { Name := "value", Type_ := "string", Label := "比较值", Required := false,
        Default := Value.null, Description := "用于比较的值", Options := [] },
      { Name := "sourceData", Type_ := "json", Label := "数据源",
        Required := false, Default := Value.null,
        Description := "要判断的数据（留空则使用上一步输出）", Options := [] }] }

/-- The function `registerIfCondition`; the executor `executeIfCondition`
that it registers is an argument. -/
def registerIfCondition (executeIfCondition : TaskExecutorFunc)
    (registry : GoMap registeredExecutor) : GoMap registeredExecutor :=
  Register registry ifConditionConfig executeIfCondition

/-- The function `InitExecutors`, from the state `registry` of the registry
map (empty at process start). -/
def InitExecutors (send : TaskInput → TaskOutput)
    (executeIfCondition : TaskExecutorFunc)
    (registry : GoMap registeredExecutor) : GoMap registeredExecutor :=
  registerIfCondition executeIfCondition (registerHTTPRequest send registry)

/-- The function `executeDelay`; the two formatted readings of the clock are
arguments, the sleep has no effect on the output, and `%.1f` prints the whole
number `seconds` with one zero decimal. -/
def executeDelay (startTime endTime : String) (input : TaskInput) :
    TaskOutput :=
  let seconds : Int :=
    match input.get? "seconds" with
    | some (Value.num n) => n
    | _ => 0
  let seconds := if seconds ≤ 0 then 1 else seconds
  { Error := ""
    Data := Value.obj [
      ("delayed", Value.bool true),
      ("seconds", Value.num seconds),
      ("startTime", Value.str startTime),
      ("endTime", Value.str endTime),
      ("message", Value.str ("延时 " ++ toString seconds ++ ".0 秒完成"))]
    Extra := [] }

/-- The `TaskConfig` that `registerDelay` registers. -/
def delayConfig : TaskConfig :=
  { ID := "delay"
    Name := "延时"
    Category := "action"
    Description := "暂停执行指定的时间"
    Params := [
      { Name := "seconds", Type_ := "number", Label := "延时秒数",
        Required := true, Default := Value.num 1,
        Description := "暂停执行的秒数", Options := [] }] }

/-- The function `registerDelay`. -/
def registerDelay (startTime endTime : String)
    (registry : GoMap registeredExecutor) : GoMap registeredExecutor :=
  Register registry delayConfig (executeDelay startTime endTime)

/-- The function `executeLog`; the formatted reading of the clock is an
argument. -/
def executeLog (timestamp : String) (input : TaskInput) : TaskOutput :=
  let level :=
    match input.get? "level" with
    | some (Value.str s) => s
    | _ => ""
  let level := if level = "" then "info" else level
  let message :=
    match input.get? "message" with
    | some (Value.str s) => s
    | _ => ""
  let message := if message = "" then "(empty message)" else message
  let data := input.getD "data" Value.null
  { Error := ""
    Data := Value.obj [
      ("logged", Value.bool true),
      ("level", Value.str level),
      ("message", Value.str message),
      ("data", data),
      ("timestamp", Value.str timestamp)]
    Extra := [] }

/-- The `TaskConfig` that `registerLog` registers. -/
def logConfig : TaskConfig :=
  { ID := "log"
    Name := "日志"
    Category := "action"
    Description := "输出日志信息"
    Params := [
      { Name := "level", Type_ := "select", Label := "日志级别", Required := true,
        Default := Value.str "info", Description := "",
        Options := [⟨"调试", Value.str "debug"⟩, ⟨"信息", Value.str "info"⟩,
          ⟨"警告", Value.str "warn"⟩, ⟨"错误", Value.str "error"⟩] },
      { Name := "message", Type_ := "string", Label := "日志内容",
        Required := true, Default := Value.null,
        Description := "要输出的日志信息", Options := [] },
      { Name := "data", Type_ := "json", Label := "附加数据", Required := false,
        Default := Value.null, Description := "JSON 格式的附加数据",
        Options := [] }] }

/-- The function `registerLog`. -/
def registerLog (timestamp : String)
    (registry : GoMap registeredExecutor) : GoMap registeredExecutor :=
  Register registry logConfig (executeLog timestamp)

/-- The task types that the executor package defines a `register` function
for. -/
def definedTaskTypes : List String :=
  ["http-request", "if-condition", "delay", "log", "send-email",
    "aliyun-sms", "data-transform", "json-parse", "filter", "aggregate",
    "schedule-trigger"]

/-- A log entry with its Timestamp and Duration erased. -/
def eraseTime (l : NodeExecutionLog) : NodeExecutionLog :=
  { l with Duration := 0, Timestamp := "" }

/-- The workflow with the single node F, whose task fails under `demoEnv`. -/
def failOnlyWorkflow : Workflow :=
  { Nodes := [⟨"F", "fail", "only", []⟩], Edges := [] }

/-- Nodes with a repeated id: A, A, B. -/
def repeatedNodes : List WorkflowNode := [mkNode "A", mkNode "A", mkNode "B"]

/-- Edges with a repeated edge, a self-loop and a dangling edge:
A → B twice, B → B, A → X. -/
def messyEdges : List WorkflowEdge :=
  [⟨"A", "B"⟩, ⟨"A", "B"⟩, ⟨"B", "B"⟩, ⟨"A", "X"⟩]

/-- The nodes A, B, C and the isolated node D. -/
def isolatedNodes : List WorkflowNode :=
  [mkNode "A", mkNode "B", mkNode "C", mkNode "D"]

/-- The environment `demoEnv` with another clock: the same tasks, other
readings and another format. -/
def demoEnvLate : Env :=
  { execute := demoEnv.execute
    now := fun k => (k : Int) + 100
    format := fun _ => "later" }

/-- Two nodes without edge: A, whose task succeeds under `demoEnv`, and B,
whose task fails. -/
def raceWorkflow : Workflow :=
  { Nodes := [⟨"A", "log", "first", []⟩, ⟨"B", "fail", "second", []⟩]
    Edges := [] }

/-- The workflow with the single node R, without edge, whose config has its
own `$previous` with a record of a failure. -/
def staleWorkflow : Workflow :=
  { Nodes := [⟨"R", "log", "root",
      [("$previous", Value.obj [("up",
        Value.obj [("error", Value.str "bad"), ("data", Value.null)])])]⟩]
    Edges := [] }

/-- A task that returns the empty output; it stands for `send` and for
`executeIfCondition` in examples that never call them. -/
def noTask : TaskInput → TaskOutput := fun _ => ⟨"", Value.null, []⟩

/-- The workflow A → B with A of type "delay" and config `seconds = 0`, and B
of type "log" and config `message = "hi"`. -/
def delayLogWorkflow : Workflow :=
  { Nodes := [⟨"A", "delay", "A", [("seconds", Value.num 0)]⟩,
      ⟨"B", "log", "B", [("message", Value.str "hi")]⟩]
    Edges := [⟨"A", "B"⟩] }

/-- The workflow A → B with A of type "http-request" and config `url = ""`,
and a node B of any type, label and config. -/
def httpWorkflow (typeB labelB : String) (configB : TaskInput) : Workflow :=
  { Nodes := [⟨"A", "http-request", "A", [("url", Value.str "")]⟩,
      ⟨"B", typeB, labelB, configB⟩]
    Edges := [⟨"A", "B"⟩] }

/-- The task types of `definedTaskTypes` other than "http-request" and
"if-condition". -/
def otherTaskTypes : List String :=
  ["delay", "log", "send-email", "aliyun-sms", "data-transform",
    "json-parse", "filter", "aggregate", "schedule-trigger"]

/-! ## Library functions the executors call -/

/-- The functions of the Go standard library whose results the executors use
as they come: `reflect.DeepEqual`, `fmt.Sprintf("%v", v)`, and the number that
`fmt.Sscanf(s, "%f", &f)` leaves in `f` (0 when nothing is scanned). A
`float64` is a rational number here. -/
structure GoLib where
  deepEqual : Value → Value → Bool
  sprint : Value → String
  scanFloat : String → Rat

/-- The bytes of a Go string. -/
def utf8Bytes (s : String) : List UInt8 := s.toUTF8.data.toList

/-- The library function `strings.Contains`: `substr` is within `s`. -/
def stringsContains (s substr : String) : Bool :=
  decide (utf8Bytes substr <:+: utf8Bytes s)

/-- The library call `strings.Split(path, ".")`. -/
def splitDots (path : String) : List String :=
  (path.data.splitOn '.').map String.mk

/-- The loop `for _, v := range previous` that the executors run to find the
output of a previous step: the `data` of the first record visited that has
one, nil when no record has one. The list `order` is the order in which the
`range` visits the keys of `previous`. -/
def previousData (previous : GoMap Value) : List String → Value
  | [] => Value.null
  | k :: order =>
    match previous.get? k with
    | some (Value.obj prevOutput) =>
      match GoMap.get? prevOutput "data" with
      | some data => data
      | none => previousData previous order
    | _ => previousData previous order

/-- The list `order` is a possible visiting order of a `range` over the map
`m`: the keys of `m`, each once. -/
def IsVisitOrder (order : List String) (m : GoMap Value) : Prop :=
  order.Perm (GoMap.keys m)

/-! ## The if-condition task (`conditions.go`) -/

/-- The loop of `getNestedValue` over the parts of the path. -/
def walkPath : List String → Value → Value
  | [], current => current
  | part :: parts, current =>
    match current with
    | Value.obj m =>
      match GoMap.get? m part with
      | some val => walkPath parts val
      | none => Value.null
    | _ => Value.null

/-- The function `getNestedValue`. -/
def getNestedValue (data : Value) (path : String) : Value :=
  match data with
  | Value.null => Value.null
  | _ => walkPath (splitDots path) data

/-- The function `toFloat64Condition`. -/
def toFloat64Condition (lib : GoLib) (v : Value) : Rat :=
  match v with
  | Value.num n => (n : Rat)
  | Value.str s => lib.scanFloat s
  | _ => 0

/-- The function `compareNumbersCondition`. -/
def compareNumbersCondition (lib : GoLib) (a : Value) (op : String)
    (b : Value) : Bool :=
  let aFloat := toFloat64Condition lib a
  let bFloat := toFloat64Condition lib b
  if op = "gt" then decide (aFloat > bFloat)
  else if op = "gte" then decide (aFloat ≥ bFloat)
  else if op = "lt" then decide (aFloat < bFloat)
  else if op = "lte" then decide (aFloat ≤ bFloat)
  else false

/-- The function `evaluateCondition`; `len(m)` of a map is the number of its
keys. -/
def evaluateCondition (lib : GoLib) (fieldValue : Value) (operator : String)
    (compareValue : Value) : Bool :=
  if operator = "equals" then
    lib.deepEqual fieldValue compareValue
      || lib.sprint fieldValue == lib.sprint compareValue
  else if operator = "notEquals" then
    !lib.deepEqual fieldValue compareValue
      && lib.sprint fieldValue != lib.sprint compareValue
  else if operator = "contains" then
    stringsContains (lib.sprint fieldValue) (lib.sprint compareValue)
  else if operator = "isEmpty" then
    match fieldValue with
    | Value.null => true
    | Value.str str => str == ""
    | Value.arr arr => arr.length == 0
    | Value.obj m => (GoMap.keys m).length == 0
    | _ => false
  else if operator = "isNotEmpty" then
    match fieldValue with
    | Value.null => false
    | Value.str str => str != ""
    | Value.arr arr => decide (arr.length > 0)
    | Value.obj m => decide ((GoMap.keys m).length > 0)
    | _ => true
  else if operator = "gt" ∨ operator = "gte" ∨ operator = "lt"
      ∨ operator = "lte" then
    compareNumbersCondition lib fieldValue operator compareValue
  else false

/-- The function `executeIfCondition`; `order` is the order in which the
`range` over `$previous` visits its keys. When neither `sourceData` nor
`$previous` yields data, the code sets `sourceData = input`, a value of the
defined type `types.TaskInput`; the type assertion
`current.(map[string]interface{})` of `getNestedValue` fails on it at the first
part of the path, so the field value is nil in that case. -/
def executeIfCondition (lib : GoLib) (order : List String)
    (input : TaskInput) : TaskOutput :=
  let field :=
    match input.get? "field" with
    | some (Value.str s) => s
    | _ => ""
  if field = "" then
    { Error := "判断字段不能为空", Data := Value.null, Extra := [] }
  else
    let operator :=
      match input.get? "operator" with
      | some (Value.str s) => s
      | _ => ""
    let operator := if operator = "" then "equals" else operator
    let compareValue := input.getD "value" Value.null
    let sourceData := input.getD "sourceData" Value.null
    let sourceData :=
      match sourceData with
      | Value.null =>
        match input.get? "$previous" with
        | some (Value.obj previous) => previousData previous order
        | _ => Value.null
      | v => v
    let fieldValue :=
      match sourceData with
      | Value.null => Value.null
      | v => getNestedValue v field
    let result := evaluateCondition lib fieldValue operator compareValue
    if !result then
      { Error := "条件不满足: " ++ field ++ " " ++ operator ++ " "
          ++ lib.sprint compareValue
        Data := Value.obj [
          ("condition", Value.bool false),
          ("field", Value.str field),
          ("operator", Value.str operator),
          ("value", compareValue),
          ("fieldValue", fieldValue)]
        Extra := [] }
    else
      { Error := ""
        Data := Value.obj [
          ("condition", Value.bool true),
          ("field", Value.str field),
          ("operator", Value.str operator),
          ("value", compareValue),
          ("fieldValue", fieldValue),
          ("message", Value.str "条件满足，继续执行")]
        Extra := [] }

/-- The operator that `executeIfCondition` evaluates for `input`. -/
def conditionOperator (input : TaskInput) : String :=
  match input.get? "operator" with
  | some (Value.str s) => if s = "" then "equals" else s
  | _ => "equals"

/-- The data an executor works on, for the parameter `key` ("sourceData" or
"data") that names it: `input[key]` when it is not nil, else what the loop
over `$previous` finds. -/
def resolvedData (key : String) (order : List String) (input : TaskInput) :
    Value :=
  match input.getD key Value.null with
  | Value.null =>
    match input.get? "$previous" with
    | some (Value.obj previous) => previousData previous order
    | _ => Value.null
  | v => v

/-- One step of a lookup: the value under `k` when `v` is a mapping that has
the key `k`. -/
def lookupKey (v : Value) (k : String) : Option Value :=
  match v with
  | Value.obj m => GoMap.get? m k
  | _ => none

/-- The value reached from `data` by looking up the keys `k1`, then `k2`, …
in successive mappings; `none` as soon as a key is missing or the current
value is not a mapping. -/
def lookupChain : Value → List String → Option Value
  | v, [] => some v
  | v, k :: ks => (lookupKey v k).bind (fun v1 => lookupChain v1 ks)

/-- The path `k1.k2.….kn` of the keys `k1`, …, `kn`. -/
def joinDots (keys : List String) : String :=
  String.mk (['.'].intercalate (keys.map String.data))

/-- A stand-in for the library in the examples: a string prints as itself, a
whole number in decimal, nil as "<nil>"; `DeepEqual` compares the printed
forms and nothing is scanned as a number. -/
def demoLib : GoLib :=
  { deepEqual := fun a b =>
      (match a with
        | Value.str s => s
        | Value.num n => toString n
        | Value.null => "<nil>"
        | _ => "?")
      == (match b with
        | Value.str s => s
        | Value.num n => toString n
        | Value.null => "<nil>"
        | _ => "?")
    sprint := fun v =>
      match v with
      | Value.str s => s
      | Value.num n => toString n
      | Value.null => "<nil>"
      | _ => "?"
    scanFloat := fun _ => 0 }

/-- An input of the if-condition task: is the `status` of the given source
data equal to "ok"? -/
def statusInput : TaskInput :=
  [("field", Value.str "status"), ("value", Value.str "ok"),
    ("sourceData", Value.obj [("status", Value.str "ok")])]

/-! ## Data transforms (`transforms.go`) -/

/-- The function `toStringSlice`, on a JSON-like value (the case `[]string`
does not occur for one). -/
def toStringSlice (v : Value) : List String × Bool :=
  match v with
  | Value.arr val =>
    let result := val.foldl
      (fun (result : List String) item =>
        match item with
        | Value.str s => result ++ [s]
        | _ => result)
      []
    (result, decide (result.length > 0))
  | _ => ([], false)

/-- The function `extractFields`. -/
def extractFields (sourceData fields : Value) : TaskOutput :=
  let fieldList := (toStringSlice fields).1
  let ok := (toStringSlice fields).2
  if !ok ∨ fieldList.length = 0 then
    { Error := "请提供要提取的字段列表", Data := Value.null, Extra := [] }
  else
    match sourceData with
    | Value.obj sourceMap =>
      { Error := ""
        Data := Value.obj (fieldList.foldl
          (fun (result : GoMap Value) field =>
            match GoMap.get? sourceMap field with
            | some value => result.set field value
            | none => result)
          [])
        Extra := [] }
    | _ => { Error := "源数据必须是对象类型", Data := Value.null, Extra := [] }

/-- The function `renameFields`; `order` is the order in which the `range`
over the source map visits its keys. -/
def renameFields (order : List String) (sourceData fields : Value) :
    TaskOutput :=
  match fields with
  | Value.obj fieldMap =>
    if (GoMap.keys fieldMap).length = 0 then
      { Error := "请提供字段重命名映射", Data := Value.null, Extra := [] }
    else
      match sourceData with
      | Value.obj sourceMap =>
        { Error := ""
          Data := Value.obj (order.foldl
            (fun (result : GoMap Value) k =>
              match GoMap.get? sourceMap k with
              | some v =>
                match GoMap.get? fieldMap k with
                | some (Value.str newName) => result.set newName v
                | _ => result.set k v
              | none => result)
            [])
          Extra := [] }
      | _ => { Error := "源数据必须是对象类型", Data := Value.null, Extra := [] }
  | _ => { Error := "请提供字段重命名映射", Data := Value.null, Extra := [] }

/-- The two copying loops shared by `addFields` and `mergeData`: the entries
of the source map, then those of the second map. -/
def copyBoth (sourceMap second : GoMap Value) : GoMap Value :=
  (GoMap.range second).foldl
    (fun (result : GoMap Value) kv => result.set kv.1 kv.2)
    ((GoMap.range sourceMap).foldl
      (fun (result : GoMap Value) kv => result.set kv.1 kv.2) [])

/-- The function `addFields`. -/
def addFields (sourceData fields : Value) : TaskOutput :=
  match fields with
  | Value.obj fieldMap =>
    if (GoMap.keys fieldMap).length = 0 then
      { Error := "请提供要添加的字段", Data := Value.null, Extra := [] }
    else
      let sourceMap : GoMap Value :=
        match sourceData with
        | Value.obj m => m
        | _ => []
      { Error := "", Data := Value.obj (copyBoth sourceMap fieldMap),
        Extra := [] }
  | _ => { Error := "请提供要添加的字段", Data := Value.null, Extra := [] }

/-- The function `removeFields`. -/
def removeFields (sourceData fields : Value) : TaskOutput :=
  let fieldList := (toStringSlice fields).1
  let ok := (toStringSlice fields).2
  if !ok ∨ fieldList.length = 0 then
    { Error := "请提供要删除的字段列表", Data := Value.null, Extra := [] }
  else
    match sourceData with
    | Value.obj sourceMap =>
      let removeSet : GoMap Bool :=
        fieldList.foldl (fun (removeSet : GoMap Bool) field =>
          removeSet.set field true) []
      { Error := ""
        Data := Value.obj ((GoMap.range sourceMap).foldl
          (fun (result : GoMap Value) kv =>
            if !removeSet.getD kv.1 false then result.set kv.1 kv.2
            else result)
          [])
        Extra := [] }
    | _ => { Error := "源数据必须是对象类型", Data := Value.null, Extra := [] }

/-- The function `mergeData`. -/
def mergeData (sourceData fields : Value) : TaskOutput :=
  match fields with
  | Value.obj mergeMap =>
    let sourceMap : GoMap Value :=
      match sourceData with
      | Value.obj m => m
      | _ => []
    { Error := "", Data := Value.obj (copyBoth sourceMap mergeMap),
      Extra := [] }
  | _ => { Error := "请提供要合并的数据", Data := Value.null, Extra := [] }

/-- The `switch operation` of `executeDataTransform`: the transform of
`sourceData` that `operation` names. -/
def applyTransform (renameOrder : List String) (operation : String)
    (sourceData fields : Value) : TaskOutput :=
  if operation = "extract" then extractFields sourceData fields
  else if operation = "rename" then renameFields renameOrder sourceData fields
  else if operation = "add" then addFields sourceData fields
  else if operation = "remove" then removeFields sourceData fields
  else if operation = "merge" then mergeData sourceData fields
  else
    { Error := "未知的转换操作: " ++ operation, Data := Value.null, Extra := [] }

/-- The function `executeDataTransform`; `order` is the order in which the
`range` over `$previous` visits its keys, `renameOrder` the one of the `range`
over the source map in `renameFields`. -/
def executeDataTransform (order renameOrder : List String)
    (input : TaskInput) : TaskOutput :=
  let operation :=
    match input.get? "operation" with
    | some (Value.str s) => s
    | _ => ""
  let operation := if operation = "" then "extract" else operation
  let sourceData := input.getD "sourceData" Value.null
  let sourceData :=
    match sourceData with
    | Value.null =>
      match input.get? "$previous" with
      | some (Value.obj previous) => previousData previous order
      | _ => Value.null
    | v => v
  match sourceData with
  | Value.null =>
    { Error := "没有可转换的数据", Data := Value.null, Extra := [] }
  | sourceData =>
    applyTransform renameOrder operation sourceData
      (input.getD "fields" Value.null)

/-- The operation that `executeDataTransform` applies for `input`. -/
def transformOperation (input : TaskInput) : String :=
  match input.get? "operation" with
  | some (Value.str s) => if s = "" then "extract" else s
  | _ => "extract"

/-- An input of the data-transform task after one predecessor A whose data is
`{id: 1, name: "n"}`: extract the field `name`. -/
def extractInput : TaskInput :=
  [("operation", Value.str "extract"),
    ("fields", Value.arr [Value.str "name"]),
    ("$previous", Value.obj [("A", Value.obj [("error", Value.str ""),
      ("data", Value.obj [("id", Value.num 1), ("name", Value.str "n")])])])]

/-! ## The filter task (`transforms.go`) -/

/-- The slice expression `s[i:j]` on the bytes `s` of a string; `none` is the
run-time panic for bounds out of range. -/
def sliceBytes {α : Type} (s : List α) (i j : Nat) : Option (List α) :=
  if i ≤ j ∧ j ≤ s.length then some ((s.drop i).take (j - i)) else none

/-- The body of the loop of `findSubstring`, for the indices `i` still to be
visited; `none` when a slice panics. -/
def findSubstringAt {α : Type} [DecidableEq α] (s substr : List α) :
    List Nat → Option Bool
  | [] => some false
  | i :: rest =>
    match sliceBytes s i (i + substr.length) with
    | none => none
    | some window =>
      if window = substr then some true else findSubstringAt s substr rest

/-- The function `findSubstring`, on the bytes of its two strings. The loop
`for i := 0; i <= len(s)-len(substr); i++` visits `i = 0, …,
len(s)-len(substr)`, and no index when that bound is negative. -/
def findSubstring {α : Type} [DecidableEq α] (s substr : List α) :
    Option Bool :=
  findSubstringAt s substr
    (List.range ((s.length : Int) - (substr.length : Int) + 1).toNat)

/-- The function `contains`, on the bytes of its two strings; `none` when
`findSubstring` panics. -/
def contains {α : Type} [DecidableEq α] (s substr : List α) : Option Bool :=
  if s.length ≥ substr.length then
    if s = substr then some true
    else if substr.length = 0 then some true
    else if s.length > 0 ∧ substr.length > 0 then findSubstring s substr
    else some false
  else some false

/-- The sequence `substr` occurs as a contiguous part of `s`. -/
def OccursIn {α : Type} (substr s : List α) : Prop :=
  ∃ front back : List α, s = front ++ substr ++ back

/-- The function `toFloat64`. -/
def toFloat64 (lib : GoLib) (v : Value) : Rat :=
  match v with
  | Value.num n => (n : Rat)
  | Value.str s => lib.scanFloat s
  | _ => 0

/-- The function `compareNumbers`. -/
def compareNumbers (lib : GoLib) (a : Value) (op : String) (b : Value) :
    Bool :=
  let aFloat := toFloat64 lib a
  let bFloat := toFloat64 lib b
  if op = "gt" then decide (aFloat > bFloat)
  else if op = "gte" then decide (aFloat ≥ bFloat)
  else if op = "lt" then decide (aFloat < bFloat)
  else if op = "lte" then decide (aFloat ≤ bFloat)
  else false

/-- The function `matchesCondition`; `none` when `contains` panics. -/
def matchesCondition (lib : GoLib) (fieldValue : Value) (operator : String)
    (compareValue : Value) : Option Bool :=
  if operator = "equals" then some (lib.deepEqual fieldValue compareValue)
  else if operator = "notEquals" then
    some (!lib.deepEqual fieldValue compareValue)
  else if operator = "contains" then
    match fieldValue, compareValue with
    | Value.str str, Value.str cmp => contains (utf8Bytes str) (utf8Bytes cmp)
    | _, _ => some false
  else if operator = "isNotEmpty" then
    match fieldValue with
    | Value.null => some false
    | Value.str s => some (s != "")
    | _ => some true
  else if operator = "gt" ∨ operator = "gte" ∨ operator = "lt"
      ∨ operator = "lte" then
    some (compareNumbers lib fieldValue operator compareValue)
  else some false

/-- The loop `for _, item := range arr` of `executeFilter`, from the slice
`result` built so far. -/
def filterLoop (lib : GoLib) (field operator : String) (value : Value) :
    List Value → List Value → Option (List Value)
  | [], result => some result
  | item :: rest, result =>
    match item with
    | Value.obj itemMap =>
      match matchesCondition lib (GoMap.getD itemMap field Value.null)
          operator value with
      | none => none
      | some true => filterLoop lib field operator value rest (result ++ [item])
      | some false => filterLoop lib field operator value rest result
    | _ => filterLoop lib field operator value rest result

/-- The function `executeFilter`; `order` is the order in which the `range`
over `$previous` visits its keys, and `none` is a panic. The slice `result`
is an array also when nothing was appended to it. -/
def executeFilter (lib : GoLib) (order : List String) (input : TaskInput) :
    Option TaskOutput :=
  let data := input.getD "data" Value.null
  let data :=
    match data with
    | Value.null =>
      match input.get? "$previous" with
      | some (Value.obj previous) => previousData previous order
      | _ => Value.null
    | v => v
  match data with
  | Value.arr arr =>
    let field :=
      match input.get? "field" with
      | some (Value.str s) => s
      | _ => ""
    let operator :=
      match input.get? "operator" with
      | some (Value.str s) => s
      | _ => ""
    let value := input.getD "value" Value.null
    match filterLoop lib field operator value arr [] with
    | none => none
    | some result =>
      some
        { Error := ""
          Data := Value.obj [
            ("filtered", Value.arr result),
            ("count", Value.num result.length),
            ("original", Value.num arr.length)]
          Extra := [] }
  | _ => some { Error := "数据必须是数组类型", Data := Value.null, Extra := [] }

/-- The string under `key` in `input`, empty when it is absent or not a
string: the result of `input[key].(string)`. -/
def stringParam (input : TaskInput) (key : String) : String :=
  match input.get? key with
  | some (Value.str s) => s
  | _ => ""

/-- The item is a mapping whose value at `field` satisfies
`matchesCondition` with `operator` and `value`. -/
def itemMatches (lib : GoLib) (field operator : String) (value : Value)
    (item : Value) : Bool :=
  match item with
  | Value.obj itemMap =>
    matchesCondition lib (GoMap.getD itemMap field Value.null) operator value
      == some true
  | _ => false

/-- The item is a mapping whose value at the `field` of `input` satisfies
`matchesCondition` with the `operator` and `value` of `input`. -/
def filterKeeps (lib : GoLib) (input : TaskInput) (item : Value) : Bool :=
  itemMatches lib (stringParam input "field") (stringParam input "operator")
    (input.getD "value" Value.null) item

/-- An input of the filter task after one predecessor A whose data is the
array `[{x: 1}, 5, {y: 2}]`, with no `data` of its own: keep the items whose
`x` is not empty. -/
def filterInput : TaskInput :=
  [("field", Value.str "x"), ("operator", Value.str "isNotEmpty"),
    ("$previous", Value.obj [("A", Value.obj [("error", Value.str ""),
      ("data", Value.arr [Value.obj [("x", Value.num 1)], Value.num 5,
        Value.obj [("y", Value.num 2)]])])])]

/-- An input of the filter task with its own data, the array `[{x: 1}, 5]`:
keep the items whose `x` is not empty. -/
def filterOwnInput : TaskInput :=
  [("data", Value.arr [Value.obj [("x", Value.num 1)], Value.num 5]),
    ("field", Value.str "x"), ("operator", Value.str "isNotEmpty")]

/-- The mapping that `addFields` and `mergeData` copy from: the source data
when it is a mapping, the empty mapping otherwise. -/
def sourceMapOf (sourceData : Value) : GoMap Value :=
  match sourceData with
  | Value.obj m => m
  | _ => []

/-- The name under which `renameFields` stores the source key `k`: the
string `fieldMap[k]` when there is one, `k` itself otherwise. -/
def newNameOf (fieldMap : GoMap Value) (k : String) : String :=
  match GoMap.get? fieldMap k with
  | some (Value.str newName) => newName
  | _ => k

/-- The source `{id: 1, name: "n"}` of the transform examples. -/
def personData : Value :=
  Value.obj [("id", Value.num 1), ("name", Value.str "n")]

/-- An input of the data-transform task with its own source data
`{id: 1, name: "n"}`, for the given operation and fields. -/
def transformInput (operation : String) (fields : Value) : TaskInput :=
  [("operation", Value.str operation), ("sourceData", personData),
    ("fields", fields)]

/-! ## Go maps: reads after writes, keys -/

namespace GoMap

variable {V : Type}

theorem get?_set (m : GoMap V) (k k' : String) (v : V) :
    (m.set k v).get? k' = if k = k' then some v else m.get? k' := by
  induction m with
  | nil => simp [set, get?]
  | cons hd tl ih =>
    obtain ⟨a, b⟩ := hd
    by_cases h : a = k
    · subst h
      by_cases h2 : a = k' <;> simp [set, get?, h2]
    · by_cases h2 : a = k'
      · subst h2
        have : ¬ k = a := fun e => h e.symm
        simp [set, get?, h, this]
      · simp [set, get?, h, h2, ih]

theorem getD_set (m : GoMap V) (k k' : String) (v d : V) :
    (m.set k v).getD k' d = if k = k' then v else m.getD k' d := by
  unfold getD
  rw [get?_set]
  split <;> rfl

theorem mem_range_iff (m : GoMap V) (k : String) (v : V) :
    (k, v) ∈ range m ↔ m.get? k = some v := by
  induction m with
  | nil => simp [range, get?]
  | cons hd tl ih =>
    obtain ⟨a, b⟩ := hd
    by_cases h : a = k
    · subst h
      simp [range, get?, List.mem_filter]
      constructor
      · intro e; exact e.symm
      · intro e; exact e.symm
    · have h2 : ¬ k = a := fun e => h e.symm
      simp [range, get?, List.mem_filter, h, h2, ih]

theorem mem_keys_iff (m : GoMap V) (k : String) :
    k ∈ m.keys ↔ m.get? k ≠ none := by
  unfold keys
  rw [List.mem_map]
  constructor
  · rintro ⟨⟨a, b⟩, hab, rfl⟩
    rw [(mem_range_iff m a b).1 hab]
    simp
  · intro h
    obtain ⟨v, hv⟩ := Option.ne_none_iff_exists'.1 h
    exact ⟨(k, v), (mem_range_iff m k v).2 hv, rfl⟩

theorem keys_nodup (m : GoMap V) : m.keys.Nodup := by
  induction m with
  | nil => simp [keys, range]
  | cons hd tl ih =>
    obtain ⟨a, b⟩ := hd
    unfold keys at ih ⊢
    simp only [range, List.map_cons, List.nodup_cons]
    constructor
    · intro hmem
      obtain ⟨⟨a', b'⟩, h1, h2⟩ := List.mem_map.1 hmem
      have := (List.mem_filter.1 h1).2
      simp at this h2
      exact this h2
    · exact ih.sublist (List.Sublist.map _ (List.filter_sublist _))

end GoMap


/-! ## The two maps built by `topologicalSort` -/

theorem pending_nil (edges : List WorkflowEdge) (k : String) :
    pending edges [] k = edges.countP (fun e => e.Target = k) := by
  unfold pending
  congr 1
  funext e
  simp

theorem get?_initInDegree (nodes : List WorkflowNode) (d0 : GoMap Int)
    (k : String) :
    (nodes.foldl (fun d n => d.set n.ID 0) d0).get? k
      = if k ∈ nodeIDs nodes then some 0 else d0.get? k := by
  induction nodes generalizing d0 with
  | nil => simp [nodeIDs]
  | cons n ns ih =>
    simp only [List.foldl_cons, ih, GoMap.get?_set, nodeIDs, List.map_cons,
      List.mem_cons]
    by_cases h1 : k ∈ List.map (fun n => n.ID) ns
    · simp [nodeIDs, h1]
    · by_cases h2 : n.ID = k
      · simp [nodeIDs, h2]
      · have h3 : ¬ k = n.ID := fun e => h2 e.symm
        simp [nodeIDs, h1, h2, h3]

theorem get?_foldInDegree (edges : List WorkflowEdge) (d0 : GoMap Int)
    (k : String) :
    (edges.foldl (fun d e => d.set e.Target (d.getD e.Target 0 + 1)) d0).get? k
      = if edges.countP (fun e => e.Target = k) = 0 then d0.get? k
        else some (d0.getD k 0 + (edges.countP (fun e => e.Target = k) : Nat))
    := by
  induction edges generalizing d0 with
  | nil => simp
  | cons e es ih =>
    simp only [List.foldl_cons, ih, GoMap.get?_set, GoMap.getD_set]
    by_cases h : e.Target = k
    · subst h
      simp only [List.countP_cons_of_pos, decide_True, if_true]
      by_cases h0 : es.countP (fun e1 => e1.Target = e.Target) = 0
      · simp [h0]
      · simp [h0]
        omega
    · simp [h]

theorem get?_buildInDegree (nodes : List WorkflowNode)
    (edges : List WorkflowEdge) (k : String) :
    (buildInDegree nodes edges).get? k
      = if k ∈ nodeIDs nodes ∨ k ∈ edges.map (fun e => e.Target)
        then some (pending edges [] k : Int) else none := by
  unfold buildInDegree
  rw [get?_foldInDegree, pending_nil]
  have hc : edges.countP (fun e => e.Target = k) = 0
      ↔ k ∉ edges.map (fun e => e.Target) := by
    rw [List.countP_eq_zero]
    simp
  by_cases h0 : edges.countP (fun e => e.Target = k) = 0
  · have h1 := hc.1 h0
    rw [if_pos h0, get?_initInDegree]
    simp [h1, GoMap.get?, h0]
  · have h1 : k ∈ edges.map (fun e => e.Target) := by
      by_contra hn; exact h0 (hc.2 hn)
    rw [if_neg h0, if_pos (Or.inr h1)]
    unfold GoMap.getD
    rw [get?_initInDegree]
    by_cases h2 : k ∈ nodeIDs nodes <;> simp [h2, GoMap.get?]

theorem getD_initGraph (nodes : List WorkflowNode) (g0 : GoMap (List String))
    (c : String) :
    (nodes.foldl (fun g n => g.set n.ID []) g0).getD c []
      = if c ∈ nodeIDs nodes then [] else g0.getD c [] := by
  induction nodes generalizing g0 with
  | nil => simp [nodeIDs]
  | cons n ns ih =>
    simp only [List.foldl_cons, ih, GoMap.getD_set, nodeIDs, List.map_cons,
      List.mem_cons]
    by_cases h1 : c ∈ List.map (fun n => n.ID) ns
    · simp [nodeIDs, h1]
    · by_cases h2 : n.ID = c
      · simp [nodeIDs, h2]
      · have h3 : ¬ c = n.ID := fun e => h2 e.symm
        simp [nodeIDs, h1, h2, h3]

theorem getD_foldGraph (edges : List WorkflowEdge) (g0 : GoMap (List String))
    (c : String) :
    (edges.foldl
        (fun g e => g.set e.Source (g.getD e.Source [] ++ [e.Target])) g0).getD
        c []
      = g0.getD c [] ++ succs edges c := by
  induction edges generalizing g0 with
  | nil => simp [succs]
  | cons e es ih =>
    simp only [List.foldl_cons, ih, GoMap.getD_set]
    by_cases h : e.Source = c
    · subst h
      simp [succs]
    · simp [succs, h]

theorem getD_buildGraph (nodes : List WorkflowNode)
    (edges : List WorkflowEdge) (c : String) :
    (buildGraph nodes edges).getD c [] = succs edges c := by
  unfold buildGraph
  rw [getD_foldGraph, getD_initGraph]
  simp [GoMap.getD, GoMap.get?]

/-! ## The inner loop -/

theorem relax_spec (ns : List String) (deg : GoMap Int) (queue : List String)
    (h : ∀ k ∈ ns, ∃ d : Int, deg.get? k = some d ∧ (ns.count k : Int) ≤ d) :
    ∃ added, (relax ns deg queue).2 = queue ++ added ∧ added.Nodup ∧
      (∀ k, k ∈ added ↔ k ∈ ns ∧ deg.get? k = some (ns.count k : Int)) ∧
      (∀ k, (relax ns deg queue).1.get? k
        = (deg.get? k).map (fun d => d - (ns.count k : Int))) := by
  induction ns generalizing deg queue with
  | nil =>
    refine ⟨[], by simp [relax], List.nodup_nil, by simp, ?_⟩
    intro k
    cases hk : deg.get? k <;> simp [relax, hk]
  | cons n ns ih =>
    obtain ⟨d, hd, hle⟩ := h n (List.mem_cons_self _ _)
    have hgetD : deg.getD n 0 = d := by simp [GoMap.getD, hd]
    have hcn : ((n :: ns).count n : Int) = (ns.count n : Int) + 1 := by
      simp
    have h1 : ∀ k ∈ ns, ∃ d1 : Int,
        (deg.set n (d - 1)).get? k = some d1 ∧ (ns.count k : Int) ≤ d1 := by
      intro k hk
      by_cases hkn : n = k
      · subst hkn
        exact ⟨d - 1, by simp [GoMap.get?_set], by omega⟩
      · obtain ⟨dk, hdk, hlek⟩ := h k (List.mem_cons_of_mem _ hk)
        refine ⟨dk, by simp [GoMap.get?_set, hkn, hdk], ?_⟩
        have hkn2 : ¬ k = n := fun e => hkn e.symm
        have : (n :: ns).count k = ns.count k := by
          simp [List.count_cons, hkn]
        rw [this] at hlek
        exact hlek
    have hstep : ∀ q, relax (n :: ns) deg q
        = relax ns (deg.set n (d - 1))
            (if d - 1 = 0 then q ++ [n] else q) := by
      intro q
      simp only [relax, hgetD, GoMap.getD_set, if_true]
    rw [hstep]
    obtain ⟨added, hq, hnd, hmem, hget⟩ :=
      ih (deg.set n (d - 1)) (if d - 1 = 0 then queue ++ [n] else queue) h1
    have hgetk : ∀ k, (relax ns (deg.set n (d - 1))
          (if d - 1 = 0 then queue ++ [n] else queue)).1.get? k
        = (deg.get? k).map (fun d => d - ((n :: ns).count k : Int)) := by
      intro k
      rw [hget, GoMap.get?_set]
      by_cases hkn : n = k
      · subst hkn
        simp [hd]
        omega
      · have : (n :: ns).count k = ns.count k := by
          simp [List.count_cons, hkn]
        simp [hkn, this]
    by_cases hz : d - 1 = 0
    · have hn0 : ns.count n = 0 := by omega
      have hnns : n ∉ ns := List.count_eq_zero.1 hn0
      refine ⟨n :: added, ?_, ?_, ?_, hgetk⟩
      · rw [hq]; simp [hz]
      · refine List.nodup_cons.2 ⟨?_, hnd⟩
        intro hmem1
        exact hnns ((hmem n).1 hmem1).1
      · intro k
        by_cases hkn : n = k
        · subst hkn
          simp [hd, hn0]
          omega
        · have hkn2 : ¬ k = n := fun e => hkn e.symm
          have : (n :: ns).count k = ns.count k := by
            simp [List.count_cons, hkn]
          simp [hmem, GoMap.get?_set, hkn, hkn2, this]
    · refine ⟨added, ?_, hnd, ?_, hgetk⟩
      · rw [hq]; simp [hz]
      · intro k
        by_cases hkn : n = k
        · subst hkn
          rw [hmem, GoMap.get?_set]
          simp only [if_true, List.mem_cons, true_or, true_and, hd,
            Option.some.injEq]
          constructor
          · rintro ⟨_, h2⟩
            rw [hcn]; omega
          · intro h2
            rw [hcn] at h2
            refine ⟨?_, by omega⟩
            apply List.count_pos_iff.1
            omega
        · have hkn2 : ¬ k = n := fun e => hkn e.symm
          have : (n :: ns).count k = ns.count k := by
            simp [List.count_cons, hkn]
          simp [hmem, GoMap.get?_set, hkn, hkn2, this]

/-! ## Pending in-edges -/

theorem pending_snoc (edges : List WorkflowEdge) (done : List String)
    (c k : String) (hc : c ∉ done) :
    pending edges done k
      = pending edges (done ++ [c]) k + (succs edges c).count k := by
  unfold pending succs
  induction edges with
  | nil => simp
  | cons e es ih =>
    simp only [List.countP_cons, List.filter_cons, ih]
    by_cases h1 : e.Source = c
    · have h2 : e.Source ∉ done := by rw [h1]; exact hc
      by_cases h3 : e.Target = k
      · simp [h1, h3, hc]
        omega
      · simp [h1, h3, hc, List.count_cons]
    · by_cases h3 : e.Target = k
      · by_cases h4 : e.Source ∈ done
        · simp [h1, h3, h4]
        · simp [h1, h3, h4]
          omega
      · simp [h1, h3]

theorem pending_eq_zero_iff (edges : List WorkflowEdge) (done : List String)
    (k : String) :
    pending edges done k = 0
      ↔ ∀ e ∈ edges, e.Target = k → e.Source ∈ done := by
  unfold pending
  rw [List.countP_eq_zero]
  simp

theorem mem_succs (edges : List WorkflowEdge) (c k : String) :
    k ∈ succs edges c ↔ ∃ e ∈ edges, e.Source = c ∧ e.Target = k := by
  unfold succs
  simp [List.mem_map, List.mem_filter, and_assoc]

/-! ## The queue loop -/

theorem SortInv.step {edges : List WorkflowEdge} {K : List String}
    (hK : ∀ e ∈ edges, e.Target ∈ K)
    {deg : GoMap Int} {c : String} {queue result : List String}
    (inv : SortInv edges K deg (c :: queue) result) :
    SortInv edges K (relax (succs edges c) deg queue).1
      (relax (succs edges c) deg queue).2 (result ++ [c]) := by
  have hnd := inv.nodup
  have hcres : c ∉ result := by
    intro hm
    exact (List.nodup_append.1 hnd).2.2 hm (List.mem_cons_self _ _)
  have hcK : c ∈ K ∧ pending edges result c = 0 :=
    (inv.mem_iff c).1 (by simp)
  have hsplit := fun k => pending_snoc edges result c k hcres
  have hpre : ∀ k ∈ succs edges c, ∃ d : Int,
      deg.get? k = some d ∧ ((succs edges c).count k : Int) ≤ d := by
    intro k hk
    obtain ⟨e, he, _, het⟩ := (mem_succs edges c k).1 hk
    have hkK : k ∈ K := het ▸ hK e he
    refine ⟨(pending edges result k : Int), by rw [inv.deg_eq, if_pos hkK], ?_⟩
    have := hsplit k
    omega
  obtain ⟨added, hq, hadd_nd, hadd_mem, hget⟩ :=
    relax_spec (succs edges c) deg queue hpre
  have hadd : ∀ k, k ∈ added ↔ k ∈ K ∧ 0 < (succs edges c).count k
      ∧ pending edges (result ++ [c]) k = 0 := by
    intro k
    rw [hadd_mem, inv.deg_eq]
    have := hsplit k
    constructor
    · rintro ⟨hk, hd⟩
      obtain ⟨e, he, _, het⟩ := (mem_succs edges c k).1 hk
      have hkK : k ∈ K := het ▸ hK e he
      rw [if_pos hkK] at hd
      have hd2 := Option.some.inj hd
      have hpos : 0 < (succs edges c).count k := List.count_pos_iff.2 hk
      exact ⟨hkK, hpos, by omega⟩
    · rintro ⟨hkK, hpos, hz⟩
      refine ⟨List.count_pos_iff.1 hpos, ?_⟩
      rw [if_pos hkK]
      congr 1
      omega
  constructor
  · rw [hq]
    have h1 : (result ++ [c] ++ queue).Nodup := by simpa using hnd
    rw [← List.append_assoc]
    refine List.nodup_append.2 ⟨h1, hadd_nd, ?_⟩
    intro k hk1 hk2
    have hk3 : k ∈ result ++ c :: queue := by simpa using hk1
    have := (inv.mem_iff k).1 hk3
    have h4 := (hadd k).1 hk2
    have := hsplit k
    omega
  · intro k
    rw [hget, inv.deg_eq]
    by_cases hkK : k ∈ K
    · have := hsplit k
      simp only [if_pos hkK, Option.map_some']
      congr 1
      omega
    · simp [hkK]
  · intro k
    rw [hq]
    have := hsplit k
    constructor
    · intro hk
      have hk' : k ∈ result ++ c :: queue ∨ k ∈ added := by
        simp only [List.mem_append, List.mem_cons, List.mem_singleton] at hk ⊢
        tauto
      rcases hk' with hk' | hk'
      · have h3 := (inv.mem_iff k).1 hk'
        exact ⟨h3.1, by omega⟩
      · have h4 := (hadd k).1 hk'
        exact ⟨h4.1, h4.2.2⟩
    · rintro ⟨hkK, hz⟩
      by_cases hcnt : (succs edges c).count k = 0
      · have h3 := (inv.mem_iff k).2 ⟨hkK, by omega⟩
        simp only [List.mem_append, List.mem_cons, List.mem_singleton] at h3 ⊢
        tauto
      · have h4 := (hadd k).2 ⟨hkK, by omega, hz⟩
        simp only [List.mem_append]
        exact Or.inr (Or.inr h4)
  · intro e he ht
    rcases List.mem_append.1 ht with ht | ht
    · have h5 := inv.forward e he ht
      have hs : e.Source ∈ result := by
        apply List.indexOf_lt_length.1
        have := List.indexOf_le_length (a := e.Target) (l := result)
        omega
      rw [List.indexOf_append_of_mem hs, List.indexOf_append_of_mem ht]
      exact h5
    · have htc : e.Target = c := by simpa using ht
      have hs : e.Source ∈ result :=
        (pending_eq_zero_iff edges result c).1 hcK.2 e he htc
      rw [List.indexOf_append_of_mem hs, htc,
        List.indexOf_append_of_not_mem hcres]
      have := List.indexOf_lt_length.2 hs
      simp
      omega

theorem bfs_spec {edges : List WorkflowEdge} {K : List String}
    (hK : ∀ e ∈ edges, e.Target ∈ K) (graph : GoMap (List String))
    (hg : ∀ c, graph.getD c [] = succs edges c) :
    ∀ (fuel : Nat) (deg : GoMap Int) (queue result : List String),
      SortInv edges K deg queue result → K.length ≤ fuel + result.length →
      ∃ r deg1, bfs graph fuel deg queue result = some r
        ∧ SortInv edges K deg1 [] r := by
  intro fuel
  induction fuel with
  | zero =>
    intro deg queue result inv hlen
    cases queue with
    | nil => exact ⟨result, deg, by simp [bfs], inv⟩
    | cons c q =>
      exfalso
      have hsub : result ++ c :: q ⊆ K := fun k hk => ((inv.mem_iff k).1 hk).1
      have := (List.subperm_of_subset inv.nodup hsub).length_le
      simp at this
      omega
  | succ fuel ih =>
    intro deg queue result inv hlen
    cases queue with
    | nil => exact ⟨result, deg, by simp [bfs], inv⟩
    | cons c q =>
      have hstep := SortInv.step hK inv
      have hb : bfs graph (fuel + 1) deg (c :: q) result
          = bfs graph fuel (relax (succs edges c) deg q).1
              (relax (succs edges c) deg q).2 (result ++ [c]) := by
        simp only [bfs, hg]
      rw [hb]
      apply ih _ _ _ hstep
      simp
      omega

theorem mem_keys_buildInDegree (nodes : List WorkflowNode)
    (edges : List WorkflowEdge) (k : String) :
    k ∈ (buildInDegree nodes edges).keys
      ↔ k ∈ nodeIDs nodes ∨ k ∈ edges.map (fun e => e.Target) := by
  rw [GoMap.mem_keys_iff, get?_buildInDegree]
  by_cases h : k ∈ nodeIDs nodes ∨ k ∈ edges.map (fun e => e.Target)
  · rw [if_pos h]
    exact ⟨fun _ => h, fun _ => by simp⟩
  · rw [if_neg h]
    exact ⟨fun h1 => absurd rfl h1, fun h1 => absurd h1 h⟩

theorem target_mem_keys (nodes : List WorkflowNode)
    (edges : List WorkflowEdge) :
    ∀ e ∈ edges, e.Target ∈ (buildInDegree nodes edges).keys := by
  intro e he
  rw [mem_keys_buildInDegree]
  exact Or.inr (List.mem_map.2 ⟨e, he, rfl⟩)

/-- With enough fuel `topologicalSort` returns, and what it returns satisfies
the loop invariant with an empty queue. -/
theorem topologicalSort_spec (nodes : List WorkflowNode)
    (edges : List WorkflowEdge) (iter : List String) (fuel : Nat)
    (hiter : IsRangeOrder iter nodes edges)
    (hfuel : (buildInDegree nodes edges).keys.length ≤ fuel) :
    ∃ r deg1, topologicalSort fuel iter nodes edges = some r
      ∧ SortInv edges (buildInDegree nodes edges).keys deg1 [] r := by
  unfold topologicalSort
  apply bfs_spec (target_mem_keys nodes edges) _ (getD_buildGraph nodes edges)
  · have hnd : iter.Nodup :=
      (List.Perm.nodup_iff hiter).2 (GoMap.keys_nodup _)
    have hdeg : ∀ k, (buildInDegree nodes edges).get? k
        = if k ∈ (buildInDegree nodes edges).keys
          then some (pending edges [] k : Int) else none := by
      intro k
      rw [get?_buildInDegree]
      by_cases h : k ∈ nodeIDs nodes ∨ k ∈ edges.map (fun e => e.Target)
      · rw [if_pos h, if_pos ((mem_keys_buildInDegree nodes edges k).2 h)]
      · rw [if_neg h, if_neg (fun hk =>
          h ((mem_keys_buildInDegree nodes edges k).1 hk))]
    constructor
    · simpa using hnd.filter _
    · exact hdeg
    · intro k
      simp only [List.nil_append, List.mem_filter, decide_eq_true_eq]
      rw [hiter.mem_iff, hdeg]
      by_cases hk : k ∈ (buildInDegree nodes edges).keys
      · simp [hk]
      · simp [hk]
    · intro e _ ht
      simp at ht
  · simpa using hfuel

/-! ## Cycles -/

theorem acyclic_of_rank (edges : List WorkflowEdge) (rank : String → Nat)
    (h : ∀ e ∈ edges, rank e.Source < rank e.Target) : Acyclic edges := by
  have hlt : ∀ a b, Relation.TransGen (EdgeRel edges) a b → rank a < rank b := by
    intro a b hab
    induction hab with
    | single hs =>
      obtain ⟨e, he, h1, h2⟩ := hs
      have := h e he
      rw [h1, h2] at this
      exact this
    | tail _ hs ih =>
      obtain ⟨e, he, h1, h2⟩ := hs
      have := h e he
      rw [h1, h2] at this
      omega
  intro a ha
  exact Nat.lt_irrefl _ (hlt a a ha)

theorem not_acyclic_iff (edges : List WorkflowEdge) :
    ¬ Acyclic edges ↔ HasCycle edges := by
  unfold Acyclic HasCycle
  push_neg
  rfl

/-- A non-empty finite set of ids in which every id has an in-edge from the
set contains a cycle. -/
theorem hasCycle_of_stuck (edges : List WorkflowEdge) (S : List String)
    (x0 : String) (hx0 : x0 ∈ S)
    (h : ∀ x, x ∈ S → ∃ y, y ∈ S ∧ EdgeRel edges y x) : HasCycle edges := by
  choose! f hf using h
  have hmem : ∀ n, f^[n] x0 ∈ S := by
    intro n
    induction n with
    | zero => simpa using hx0
    | succ n ih =>
      rw [Function.iterate_succ_apply']
      exact (hf _ ih).1
  have hstep : ∀ n, EdgeRel edges (f^[n + 1] x0) (f^[n] x0) := by
    intro n
    rw [Function.iterate_succ_apply']
    exact (hf _ (hmem n)).2
  have hreach : ∀ d n, Relation.TransGen (EdgeRel edges)
      (f^[n + d + 1] x0) (f^[n] x0) := by
    intro d
    induction d with
    | zero => intro n; exact Relation.TransGen.single (hstep n)
    | succ d ih =>
      intro n
      exact Relation.TransGen.head (hstep (n + d + 1)) (ih n)
  have hcard : S.toFinset.card < (Finset.range (S.length + 1)).card := by
    have := List.toFinset_card_le S
    simp
    omega
  obtain ⟨i, _, j, _, hij, heq⟩ :=
    Finset.exists_ne_map_eq_of_card_lt_of_maps_to hcard
      (f := fun n => f^[n] x0) (fun n _ => by simpa using hmem n)
  have key : ∀ i j, i < j → f^[i] x0 = f^[j] x0 → HasCycle edges := by
    intro i j hlt he
    refine ⟨f^[i] x0, ?_⟩
    have := hreach (j - i - 1) i
    have hj : i + (j - i - 1) + 1 = j := by omega
    rw [hj, ← he] at this
    exact this
  rcases Nat.lt_or_gt_of_ne hij with hlt | hlt
  · exact key i j hlt heq
  · exact key j i hlt heq.symm

/-! ## Fuel -/

theorem bfs_fuel_succ (graph : GoMap (List String)) :
    ∀ (fuel : Nat) (deg : GoMap Int) (queue result r : List String),
      bfs graph fuel deg queue result = some r →
      bfs graph (fuel + 1) deg queue result = some r := by
  intro fuel
  induction fuel with
  | zero =>
    intro deg queue result r h
    cases queue with
    | nil => simpa [bfs] using h
    | cons c q => simp [bfs] at h
  | succ fuel ih =>
    intro deg queue result r h
    cases queue with
    | nil => simpa [bfs] using h
    | cons c q =>
      simp only [bfs] at h ⊢
      exact ih _ _ _ _ h

theorem bfs_fuel_mono (graph : GoMap (List String)) (fuel fuel1 : Nat)
    (hle : fuel ≤ fuel1) (deg : GoMap Int) (queue result r : List String)
    (h : bfs graph fuel deg queue result = some r) :
    bfs graph fuel1 deg queue result = some r := by
  induction hle with
  | refl => exact h
  | step _ ih => exact bfs_fuel_succ graph _ _ _ _ _ ih

theorem topologicalSort_fuel_mono (nodes : List WorkflowNode)
    (edges : List WorkflowEdge) (iter : List String) (fuel fuel1 : Nat)
    (hle : fuel ≤ fuel1) (r : List String)
    (h : topologicalSort fuel iter nodes edges = some r) :
    topologicalSort fuel1 iter nodes edges = some r := by
  unfold topologicalSort at h ⊢
  exact bfs_fuel_mono _ _ _ hle _ _ _ _ h

/-- Whatever `topologicalSort` returns, with any fuel, satisfies the loop
invariant with an empty queue. -/
theorem topologicalSort_sound (nodes : List WorkflowNode)
    (edges : List WorkflowEdge) (iter : List String) (fuel : Nat)
    (hiter : IsRangeOrder iter nodes edges) (r : List String)
    (h : topologicalSort fuel iter nodes edges = some r) :
    ∃ deg1, SortInv edges (buildInDegree nodes edges).keys deg1 [] r := by
  obtain ⟨r1, deg1, h1, inv⟩ := topologicalSort_spec nodes edges iter
    (max fuel (buildInDegree nodes edges).keys.length) hiter (le_max_right _ _)
  have h2 := topologicalSort_fuel_mono nodes edges iter fuel
    (max fuel (buildInDegree nodes edges).keys.length)
    (le_max_left _ _) r h
  rw [h2] at h1
  cases h1
  exact ⟨deg1, inv⟩

/-! ## Consequences of the invariant at the end of the loop -/

theorem SortInv.result_nodup {edges : List WorkflowEdge} {K : List String}
    {deg : GoMap Int} {r : List String} (inv : SortInv edges K deg [] r) :
    r.Nodup := by
  simpa using inv.nodup

theorem SortInv.result_subset {edges : List WorkflowEdge} {K : List String}
    {deg : GoMap Int} {r : List String} (inv : SortInv edges K deg [] r) :
    r ⊆ K := by
  intro k hk
  exact ((inv.mem_iff k).1 (by simpa using hk)).1

theorem SortInv.result_length_le {edges : List WorkflowEdge}
    {K : List String} {deg : GoMap Int} {r : List String}
    (inv : SortInv edges K deg [] r) : r.length ≤ K.length :=
  (List.subperm_of_subset inv.result_nodup inv.result_subset).length_le

/-- An id of the key set that is not emitted has an in-edge from an id that
is not emitted. -/
theorem SortInv.blocked {edges : List WorkflowEdge} {K : List String}
    {deg : GoMap Int} {r : List String} (inv : SortInv edges K deg [] r)
    (k : String) (hk : k ∈ K) (hn : k ∉ r) :
    ∃ e ∈ edges, e.Target = k ∧ e.Source ∉ r := by
  by_contra hno
  push_neg at hno
  apply hn
  have := (inv.mem_iff k).2 ⟨hk, (pending_eq_zero_iff edges r k).2 hno⟩
  simpa using this

/-- When all edge targets are emitted, the emitted order respects all edges,
so the graph has no cycle. -/
theorem SortInv.forward_all {edges : List WorkflowEdge} {K : List String}
    {deg : GoMap Int} {r : List String} (inv : SortInv edges K deg [] r)
    (h : ∀ e ∈ edges, e.Target ∈ r) : EdgesForward edges r ∧ Acyclic edges := by
  have hf : EdgesForward edges r := fun e he =>
    ⟨inv.forward e he (h e he), List.indexOf_lt_length.2 (h e he)⟩
  exact ⟨hf, acyclic_of_rank edges (fun k => r.indexOf k)
    (fun e he => (hf e he).1)⟩

theorem keys_subset_nodeIDs (nodes : List WorkflowNode)
    (edges : List WorkflowEdge)
    (htgt : ∀ e ∈ edges, e.Target ∈ nodeIDs nodes) :
    (buildInDegree nodes edges).keys ⊆ nodeIDs nodes := by
  intro k hk
  rcases (mem_keys_buildInDegree nodes edges k).1 hk with h | h
  · exact h
  · obtain ⟨e, he, rfl⟩ := List.mem_map.1 h
    exact htgt e he

theorem nodeIDs_subset_keys (nodes : List WorkflowNode)
    (edges : List WorkflowEdge) :
    nodeIDs nodes ⊆ (buildInDegree nodes edges).keys :=
  fun k hk => (mem_keys_buildInDegree nodes edges k).2 (Or.inl hk)

theorem keys_length_le_nodes (nodes : List WorkflowNode)
    (edges : List WorkflowEdge)
    (htgt : ∀ e ∈ edges, e.Target ∈ nodeIDs nodes) :
    (buildInDegree nodes edges).keys.length ≤ nodes.length := by
  have := (List.subperm_of_subset (GoMap.keys_nodup _)
    (keys_subset_nodeIDs nodes edges htgt)).length_le
  simpa [nodeIDs] using this

theorem keys_subset_mentionedIDs (nodes : List WorkflowNode)
    (edges : List WorkflowEdge) :
    (buildInDegree nodes edges).keys ⊆ mentionedIDs nodes edges := by
  intro k hk
  unfold mentionedIDs
  rw [List.mem_dedup]
  rcases (mem_keys_buildInDegree nodes edges k).1 hk with h | h
  · simp [h]
  · exact List.mem_append_right _ h

theorem keys_length_le_mentionedIDs (nodes : List WorkflowNode)
    (edges : List WorkflowEdge) :
    (buildInDegree nodes edges).keys.length
      ≤ (mentionedIDs nodes edges).length :=
  (List.subperm_of_subset (GoMap.keys_nodup _)
    (keys_subset_mentionedIDs nodes edges)).length_le

/-- A complete result on a graph whose edge targets are all node ids: the
node ids are pairwise distinct and the result is a permutation of them. -/
theorem SortInv.complete_perm {nodes : List WorkflowNode}
    {edges : List WorkflowEdge} {deg : GoMap Int} {r : List String}
    (inv : SortInv edges (buildInDegree nodes edges).keys deg [] r)
    (htgt : ∀ e ∈ edges, e.Target ∈ nodeIDs nodes)
    (hlen : r.length = nodes.length) :
    r.Perm (nodeIDs nodes) := by
  have hsub : r ⊆ nodeIDs nodes :=
    fun k hk => keys_subset_nodeIDs nodes edges htgt (inv.result_subset hk)
  have hsp := List.subperm_of_subset inv.result_nodup hsub
  exact hsp.perm_of_length_le (by simp [nodeIDs, hlen])

/-! ## The dependency sorter: results -/

/-- C1. For a workflow with pairwise distinct node ids, every edge endpoint
among the node ids and no directed cycle, `topologicalSort` returns, for every
visiting order of the in-degree map, a list as long as the node list in which
every edge has its source at a strictly smaller index than its target. -/
theorem topologicalSort_acyclic (nodes : List WorkflowNode)
    (edges : List WorkflowEdge) (iter : List String) (fuel : Nat)
    (hids : (nodeIDs nodes).Nodup)
    (hends : ∀ e ∈ edges, e.Source ∈ nodeIDs nodes ∧ e.Target ∈ nodeIDs nodes)
    (hacyc : Acyclic edges)
    (hiter : IsRangeOrder iter nodes edges)
    (hfuel : nodes.length ≤ fuel) :
    ∃ order, topologicalSort fuel iter nodes edges = some order
      ∧ order.length = nodes.length ∧ EdgesForward edges order := by
  have htgt : ∀ e ∈ edges, e.Target ∈ nodeIDs nodes :=
    fun e he => (hends e he).2
  obtain ⟨r, deg1, hr, inv⟩ := topologicalSort_spec nodes edges iter fuel hiter
    (le_trans (keys_length_le_nodes nodes edges htgt) hfuel)
  have hall : ∀ k ∈ (buildInDegree nodes edges).keys, k ∈ r := by
    intro k hk
    by_contra hn
    obtain ⟨a, ha⟩ := hasCycle_of_stuck edges
      ((buildInDegree nodes edges).keys.filter (fun x => x ∉ r)) k
      (List.mem_filter.2 ⟨hk, by simpa using hn⟩)
      (by
        intro x hx
        obtain ⟨hxK, hxr⟩ := List.mem_filter.1 hx
        obtain ⟨e, he, het, hes⟩ := inv.blocked x hxK (by simpa using hxr)
        exact ⟨e.Source,
          List.mem_filter.2
            ⟨nodeIDs_subset_keys nodes edges (hends e he).1, by simpa using hes⟩,
          e, he, rfl, het⟩)
    exact hacyc a ha
  have hperm : r.Perm (nodeIDs nodes) := by
    rw [List.perm_ext_iff_of_nodup inv.result_nodup hids]
    intro k
    constructor
    · intro hk
      exact keys_subset_nodeIDs nodes edges htgt (inv.result_subset hk)
    · intro hk
      exact hall k (nodeIDs_subset_keys nodes edges hk)
  refine ⟨r, hr, ?_, ?_⟩
  · simpa [nodeIDs] using hperm.length_eq
  · exact (inv.forward_all
      (fun e he => hall _ (target_mem_keys nodes edges e he))).1

/-- Witness of C1: the three-node workflow A → B, A → C, B → C, with the
in-degree map visited in the order C, A, B. -/
theorem topologicalSort_acyclic_witness :
    ∃ order, topologicalSort 3 ["C", "A", "B"] diamondNodes diamondEdges
        = some order
      ∧ order.length = diamondNodes.length
      ∧ EdgesForward diamondEdges order :=
  topologicalSort_acyclic diamondNodes diamondEdges ["C", "A", "B"] 3
    (by decide) (by decide)
    (acyclic_of_rank diamondEdges diamondRank (by decide))
    (by unfold IsRangeOrder; decide) (by decide)

/-- C2. For a workflow with pairwise distinct node ids, every edge endpoint
among the node ids and at least one directed cycle, `topologicalSort` returns
a list strictly shorter than the node list. -/
theorem topologicalSort_cyclic (nodes : List WorkflowNode)
    (edges : List WorkflowEdge) (iter : List String) (fuel : Nat)
    (_hids : (nodeIDs nodes).Nodup)
    (hends : ∀ e ∈ edges, e.Source ∈ nodeIDs nodes ∧ e.Target ∈ nodeIDs nodes)
    (hcyc : HasCycle edges)
    (hiter : IsRangeOrder iter nodes edges)
    (hfuel : nodes.length ≤ fuel) :
    ∃ order, topologicalSort fuel iter nodes edges = some order
      ∧ order.length < nodes.length := by
  have htgt : ∀ e ∈ edges, e.Target ∈ nodeIDs nodes :=
    fun e he => (hends e he).2
  obtain ⟨r, deg1, hr, inv⟩ := topologicalSort_spec nodes edges iter fuel hiter
    (le_trans (keys_length_le_nodes nodes edges htgt) hfuel)
  refine ⟨r, hr, ?_⟩
  have hle : r.length ≤ nodes.length :=
    le_trans inv.result_length_le (keys_length_le_nodes nodes edges htgt)
  have hne : r.length ≠ nodes.length := by
    intro hlen
    have hperm := inv.complete_perm htgt hlen
    have hac := (inv.forward_all
      (fun e he => hperm.mem_iff.2 (htgt e he))).2
    obtain ⟨a, ha⟩ := hcyc
    exact hac a ha
  omega

/-- Witness of C2: three nodes with the edges A → B, B → C, C → B. -/
theorem topologicalSort_cyclic_witness :
    ∃ order, topologicalSort 3 ["A", "B", "C"] diamondNodes loopEdges
        = some order
      ∧ order.length < diamondNodes.length :=
  topologicalSort_cyclic diamondNodes loopEdges ["A", "B", "C"] 3
    (by decide) (by decide)
    ⟨"B", Relation.TransGen.tail
      (Relation.TransGen.single ⟨⟨"B", "C"⟩, by decide, rfl, rfl⟩)
      ⟨⟨"C", "B"⟩, by decide, rfl, rfl⟩⟩
    (by unfold IsRangeOrder; decide) (by decide)

/-- C3, as amended. For a node list and an edge list in which every edge
target is a node id, if the list returned by `topologicalSort` is as long as
the node list, then the graph has no cycle and the list is a topological
order of the nodes: no id twice, exactly the node ids, every edge forward. -/
theorem topologicalSort_complete (nodes : List WorkflowNode)
    (edges : List WorkflowEdge) (iter : List String) (fuel : Nat)
    (order : List String)
    (htgt : ∀ e ∈ edges, e.Target ∈ nodeIDs nodes)
    (hiter : IsRangeOrder iter nodes edges)
    (hsort : topologicalSort fuel iter nodes edges = some order)
    (hlen : order.length = nodes.length) :
    Acyclic edges ∧ order.Nodup ∧ order.Perm (nodeIDs nodes)
      ∧ EdgesForward edges order := by
  obtain ⟨deg1, inv⟩ := topologicalSort_sound nodes edges iter fuel hiter
    order hsort
  have hperm := inv.complete_perm htgt hlen
  have hfw := inv.forward_all (fun e he => hperm.mem_iff.2 (htgt e he))
  exact ⟨hfw.2, inv.result_nodup, hperm, hfw.1⟩

/-- Witness of C3 as amended: the workflow A → B, A → C, B → C sorted with the
in-degree map visited in the order B, C, A. -/
theorem topologicalSort_complete_witness :
    Acyclic diamondEdges ∧ ["A", "B", "C"].Nodup
      ∧ ["A", "B", "C"].Perm (nodeIDs diamondNodes)
      ∧ EdgesForward diamondEdges ["A", "B", "C"] :=
  topologicalSort_complete diamondNodes diamondEdges ["B", "C", "A"] 3
    ["A", "B", "C"] (by decide) (by unfold IsRangeOrder; decide)
    (by decide) (by decide)

/-- Counterexample to C3 as stated: for the nodes A, B and the edges A → A,
B → X the sort returns B, X, as long as the node list, although the graph has
a cycle and the list is not the node ids. -/
theorem topologicalSort_complete_counterexample :
    IsRangeOrder ["A", "B", "X"] pairNodes danglingEdges
      ∧ topologicalSort 3 ["A", "B", "X"] pairNodes danglingEdges
        = some ["B", "X"]
      ∧ ["B", "X"].length = pairNodes.length
      ∧ ¬ Acyclic danglingEdges
      ∧ ¬ ["B", "X"].Perm (nodeIDs pairNodes) := by
  refine ⟨by unfold IsRangeOrder; decide, by decide, by decide, ?_, by decide⟩
  intro h
  exact h "A" (Relation.TransGen.single ⟨⟨"A", "A"⟩, by decide, rfl, rfl⟩)

/-- C4. `topologicalSort` terminates on every node list and edge list: once
the fuel reaches the number of distinct ids mentioned by the nodes and edges
it returns one and the same list, which holds no id twice and only mentioned
ids, so its length (the number of loop iterations) is at most that number. -/
theorem topologicalSort_terminates (nodes : List WorkflowNode)
    (edges : List WorkflowEdge) (iter : List String)
    (hiter : IsRangeOrder iter nodes edges) :
    ∃ order,
      (∀ fuel, (mentionedIDs nodes edges).length ≤ fuel →
        topologicalSort fuel iter nodes edges = some order)
      ∧ order.Nodup
      ∧ (∀ k ∈ order, k ∈ mentionedIDs nodes edges)
      ∧ order.length ≤ (mentionedIDs nodes edges).length := by
  obtain ⟨r, deg1, hr, inv⟩ := topologicalSort_spec nodes edges iter
    (buildInDegree nodes edges).keys.length hiter (le_refl _)
  refine ⟨r, ?_, inv.result_nodup, ?_, ?_⟩
  · intro fuel hfuel
    exact topologicalSort_fuel_mono nodes edges iter _ fuel
      (le_trans (keys_length_le_mentionedIDs nodes edges) hfuel) r hr
  · intro k hk
    exact keys_subset_mentionedIDs nodes edges (inv.result_subset hk)
  · exact le_trans inv.result_length_le
      (keys_length_le_mentionedIDs nodes edges)

/-- Witness of C4: the nodes A, B with the edges A → A and B → X, a graph
with a cycle and a dangling edge. -/
theorem topologicalSort_terminates_witness :
    ∃ order,
      (∀ fuel, (mentionedIDs pairNodes danglingEdges).length ≤ fuel →
        topologicalSort fuel ["X", "B", "A"] pairNodes danglingEdges
          = some order)
      ∧ order.Nodup
      ∧ (∀ k ∈ order, k ∈ mentionedIDs pairNodes danglingEdges)
      ∧ order.length ≤ (mentionedIDs pairNodes danglingEdges).length :=
  topologicalSort_terminates pairNodes danglingEdges ["X", "B", "A"]
    (by unfold IsRangeOrder; decide)

/-! ## The node loop of `runWorkflow` -/

theorem isSuccess_iff (o : TaskOutput) : o.IsSuccess = true ↔ o.Error = "" := by
  simp [TaskOutput.IsSuccess]

theorem runNodes_nil (env : Env) (workflow : Workflow)
    (nodeMap : GoMap WorkflowNode) (startTime : Int) (s : RunState) :
    runNodes env workflow nodeMap startTime [] s
      = { result :=
            { Status := "success"
              StartTime := env.format startTime
              EndTime := env.format (env.now s.clock)
              Logs := s.logs
              FinalOutput := s.finalOutput
              Error := "" }
          calls := s.calls } := by
  simp [runNodes]

theorem runNodes_cons_ok (env : Env) (workflow : Workflow)
    (nodeMap : GoMap WorkflowNode) (startTime : Int) (s : RunState)
    (nodeID : String) (rest : List String)
    (h : (invocationAt env workflow nodeMap s nodeID).Output.IsSuccess = true) :
    runNodes env workflow nodeMap startTime (nodeID :: rest) s
      = runNodes env workflow nodeMap startTime rest
          (nextState env nodeMap s (invocationAt env workflow nodeMap s nodeID))
    := by
  simp only [invocationAt] at h
  simp [runNodes, h, nextState, invocationAt, runningEntry, terminalEntry,
    labelOf]

theorem runNodes_cons_fail (env : Env) (workflow : Workflow)
    (nodeMap : GoMap WorkflowNode) (startTime : Int) (s : RunState)
    (nodeID : String) (rest : List String)
    (h : (invocationAt env workflow nodeMap s nodeID).Output.IsSuccess = false) :
    runNodes env workflow nodeMap startTime (nodeID :: rest) s
      = { result :=
            { Status := "error"
              StartTime := env.format startTime
              EndTime := env.format (env.now (s.clock + 1))
              Logs := s.logs
                ++ [runningEntry env nodeMap s.clock
                      (invocationAt env workflow nodeMap s nodeID),
                    terminalEntry env nodeMap s.clock
                      (invocationAt env workflow nodeMap s nodeID)]
              FinalOutput :=
                some (invocationAt env workflow nodeMap s nodeID).Output
              Error := "任务 \"" ++ labelOf nodeMap nodeID ++ "\" 执行失败: "
                ++ (invocationAt env workflow nodeMap s nodeID).Output.Error }
          calls := s.calls ++ [invocationAt env workflow nodeMap s nodeID] }
    := by
  simp only [invocationAt] at h
  simp [runNodes, h, invocationAt, runningEntry, terminalEntry, labelOf]

theorem runNodes_trace (env : Env) (workflow : Workflow)
    (nodeMap : GoMap WorkflowNode) (startTime : Int) :
    ∀ (ids : List String) (s : RunState),
      ∃ new, RunTrace env nodeMap ids s
        (runNodes env workflow nodeMap startTime ids s) new := by
  intro ids
  induction ids with
  | nil =>
    intro s
    refine ⟨[], ?_⟩
    rw [runNodes_nil]
    exact ⟨by simp, by simp, by simp [logsOf], by simp, Or.inl (by simp)⟩
  | cons nodeID rest ih =>
    intro s
    by_cases h : (invocationAt env workflow nodeMap s nodeID).Output.IsSuccess
        = true
    · rw [runNodes_cons_ok _ _ _ _ _ _ _ h]
      obtain ⟨new, tr⟩ :=
        ih (nextState env nodeMap s (invocationAt env workflow nodeMap s nodeID))
      have hok := (isSuccess_iff _).1 h
      refine ⟨invocationAt env workflow nodeMap s nodeID :: new, ?_⟩
      constructor
      · rw [tr.calls_eq]; simp [nextState]
      · simp [tr.ids_eq, invocationAt]
      · rw [tr.logs_eq]; simp [nextState, logsOf]
      · intro c hc
        cases new with
        | nil => simp at hc
        | cons c1 cs =>
          rw [List.dropLast_cons_of_ne_nil (by simp)] at hc
          rcases List.mem_cons.1 hc with hc | hc
          · rw [hc]; exact hok
          · exact tr.init_ok c hc
      · rcases tr.outcome with ⟨h1, h2, h3, h4, h5⟩ | ⟨c, h1, h2, h3, h4, h5⟩
        · left
          refine ⟨by simp [h1], ?_, h3, h4, ?_⟩
          · intro c hc
            rcases List.mem_cons.1 hc with hc | hc
            · rw [hc]; exact hok
            · exact h2 c hc
          · rw [h5]
            cases new with
            | nil => simp [nextState]
            | cons c1 cs =>
              rw [List.getLast?_cons_cons]
              cases hl : (c1 :: cs).getLast? with
              | none => simp at hl
              | some c2 => simp
        · right
          refine ⟨c, ?_, h2, h3, h4, h5⟩
          cases new with
          | nil => simp at h1
          | cons c1 cs => rw [List.getLast?_cons_cons]; exact h1
    · have hf : (invocationAt env workflow nodeMap s nodeID).Output.IsSuccess
          = false := by simpa using h
      rw [runNodes_cons_fail _ _ _ _ _ _ _ hf]
      have hne : (invocationAt env workflow nodeMap s nodeID).Output.Error ≠ ""
          := fun e => h ((isSuccess_iff _).2 e)
      refine ⟨[invocationAt env workflow nodeMap s nodeID], ?_⟩
      constructor
      · simp
      · simp [invocationAt]
      · simp [logsOf]
      · simp
      · right
        exact ⟨_, by simp, hne, rfl, rfl, by simp [invocationAt]⟩

theorem runWorkflow_of_complete (env : Env) (fuel : Nat) (iter : List String)
    (workflow : Workflow) (order : List String)
    (hsort : topologicalSort fuel iter workflow.Nodes workflow.Edges
      = some order)
    (hlen : order.length = workflow.Nodes.length) :
    runWorkflow env fuel iter workflow
      = some (runNodes env workflow (buildNodeMap workflow.Nodes) (env.now 0)
          order initialState) := by
  simp [runWorkflow, hsort, hlen, initialState]

theorem runWorkflow_of_incomplete (env : Env) (fuel : Nat)
    (iter : List String) (workflow : Workflow) (order : List String)
    (hsort : topologicalSort fuel iter workflow.Nodes workflow.Edges
      = some order)
    (hlen : order.length ≠ workflow.Nodes.length) :
    runWorkflow env fuel iter workflow
      = some
        { result :=
            { Status := "error"
              StartTime := env.format (env.now 0)
              EndTime := env.format (env.now 1)
              Logs := []
              FinalOutput := none
              Error := "工作流存在循环依赖，无法执行" }
          calls := [] } := by
  simp [runWorkflow, hsort, hlen]

/-- Every run that `runWorkflow` returns is either the cycle error, with no
call and no log entry, or the node loop on a complete order. -/
theorem runWorkflow_cases (env : Env) (fuel : Nat) (iter : List String)
    (workflow : Workflow) (run : Run)
    (hrun : runWorkflow env fuel iter workflow = some run) :
    ∃ order, topologicalSort fuel iter workflow.Nodes workflow.Edges
        = some order
      ∧ ((order.length ≠ workflow.Nodes.length ∧ run.calls = []
          ∧ run.result.Logs = [] ∧ run.result.Status = "error"
          ∧ run.result.Error = "工作流存在循环依赖，无法执行"
          ∧ run.result.FinalOutput = none)
        ∨ (order.length = workflow.Nodes.length
          ∧ ∃ new, RunTrace env (buildNodeMap workflow.Nodes) order
              initialState run new)) := by
  cases hsort : topologicalSort fuel iter workflow.Nodes workflow.Edges with
  | none => simp [runWorkflow, hsort] at hrun
  | some order =>
    refine ⟨order, rfl, ?_⟩
    by_cases hlen : order.length = workflow.Nodes.length
    · right
      rw [runWorkflow_of_complete env fuel iter workflow order hsort hlen] at hrun
      cases hrun
      exact ⟨hlen, runNodes_trace env workflow _ _ order initialState⟩
    · left
      rw [runWorkflow_of_incomplete env fuel iter workflow order hsort hlen]
        at hrun
      cases hrun
      exact ⟨hlen, rfl, rfl, rfl, rfl, rfl⟩

/-! ## Log entries of a sequence of calls -/

theorem logsOf_length (env : Env) (nodeMap : GoMap WorkflowNode)
    (cs : List Invocation) :
    ∀ clock, (logsOf env nodeMap clock cs).length = 2 * cs.length := by
  induction cs with
  | nil => intro clock; simp [logsOf]
  | cons c cs ih => intro clock; simp [logsOf, ih]; omega

theorem logsOf_nodeID (env : Env) (nodeMap : GoMap WorkflowNode)
    (cs : List Invocation) :
    ∀ clock, ∀ l ∈ logsOf env nodeMap clock cs, ∃ c ∈ cs, l.NodeID = c.NodeID
    := by
  induction cs with
  | nil => intro clock l hl; simp [logsOf] at hl
  | cons c cs ih =>
    intro clock l hl
    simp only [logsOf, List.mem_cons] at hl
    rcases hl with hl | hl | hl
    · exact ⟨c, by simp, by rw [hl]; rfl⟩
    · exact ⟨c, by simp, by rw [hl]; rfl⟩
    · obtain ⟨c1, hc1, h1⟩ := ih _ l hl
      exact ⟨c1, List.mem_cons_of_mem _ hc1, h1⟩

theorem logsOf_getLast (env : Env) (nodeMap : GoMap WorkflowNode)
    (cs : List Invocation) (c : Invocation) :
    ∀ clock, cs.getLast? = some c →
      ∃ k, (logsOf env nodeMap clock cs).getLast?
        = some (terminalEntry env nodeMap k c) := by
  induction cs with
  | nil => intro clock h; simp at h
  | cons c0 cs ih =>
    intro clock h
    cases cs with
    | nil =>
      simp at h
      subst h
      exact ⟨clock, by simp [logsOf]⟩
    | cons c1 cs1 =>
      rw [List.getLast?_cons_cons] at h
      obtain ⟨k, hk⟩ := ih (clock + 2) h
      refine ⟨k, ?_⟩
      rw [← hk]
      simp [logsOf, List.getLast?_cons_cons]

theorem logsOf_success (env : Env) (nodeMap : GoMap WorkflowNode)
    (cs : List Invocation) (hok : ∀ c ∈ cs, c.Output.Error = "") :
    ∀ clock,
      ((logsOf env nodeMap clock cs).filter
          (fun l => l.Status = "success")).map (fun l => (l.NodeID, l.Output))
        = cs.map (fun c => (c.NodeID, some c.Output)) := by
  induction cs with
  | nil => intro clock; simp [logsOf]
  | cons c cs ih =>
    intro clock
    have h1 : c.Output.IsSuccess = true :=
      (isSuccess_iff _).2 (hok c (by simp))
    have h2 := ih (fun c1 hc1 => hok c1 (List.mem_cons_of_mem _ hc1)) (clock + 2)
    simp only [logsOf, List.map_cons]
    rw [List.filter_cons_of_neg (by simp [runningEntry]),
      List.filter_cons_of_pos (by simp [terminalEntry, h1]),
      List.map_cons, h2]
    simp [terminalEntry]

/-- The log entries of a sequence of calls come in pairs, a running entry
followed by the terminal entry of the same node; when every call but the last
succeeded, every terminal entry but the last is a success. -/
theorem logsOf_pairs (env : Env) (nodeMap : GoMap WorkflowNode)
    (cs : List Invocation) (hinit : ∀ c ∈ cs.dropLast, c.Output.Error = "") :
    ∀ clock, ∃ ps : List (NodeExecutionLog × NodeExecutionLog),
      logsOf env nodeMap clock cs = ps.flatMap (fun p => [p.1, p.2])
      ∧ ps.map (fun p => p.1.NodeID) = cs.map (fun c => c.NodeID)
      ∧ (∀ p ∈ ps, p.1.Status = "running" ∧ p.2.NodeID = p.1.NodeID
          ∧ p.2.NodeName = p.1.NodeName
          ∧ (p.2.Status = "success" ∨ p.2.Status = "error"))
      ∧ (∀ p ∈ ps.dropLast, p.2.Status = "success") := by
  induction cs with
  | nil => intro clock; exact ⟨[], by simp [logsOf]⟩
  | cons c cs ih =>
    intro clock
    have hinit1 : ∀ c1 ∈ cs.dropLast, c1.Output.Error = "" := by
      intro c1 hc1
      cases cs with
      | nil => simp at hc1
      | cons c2 cs2 =>
        apply hinit
        rw [List.dropLast_cons_of_ne_nil (by simp)]
        exact List.mem_cons_of_mem _ hc1
    obtain ⟨ps, h1, h2, h3, h4⟩ := ih hinit1 (clock + 2)
    refine ⟨(runningEntry env nodeMap clock c, terminalEntry env nodeMap clock c)
      :: ps, ?_, ?_, ?_, ?_⟩
    · simp [logsOf, h1]
    · simp [h2, runningEntry]
    · intro p hp
      rcases List.mem_cons.1 hp with hp | hp
      · subst hp
        refine ⟨rfl, rfl, rfl, ?_⟩
        by_cases hs : c.Output.IsSuccess = true
        · left; simp [terminalEntry, hs]
        · right; simp [terminalEntry, hs]
      · exact h3 p hp
    · intro p hp
      cases ps with
      | nil => simp at hp
      | cons p1 ps1 =>
        rw [List.dropLast_cons_of_ne_nil (by simp)] at hp
        rcases List.mem_cons.1 hp with hp | hp
        · subst hp
          cases cs with
          | nil => simp at h2
          | cons c2 cs2 =>
            have hc : c.Output.Error = "" := by
              apply hinit
              rw [List.dropLast_cons_of_ne_nil (by simp)]
              simp
            simp [terminalEntry, (isSuccess_iff _).2 hc]
        · exact h4 p hp

theorem mem_dropLast_of_getElem? {α : Type} (l : List α) (i : Nat) (a : α)
    (h : l[i]? = some a) (hi : i + 1 < l.length) : a ∈ l.dropLast := by
  rw [List.dropLast_eq_take]
  apply List.getElem?_mem (n := i)
  rw [List.getElem?_take_of_lt (by omega)]
  exact h

theorem eq_last_of_not_mem_dropLast {α : Type} (l : List α) (a b : α)
    (hl : l.getLast? = some b) (ha : a ∈ l) (hn : a ∉ l.dropLast) : a = b := by
  have := List.dropLast_append_getLast? b (by simpa using hl)
  rw [← this] at ha
  rcases List.mem_append.1 ha with h | h
  · exact absurd h hn
  · simpa using h

/-! ## The orchestrator: results -/

theorem runWorkflow_trace (env : Env) (fuel : Nat) (iter : List String)
    (workflow : Workflow) (order : List String) (run : Run)
    (hsort : topologicalSort fuel iter workflow.Nodes workflow.Edges
      = some order)
    (hlen : order.length = workflow.Nodes.length)
    (hrun : runWorkflow env fuel iter workflow = some run) :
    RunTrace env (buildNodeMap workflow.Nodes) order initialState run run.calls
      ∧ run.result.Logs
        = logsOf env (buildNodeMap workflow.Nodes) 1 run.calls := by
  rw [runWorkflow_of_complete env fuel iter workflow order hsort hlen] at hrun
  obtain ⟨new, tr⟩ := runNodes_trace env workflow
    (buildNodeMap workflow.Nodes) (env.now 0) order initialState
  rw [Option.some.inj hrun] at tr
  have hc : run.calls = new := by simpa [initialState] using tr.calls_eq
  rw [← hc] at tr
  exact ⟨tr, by simpa [initialState] using tr.logs_eq⟩

/-- C5. When `topologicalSort` returns a list whose length differs from the
number of nodes, `runWorkflow` returns Status "error", no log entry, no
FinalOutput and the cycle message, and makes no call of the task executor. -/
theorem runWorkflow_incomplete_sort (env : Env) (fuel : Nat)
    (iter : List String) (workflow : Workflow) (order : List String)
    (hsort : topologicalSort fuel iter workflow.Nodes workflow.Edges
      = some order)
    (hlen : order.length ≠ workflow.Nodes.length) :
    ∃ run, runWorkflow env fuel iter workflow = some run
      ∧ run.result.Status = "error"
      ∧ run.result.Logs = []
      ∧ run.result.FinalOutput = none
      ∧ run.result.Error = "工作流存在循环依赖，无法执行"
      ∧ run.calls = [] :=
  ⟨_, runWorkflow_of_incomplete env fuel iter workflow order hsort hlen,
    rfl, rfl, rfl, rfl, rfl⟩

/-- Witness of C5: the cyclic workflow A → B, B → C, C → B, whose sort
returns only A. -/
theorem runWorkflow_incomplete_sort_witness :
    ∃ run, runWorkflow demoEnv 3 ["A", "B", "C"] loopWorkflow = some run
      ∧ run.result.Status = "error"
      ∧ run.result.Logs = []
      ∧ run.result.FinalOutput = none
      ∧ run.result.Error = "工作流存在循环依赖，无法执行"
      ∧ run.calls = [] :=
  runWorkflow_incomplete_sort demoEnv 3 ["A", "B", "C"] loopWorkflow ["A"]
    (by decide) (by decide)

/-- C6. In a run on a complete sort, if the call made at position `j` (counted
from 0) returns an output with a non-empty Error, then the calls of the task
executor are exactly those for the first `j + 1` ids of the order, in that
order and once each, all calls before it returned an empty Error, and no log
entry belongs to an id after position `j`. -/
theorem runWorkflow_stops_at_failure (env : Env) (fuel : Nat)
    (iter : List String) (workflow : Workflow) (order : List String)
    (run : Run) (j : Nat) (c : Invocation)
    (hiter : IsRangeOrder iter workflow.Nodes workflow.Edges)
    (hsort : topologicalSort fuel iter workflow.Nodes workflow.Edges
      = some order)
    (hlen : order.length = workflow.Nodes.length)
    (hrun : runWorkflow env fuel iter workflow = some run)
    (hj : run.calls[j]? = some c) (hfail : c.Output.Error ≠ "") :
    j < order.length
      ∧ run.calls.map (fun c => c.NodeID) = order.take (j + 1)
      ∧ (order.take (j + 1)).Nodup
      ∧ (∀ i ci, i < j → run.calls[i]? = some ci → ci.Output.Error = "")
      ∧ (∀ l ∈ run.result.Logs,
          l.NodeID ∈ order.take (j + 1) ∧ l.NodeID ∉ order.drop (j + 1)) := by
  obtain ⟨tr, hlogs⟩ := runWorkflow_trace env fuel iter workflow order run
    hsort hlen hrun
  obtain ⟨deg1, inv⟩ := topologicalSort_sound _ _ iter fuel hiter order hsort
  have hnd : order.Nodup := inv.result_nodup
  have hjlt : j < run.calls.length := (List.getElem?_eq_some.1 hj).1
  have hlast : j + 1 = run.calls.length := by
    by_contra hne
    exact hfail (tr.init_ok c
      (mem_dropLast_of_getElem? _ j c hj (by omega)))
  have hids : run.calls.map (fun c => c.NodeID) = order.take (j + 1) := by
    rw [hlast]; exact tr.ids_eq
  have hjo : j < order.length := by
    have := congrArg List.length hids
    simp at this
    omega
  refine ⟨hjo, hids, hnd.sublist (List.take_sublist _ _), ?_, ?_⟩
  · intro i ci hi hci
    exact tr.init_ok ci (mem_dropLast_of_getElem? _ i ci hci (by omega))
  · intro l hl
    rw [hlogs] at hl
    obtain ⟨c1, hc1, h1⟩ := logsOf_nodeID env _ _ _ l hl
    have hmem : l.NodeID ∈ order.take (j + 1) := by
      rw [← hids, h1]
      exact List.mem_map.2 ⟨c1, hc1, rfl⟩
    exact ⟨hmem, fun hd =>
      List.disjoint_take_drop hnd (le_refl _) hmem hd⟩

/-- Witness of C6: in the chain A → B → C the task of B, the call at
position 1, fails. -/
theorem runWorkflow_stops_at_failure_witness :
    1 < ["A", "B", "C"].length
      ∧ chainRun.calls.map (fun c => c.NodeID) = ["A", "B", "C"].take (1 + 1)
      ∧ (["A", "B", "C"].take (1 + 1)).Nodup
      ∧ (∀ i ci, i < 1 → chainRun.calls[i]? = some ci → ci.Output.Error = "")
      ∧ (∀ l ∈ chainRun.result.Logs,
          l.NodeID ∈ ["A", "B", "C"].take (1 + 1)
            ∧ l.NodeID ∉ ["A", "B", "C"].drop (1 + 1)) :=
  runWorkflow_stops_at_failure demoEnv 3 ["A", "B", "C"] chainWorkflow
    ["A", "B", "C"] chainRun 1 chainCallB
    (by unfold IsRangeOrder; decide) (by decide) (by decide) rfl rfl
    (by decide)

/-- C7. In a run in which some call returns an output with a non-empty
Error, the result has Status "error", FinalOutput is that output, Error is the
message built from the failing node's label and error text, and the last log
entry is that node's "error" entry with the composed input and the output. -/
theorem runWorkflow_failure_result (env : Env) (fuel : Nat)
    (iter : List String) (workflow : Workflow) (run : Run) (c : Invocation)
    (hrun : runWorkflow env fuel iter workflow = some run)
    (hc : c ∈ run.calls) (hfail : c.Output.Error ≠ "") :
    run.result.Status = "error"
      ∧ run.result.FinalOutput = some c.Output
      ∧ run.result.Error
        = "任务 \"" ++ labelOf (buildNodeMap workflow.Nodes) c.NodeID
          ++ "\" 执行失败: " ++ c.Output.Error
      ∧ ∃ entry, run.result.Logs.getLast? = some entry
        ∧ entry.NodeID = c.NodeID
        ∧ entry.NodeName = labelOf (buildNodeMap workflow.Nodes) c.NodeID
        ∧ entry.Status = "error"
        ∧ entry.Message = "任务执行失败: " ++ c.Output.Error
        ∧ entry.Input = c.Input
        ∧ entry.Output = some c.Output := by
  obtain ⟨order, hsort, hcase | ⟨hlen, _⟩⟩ :=
    runWorkflow_cases env fuel iter workflow run hrun
  · rw [hcase.2.1] at hc
    simp at hc
  · obtain ⟨tr, hlogs⟩ := runWorkflow_trace env fuel iter workflow order run
      hsort hlen hrun
    rcases tr.outcome with ⟨_, h2, _⟩ | ⟨c1, h1, h2, h3, h4, h5⟩
    · exact absurd (h2 c hc) hfail
    · have hcc : c = c1 :=
        eq_last_of_not_mem_dropLast _ c c1 h1 hc
          (fun hd => hfail (tr.init_ok c hd))
      subst hcc
      refine ⟨h3, h4, h5, ?_⟩
      obtain ⟨k, hk⟩ := logsOf_getLast env (buildNodeMap workflow.Nodes)
        run.calls c 1 h1
      have hs : c.Output.IsSuccess = false := by
        cases hb : c.Output.IsSuccess with
        | false => rfl
        | true => exact absurd ((isSuccess_iff _).1 hb) hfail
      refine ⟨_, by rw [hlogs]; exact hk, rfl, rfl, ?_, ?_, rfl, rfl⟩
      · simp [terminalEntry, hs]
      · simp [terminalEntry, hs]

/-- Witness of C7: the failing call for B in the run of the chain
A → B → C. -/
theorem runWorkflow_failure_result_witness :
    chainRun.result.Status = "error"
      ∧ chainRun.result.FinalOutput = some chainCallB.Output
      ∧ chainRun.result.Error
        = "任务 \"" ++ labelOf (buildNodeMap chainWorkflow.Nodes)
            chainCallB.NodeID
          ++ "\" 执行失败: " ++ chainCallB.Output.Error
      ∧ ∃ entry, chainRun.result.Logs.getLast? = some entry
        ∧ entry.NodeID = chainCallB.NodeID
        ∧ entry.NodeName
          = labelOf (buildNodeMap chainWorkflow.Nodes) chainCallB.NodeID
        ∧ entry.Status = "error"
        ∧ entry.Message = "任务执行失败: " ++ chainCallB.Output.Error
        ∧ entry.Input = chainCallB.Input
        ∧ entry.Output = some chainCallB.Output :=
  runWorkflow_failure_result demoEnv 3 ["A", "B", "C"] chainWorkflow chainRun
    chainCallB rfl (List.mem_cons_of_mem _ (List.mem_cons_self _ _))
    (by decide)

/-- C8. In a run on a complete sort in which every call returns an empty
Error, the result has Status "success" and an empty Error, the calls go
through the whole order, the "success" log entries are those of the nodes of
the order, in order and with their outputs, and FinalOutput is the output of
the call for the last node of the order. -/
theorem runWorkflow_all_succeed (env : Env) (fuel : Nat)
    (iter : List String) (workflow : Workflow) (order : List String)
    (run : Run)
    (hsort : topologicalSort fuel iter workflow.Nodes workflow.Edges
      = some order)
    (hlen : order.length = workflow.Nodes.length)
    (hrun : runWorkflow env fuel iter workflow = some run)
    (hok : ∀ c ∈ run.calls, c.Output.Error = "") :
    run.result.Status = "success"
      ∧ run.result.Error = ""
      ∧ run.calls.map (fun c => c.NodeID) = order
      ∧ (run.result.Logs.filter (fun l => l.Status = "success")).map
          (fun l => (l.NodeID, l.Output))
        = run.calls.map (fun c => (c.NodeID, some c.Output))
      ∧ run.result.FinalOutput
        = run.calls.getLast?.map (fun c => c.Output) := by
  obtain ⟨tr, hlogs⟩ := runWorkflow_trace env fuel iter workflow order run
    hsort hlen hrun
  rcases tr.outcome with ⟨h1, _, h3, h4, h5⟩ | ⟨c1, h1, h2, _⟩
  · refine ⟨h3, h4, ?_, ?_, ?_⟩
    · have := tr.ids_eq
      rw [h1, List.take_length] at this
      exact this
    · rw [hlogs]
      exact logsOf_success env _ run.calls hok 1
    · rw [h5]
      simp [initialState]
  · exact absurd (hok c1 (List.mem_of_mem_getLast? h1)) h2

/-- Witness of C8: the workflow A → B, A → C, B → C with tasks that all
succeed. -/
theorem runWorkflow_all_succeed_witness :
    diamondRun.result.Status = "success"
      ∧ diamondRun.result.Error = ""
      ∧ diamondRun.calls.map (fun c => c.NodeID) = ["A", "B", "C"]
      ∧ (diamondRun.result.Logs.filter (fun l => l.Status = "success")).map
          (fun l => (l.NodeID, l.Output))
        = diamondRun.calls.map (fun c => (c.NodeID, some c.Output))
      ∧ diamondRun.result.FinalOutput
        = diamondRun.calls.getLast?.map (fun c => c.Output) :=
  runWorkflow_all_succeed demoEnv 3 ["C", "B", "A"] diamondWorkflow
    ["A", "B", "C"] diamondRun (by decide) (by decide) rfl (by decide)

/-- C9. For every workflow and task executor `runWorkflow` returns; the nodes
it attempts are an initial part of the execution order, and its Logs are, for
each attempted node in that order, one "running" entry immediately followed
by one terminal entry ("success" or "error") with the same NodeID and
NodeName; so Logs has twice as many entries as attempted nodes, and only the
last entry can be an "error" entry. -/
theorem runWorkflow_logs_shape (env : Env) (fuel : Nat) (iter : List String)
    (workflow : Workflow)
    (hiter : IsRangeOrder iter workflow.Nodes workflow.Edges)
    (hfuel : (mentionedIDs workflow.Nodes workflow.Edges).length ≤ fuel) :
    ∃ run order, runWorkflow env fuel iter workflow = some run
      ∧ topologicalSort fuel iter workflow.Nodes workflow.Edges = some order
      ∧ run.calls.map (fun c => c.NodeID) <+: order
      ∧ run.result.Logs.length = 2 * run.calls.length
      ∧ ∃ ps : List (NodeExecutionLog × NodeExecutionLog),
        run.result.Logs = ps.flatMap (fun p => [p.1, p.2])
        ∧ ps.map (fun p => p.1.NodeID) = run.calls.map (fun c => c.NodeID)
        ∧ (∀ p ∈ ps, p.1.Status = "running" ∧ p.2.NodeID = p.1.NodeID
            ∧ p.2.NodeName = p.1.NodeName
            ∧ (p.2.Status = "success" ∨ p.2.Status = "error"))
        ∧ (∀ p ∈ ps.dropLast, p.2.Status = "success") := by
  obtain ⟨order, _, hsort, _⟩ := topologicalSort_spec workflow.Nodes
    workflow.Edges iter fuel hiter
    (le_trans (keys_length_le_mentionedIDs _ _) hfuel)
  by_cases hlen : order.length = workflow.Nodes.length
  · have hrun := runWorkflow_of_complete env fuel iter workflow order hsort hlen
    obtain ⟨tr, hlogs⟩ := runWorkflow_trace env fuel iter workflow order _
      hsort hlen hrun
    refine ⟨_, order, hrun, hsort, ?_, ?_, ?_⟩
    · rw [tr.ids_eq]
      exact List.take_prefix _ _
    · rw [hlogs, logsOf_length]
    · rw [hlogs]
      exact logsOf_pairs env _ _ tr.init_ok 1
  · refine ⟨_, order, runWorkflow_of_incomplete env fuel iter workflow order
      hsort hlen, hsort, by simp, by simp, [], by simp⟩

/-- Witness of C9: the chain A → B → C in which the task of B fails. -/
theorem runWorkflow_logs_shape_witness :
    ∃ run order, runWorkflow demoEnv 3 ["B", "A", "C"] chainWorkflow = some run
      ∧ topologicalSort 3 ["B", "A", "C"] chainWorkflow.Nodes
          chainWorkflow.Edges = some order
      ∧ run.calls.map (fun c => c.NodeID) <+: order
      ∧ run.result.Logs.length = 2 * run.calls.length
      ∧ ∃ ps : List (NodeExecutionLog × NodeExecutionLog),
        run.result.Logs = ps.flatMap (fun p => [p.1, p.2])
        ∧ ps.map (fun p => p.1.NodeID) = run.calls.map (fun c => c.NodeID)
        ∧ (∀ p ∈ ps, p.1.Status = "running" ∧ p.2.NodeID = p.1.NodeID
            ∧ p.2.NodeName = p.1.NodeName
            ∧ (p.2.Status = "success" ∨ p.2.Status = "error"))
        ∧ (∀ p ∈ ps.dropLast, p.2.Status = "success") :=
  runWorkflow_logs_shape demoEnv 3 ["B", "A", "C"] chainWorkflow
    (by unfold IsRangeOrder; decide) (by decide)

/-! ## The input composer: results -/

theorem getPredecessors_eq (nodeID : String) (edges : List WorkflowEdge) :
    getPredecessors nodeID edges
      = (edges.filter (fun e => e.Target = nodeID)).map (fun e => e.Source)
    := by
  have key : ∀ (es : List WorkflowEdge) (acc : List String),
      es.foldl
        (fun result edge =>
          if edge.Target = nodeID then result ++ [edge.Source] else result)
        acc
      = acc ++ (es.filter (fun e => e.Target = nodeID)).map
          (fun e => e.Source) := by
    intro es
    induction es with
    | nil => intro acc; simp
    | cons e es ih =>
      intro acc
      by_cases h : e.Target = nodeID
      · simp [List.foldl_cons, ih, h]
      · simp [List.foldl_cons, ih, h]
  simpa using key edges []

theorem mem_getPredecessors (nodeID : String) (edges : List WorkflowEdge)
    (p : String) :
    p ∈ getPredecessors nodeID edges
      ↔ ∃ e ∈ edges, e.Target = nodeID ∧ e.Source = p := by
  rw [getPredecessors_eq]
  simp [List.mem_map, List.mem_filter, and_assoc]

theorem get?_buildPrevious (predecessors : List String)
    (nodeOutputs : GoMap TaskOutput) (p : String) :
    (buildPrevious predecessors nodeOutputs).get? p
      = if p ∈ predecessors then (nodeOutputs.get? p).map previousRecord
        else none := by
  have key : ∀ (ps : List String) (acc : GoMap Value),
      (ps.foldl
        (fun previous predID =>
          match nodeOutputs.get? predID with
          | some output => previous.set predID (previousRecord output)
          | none => previous)
        acc).get? p
      = if p ∈ ps ∧ (nodeOutputs.get? p).isSome = true
        then (nodeOutputs.get? p).map previousRecord else acc.get? p := by
    intro ps
    induction ps with
    | nil => intro acc; simp
    | cons q qs ih =>
      intro acc
      rw [List.foldl_cons, ih]
      by_cases hq : q = p
      · subst hq
        cases ho : nodeOutputs.get? q with
        | none => simp
        | some o => simp [GoMap.get?_set]
      · have hq2 : ¬ p = q := fun e => hq e.symm
        cases ho : nodeOutputs.get? q with
        | none => simp [hq2]
        | some o => simp [GoMap.get?_set, hq, hq2]
  unfold buildPrevious
  rw [key]
  by_cases hp : p ∈ predecessors
  · cases ho : nodeOutputs.get? p with
    | none => simp [GoMap.get?]
    | some o => simp [hp]
  · simp [hp, GoMap.get?]

theorem get?_flatten_of_isSome (input : TaskInput) (data : GoMap Value)
    (k : String) (h : (input.get? k).isSome = true) :
    (flatten input data).get? k = input.get? k := by
  have key : ∀ (l : List (String × Value)) (inp : TaskInput),
      (inp.get? k).isSome = true →
      (l.foldl
        (fun input kv =>
          if (input.get? kv.1).isSome then input else input.set kv.1 kv.2)
        inp).get? k = inp.get? k := by
    intro l
    induction l with
    | nil => intro inp _; rfl
    | cons kv l ih =>
      intro inp hk
      rw [List.foldl_cons]
      by_cases hs : (inp.get? kv.1).isSome = true
      · rw [if_pos hs]
        exact ih inp hk
      · rw [if_neg hs]
        have hne : ¬ kv.1 = k := fun e => hs (e ▸ hk)
        have hget : (inp.set kv.1 kv.2).get? k = inp.get? k := by
          rw [GoMap.get?_set, if_neg hne]
        rw [ih _ (by rw [hget]; exact hk), hget]
  exact key _ input h

/-- The entry of the composed input under the key `$previous`, for a node
with at least one incoming edge. -/
theorem get?_prepareInput_previous (nodeID : String) (config : TaskInput)
    (edges : List WorkflowEdge) (nodeOutputs : GoMap TaskOutput)
    (h : ∃ e ∈ edges, e.Target = nodeID) :
    (prepareInput nodeID config edges nodeOutputs).get? "$previous"
      = some (Value.obj
          (buildPrevious (getPredecessors nodeID edges) nodeOutputs)) := by
  have hpos : (getPredecessors nodeID edges).length > 0 := by
    obtain ⟨e, he, het⟩ := h
    exact List.length_pos_of_mem
      ((mem_getPredecessors nodeID edges e.Source).2 ⟨e, he, het, rfl⟩)
  unfold prepareInput
  simp only [if_pos hpos]
  split
  · split
    · split
      · apply Eq.trans (get?_flatten_of_isSome _ _ _ _)
        · simp [GoMap.get?_set]
        · simp [GoMap.get?_set]
      · simp [GoMap.get?_set]
    · simp [GoMap.get?_set]
  · simp [GoMap.get?_set]

/-- C10. When at least one edge targets `nodeID`, the composed input holds
under `$previous` a mapping whose keys are exactly the sources of edges into
`nodeID` that have an entry in `nodeOutputs`, each mapped to the record of the
Error and Data of that entry, whatever `config` holds under `$previous`. -/
theorem prepareInput_previous (nodeID : String) (config : TaskInput)
    (edges : List WorkflowEdge) (nodeOutputs : GoMap TaskOutput)
    (h : ∃ e ∈ edges, e.Target = nodeID) :
    ∃ previous : GoMap Value,
      (prepareInput nodeID config edges nodeOutputs).get? "$previous"
        = some (Value.obj previous)
      ∧ (∀ p, p ∈ previous.keys
          ↔ (∃ e ∈ edges, e.Target = nodeID ∧ e.Source = p)
            ∧ ∃ o, nodeOutputs.get? p = some o)
      ∧ (∀ p o, p ∈ previous.keys → nodeOutputs.get? p = some o →
          previous.get? p
            = some (Value.obj
                [("error", Value.str o.Error), ("data", o.Data)])) := by
  refine ⟨buildPrevious (getPredecessors nodeID edges) nodeOutputs,
    get?_prepareInput_previous nodeID config edges nodeOutputs h, ?_, ?_⟩
  · intro p
    rw [GoMap.mem_keys_iff, get?_buildPrevious, ← mem_getPredecessors]
    by_cases hp : p ∈ getPredecessors nodeID edges
    · cases ho : nodeOutputs.get? p with
      | none => simp [hp]
      | some o => simp [hp]
    · simp [hp]
  · intro p o hp ho
    rw [GoMap.mem_keys_iff, get?_buildPrevious] at hp
    rw [get?_buildPrevious]
    by_cases hpp : p ∈ getPredecessors nodeID edges
    · simp [hpp, ho, previousRecord]
    · simp [hpp] at hp

/-- Witness of C10: node B with the edges A → B and Z → B, an output recorded
for A only, and a config that has its own `$previous`. -/
theorem prepareInput_previous_witness :
    ∃ previous : GoMap Value,
      (prepareInput "B" [("$previous", Value.str "mine"), ("y", Value.num 99)]
          [⟨"A", "B"⟩, ⟨"Z", "B"⟩]
          [("A", ⟨"", Value.obj [("x", Value.num 1)], []⟩)]).get? "$previous"
        = some (Value.obj previous)
      ∧ (∀ p, p ∈ previous.keys
          ↔ (∃ e ∈ [(⟨"A", "B"⟩ : WorkflowEdge), ⟨"Z", "B"⟩],
              e.Target = "B" ∧ e.Source = p)
            ∧ ∃ o, GoMap.get?
                [("A", (⟨"", Value.obj [("x", Value.num 1)], []⟩ : TaskOutput))]
                p = some o)
      ∧ (∀ p o, p ∈ previous.keys →
          GoMap.get?
            [("A", (⟨"", Value.obj [("x", Value.num 1)], []⟩ : TaskOutput))]
            p = some o →
          previous.get? p
            = some (Value.obj
                [("error", Value.str o.Error), ("data", o.Data)])) :=
  prepareInput_previous "B"
    [("$previous", Value.str "mine"), ("y", Value.num 99)]
    [⟨"A", "B"⟩, ⟨"Z", "B"⟩]
    [("A", ⟨"", Value.obj [("x", Value.num 1)], []⟩)] (by decide)

/-! ## The input composer: reading the composed input -/

theorem GoMap.get?_filter_ne {V : Type} (l : GoMap V) (a k : String)
    (h : k ≠ a) :
    GoMap.get? (l.filter (fun kv => kv.1 ≠ a)) k = GoMap.get? l k := by
  induction l with
  | nil => rfl
  | cons hd tl ih =>
    obtain ⟨x, y⟩ := hd
    by_cases hx : x = a
    · have hxk : ¬ x = k := fun e => h (e ▸ hx)
      rw [List.filter_cons_of_neg (by simp [hx]), ih]
      simp [GoMap.get?, hxk]
    · rw [List.filter_cons_of_pos (by simp [hx])]
      by_cases hxk : x = k
      · simp [GoMap.get?, hxk]
      · simp only [GoMap.get?, if_neg hxk, ih]

theorem GoMap.get?_range {V : Type} (m : GoMap V) (k : String) :
    GoMap.get? (GoMap.range m) k = m.get? k := by
  induction m with
  | nil => rfl
  | cons hd tl ih =>
    obtain ⟨a, b⟩ := hd
    by_cases h : a = k
    · simp [GoMap.range, GoMap.get?, h]
    · have h2 : k ≠ a := fun e => h e.symm
      simp only [GoMap.range, GoMap.get?, if_neg h]
      rw [GoMap.get?_filter_ne _ _ _ h2, ih]

theorem GoMap.get?_eq_none_of_not_mem {V : Type} (l : GoMap V) (k : String)
    (h : k ∉ l.map Prod.fst) : GoMap.get? l k = none := by
  induction l with
  | nil => rfl
  | cons hd tl ih =>
    obtain ⟨a, b⟩ := hd
    simp only [List.map_cons, List.mem_cons, not_or] at h
    have h1 : ¬ a = k := fun e => h.1 e.symm
    simp [GoMap.get?, h1, ih h.2]

/-- Writing the entries of a list with pairwise distinct keys, one after the
other, gives a map that reads like the list, and like the start map on the
other keys. -/
theorem get?_foldl_set (l : List (String × Value)) (k : String)
    (hnd : (l.map Prod.fst).Nodup) :
    ∀ acc : TaskInput,
      GoMap.get?
          (l.foldl (fun (input : TaskInput) kv => input.set kv.1 kv.2) acc) k
        = (GoMap.get? l k).or (acc.get? k) := by
  induction l with
  | nil => intro acc; simp [GoMap.get?]
  | cons hd tl ih =>
    intro acc
    obtain ⟨a, b⟩ := hd
    simp only [List.map_cons, List.nodup_cons] at hnd
    rw [List.foldl_cons, ih hnd.2, GoMap.get?_set]
    by_cases h : a = k
    · subst h
      simp [GoMap.get?, GoMap.get?_eq_none_of_not_mem tl a hnd.1]
    · simp [GoMap.get?, h]

/-- The copy of `config` that `prepareInput` starts from reads like
`config`. -/
theorem get?_copyConfig (config : TaskInput) (k : String) :
    GoMap.get?
        ((GoMap.range config).foldl
          (fun (input : TaskInput) kv => input.set kv.1 kv.2) [])
        k = config.get? k := by
  rw [get?_foldl_set _ _ (GoMap.keys_nodup config), GoMap.get?_range]
  simp [GoMap.get?]

/-- After flattening, a key reads as in `input` when `input` has it, and as
in `data` otherwise. -/
theorem get?_flatten (input : TaskInput) (data : GoMap Value) (k : String) :
    (flatten input data).get? k = (input.get? k).or (data.get? k) := by
  have key : ∀ (l : List (String × Value)) (inp : TaskInput),
      (l.foldl
        (fun input kv =>
          if (input.get? kv.1).isSome then input else input.set kv.1 kv.2)
        inp).get? k = (inp.get? k).or (GoMap.get? l k) := by
    intro l
    induction l with
    | nil => intro inp; simp [GoMap.get?]
    | cons hd tl ih =>
      intro inp
      obtain ⟨a, b⟩ := hd
      rw [List.foldl_cons]
      by_cases hs : (inp.get? a).isSome = true
      · simp only [hs, if_true]
        rw [ih]
        by_cases h : a = k
        · subst h
          obtain ⟨v, hv⟩ := Option.isSome_iff_exists.1 hs
          simp [hv]
        · simp [GoMap.get?, h]
      · simp only [hs]
        rw [ih]
        simp only [Bool.false_eq_true, if_false]
        rw [GoMap.get?_set]
        by_cases h : a = k
        · subst h
          have hn : inp.get? a = none := by
            cases hg : inp.get? a with
            | none => rfl
            | some v => simp [hg] at hs
          simp [GoMap.get?, hn]
        · simp [GoMap.get?, h]
  unfold flatten
  rw [key, GoMap.get?_range]

theorem length_getPredecessors (nodeID : String) (edges : List WorkflowEdge) :
    (getPredecessors nodeID edges).length
      = (edges.filter (fun e => e.Target = nodeID)).length := by
  rw [getPredecessors_eq, List.length_map]

/-- The composed input of a node without incoming edge reads like `config`. -/
theorem get?_prepareInput_none (nodeID : String) (config : TaskInput)
    (edges : List WorkflowEdge) (nodeOutputs : GoMap TaskOutput)
    (h : (getPredecessors nodeID edges).length = 0) (k : String) :
    (prepareInput nodeID config edges nodeOutputs).get? k = config.get? k := by
  unfold prepareInput
  simp only [h, gt_iff_lt, lt_self_iff_false, if_false]
  exact get?_copyConfig config k

/-- The composed input of a node with two or more incoming edges reads like
`config`, except under `$previous`. -/
theorem get?_prepareInput_many (nodeID : String) (config : TaskInput)
    (edges : List WorkflowEdge) (nodeOutputs : GoMap TaskOutput)
    (h : 2 ≤ (getPredecessors nodeID edges).length) (k : String) :
    (prepareInput nodeID config edges nodeOutputs).get? k
      = if k = "$previous"
        then some (Value.obj
          (buildPrevious (getPredecessors nodeID edges) nodeOutputs))
        else config.get? k := by
  unfold prepareInput
  have h0 : (getPredecessors nodeID edges).length > 0 := by omega
  have h1 : ¬ (getPredecessors nodeID edges).length = 1 := by omega
  simp only [if_pos h0, if_neg h1]
  rw [GoMap.get?_set, get?_copyConfig]
  by_cases hk : k = "$previous"
  · simp [hk]
  · have hk2 : ¬ "$previous" = k := fun e => hk e.symm
    simp [hk, hk2]

/-- The composed input of a node with one incoming edge, from `p`, whose
recorded data is the mapping `d`: `$previous`, then `config`, then `d`. -/
theorem get?_prepareInput_one (nodeID : String) (config : TaskInput)
    (edges : List WorkflowEdge) (nodeOutputs : GoMap TaskOutput)
    (p : String) (o : TaskOutput) (d : GoMap Value)
    (hp : getPredecessors nodeID edges = [p])
    (ho : nodeOutputs.get? p = some o) (hd : o.Data = Value.obj d)
    (k : String) :
    (prepareInput nodeID config edges nodeOutputs).get? k
      = if k = "$previous"
        then some (Value.obj (buildPrevious [p] nodeOutputs))
        else (config.get? k).or (d.get? k) := by
  unfold prepareInput
  simp only [hp, List.length_singleton, gt_iff_lt, zero_lt_one, if_true,
    List.headD_cons, ho, hd]
  rw [get?_flatten, GoMap.get?_set, get?_copyConfig]
  by_cases hk : k = "$previous"
  · simp [hk]
  · have hk2 : ¬ "$previous" = k := fun e => hk e.symm
    simp [hk, hk2]

/-- A key of `config` other than `$previous` reads in the composed input as
in `config`. -/
theorem get?_prepareInput_config (nodeID : String) (config : TaskInput)
    (edges : List WorkflowEdge) (nodeOutputs : GoMap TaskOutput)
    (k : String) (v : Value) (hk : config.get? k = some v)
    (hne : k ≠ "$previous") :
    (prepareInput nodeID config edges nodeOutputs).get? k = some v := by
  have hne2 : ¬ "$previous" = k := fun e => hne e.symm
  have h1 : GoMap.get?
      (GoMap.set
        ((GoMap.range config).foldl
          (fun (input : TaskInput) kv => input.set kv.1 kv.2) [])
        "$previous"
        (Value.obj (buildPrevious (getPredecessors nodeID edges) nodeOutputs)))
      k = some v := by
    rw [GoMap.get?_set, if_neg hne2, get?_copyConfig, hk]
  unfold prepareInput
  dsimp only
  split
  · split
    · split
      · split
        · rw [get?_flatten_of_isSome _ _ _ (by rw [h1]; rfl)]
          exact h1
        · exact h1
      · exact h1
    · exact h1
  · rw [get?_copyConfig, hk]

/-- C11. For a node with exactly one incoming edge, from `p`, where the data
recorded for `p` is the mapping `d`: every key `k` of `d` other than
`$previous` is present in the composed input, with the value of `config`
when `config` has the key and the value of `d` otherwise. -/
theorem prepareInput_flattens (nodeID : String) (config : TaskInput)
    (edges : List WorkflowEdge) (nodeOutputs : GoMap TaskOutput)
    (p : String) (o : TaskOutput) (d : GoMap Value) (k : String) (v : Value)
    (hedge : edges.filter (fun e => e.Target = nodeID) = [⟨p, nodeID⟩])
    (ho : nodeOutputs.get? p = some o) (hd : o.Data = Value.obj d)
    (hk : d.get? k = some v) (hne : k ≠ "$previous") :
    (prepareInput nodeID config edges nodeOutputs).get? k
      = some ((config.get? k).getD v) := by
  have hp : getPredecessors nodeID edges = [p] := by
    rw [getPredecessors_eq, hedge]
    rfl
  rw [get?_prepareInput_one nodeID config edges nodeOutputs p o d hp ho hd,
    if_neg hne, hk]
  cases config.get? k <;> rfl

/-- Witness of C11: the data `x = 1, y = 2` recorded for the single
predecessor A of B and the config `y = 99` give `x = 1`, `y = 99` and the
record of A under `$previous`. -/
theorem prepareInput_flattens_witness :
    (prepareInput "B" [("y", Value.num 99)] [⟨"A", "B"⟩]
        [("A", ⟨"", Value.obj [("x", Value.num 1), ("y", Value.num 2)], []⟩)]
      ).get? "x" = some (Value.num 1)
    ∧ (prepareInput "B" [("y", Value.num 99)] [⟨"A", "B"⟩]
        [("A", ⟨"", Value.obj [("x", Value.num 1), ("y", Value.num 2)], []⟩)]
      ).get? "y" = some (Value.num 99)
    ∧ (prepareInput "B" [("y", Value.num 99)] [⟨"A", "B"⟩]
        [("A", ⟨"", Value.obj [("x", Value.num 1), ("y", Value.num 2)], []⟩)]
      ).get? "$previous"
      = some (Value.obj [("A", Value.obj [("error", Value.str ""),
          ("data", Value.obj [("x", Value.num 1), ("y", Value.num 2)])])]) :=
  ⟨prepareInput_flattens "B" [("y", Value.num 99)] [⟨"A", "B"⟩]
      [("A", ⟨"", Value.obj [("x", Value.num 1), ("y", Value.num 2)], []⟩)]
      "A" ⟨"", Value.obj [("x", Value.num 1), ("y", Value.num 2)], []⟩
      [("x", Value.num 1), ("y", Value.num 2)] "x" (Value.num 1)
      (by decide) rfl rfl rfl (by decide),
    prepareInput_flattens "B" [("y", Value.num 99)] [⟨"A", "B"⟩]
      [("A", ⟨"", Value.obj [("x", Value.num 1), ("y", Value.num 2)], []⟩)]
      "A" ⟨"", Value.obj [("x", Value.num 1), ("y", Value.num 2)], []⟩
      [("x", Value.num 1), ("y", Value.num 2)] "y" (Value.num 2)
      (by decide) rfl rfl rfl (by decide),
    rfl⟩

/-- C12. For a node with two or more incoming edges (so also with two or
more predecessors) nothing is flattened: the keys of the composed input are
the keys of `config` together with `$previous`, every key other than
`$previous` reads as in `config`, and `$previous` holds exactly the records
of the predecessors that have a recorded output. -/
theorem prepareInput_no_flatten (nodeID : String) (config : TaskInput)
    (edges : List WorkflowEdge) (nodeOutputs : GoMap TaskOutput)
    (hmany : 2 ≤ (edges.filter (fun e => e.Target = nodeID)).length) :
    (∀ k, k ∈ (prepareInput nodeID config edges nodeOutputs).keys
        ↔ k ∈ config.keys ∨ k = "$previous")
      ∧ (∀ k, k ≠ "$previous" →
          (prepareInput nodeID config edges nodeOutputs).get? k
            = config.get? k)
      ∧ ∃ previous : GoMap Value,
        (prepareInput nodeID config edges nodeOutputs).get? "$previous"
          = some (Value.obj previous)
        ∧ (∀ p, p ∈ previous.keys
            ↔ (∃ e ∈ edges, e.Target = nodeID ∧ e.Source = p)
              ∧ ∃ o, nodeOutputs.get? p = some o)
        ∧ (∀ p o, p ∈ previous.keys → nodeOutputs.get? p = some o →
            previous.get? p
              = some (Value.obj
                  [("error", Value.str o.Error), ("data", o.Data)])) := by
  have h2 : 2 ≤ (getPredecessors nodeID edges).length := by
    rw [length_getPredecessors]; exact hmany
  have hget := get?_prepareInput_many nodeID config edges nodeOutputs h2
  refine ⟨?_, ?_, buildPrevious (getPredecessors nodeID edges) nodeOutputs,
    ?_, ?_, ?_⟩
  · intro k
    rw [GoMap.mem_keys_iff, GoMap.mem_keys_iff, hget]
    by_cases hk : k = "$previous"
    · simp [hk]
    · simp [hk]
  · intro k hk
    rw [hget, if_neg hk]
  · rw [hget, if_pos rfl]
  · intro p
    rw [GoMap.mem_keys_iff, get?_buildPrevious, ← mem_getPredecessors]
    by_cases hp : p ∈ getPredecessors nodeID edges
    · cases ho : nodeOutputs.get? p with
      | none => simp [hp]
      | some o => simp [hp]
    · simp [hp]
  · intro p o hp ho
    rw [GoMap.mem_keys_iff, get?_buildPrevious] at hp
    rw [get?_buildPrevious]
    by_cases hpp : p ∈ getPredecessors nodeID edges
    · simp [hpp, ho, previousRecord]
    · simp [hpp] at hp

/-- C13. For a node that no edge targets, the composed input is `config`:
every key reads as in `config`, so the keys are those of `config` and no
`$previous` is added, whatever `nodeOutputs` holds. -/
theorem prepareInput_no_predecessor (nodeID : String) (config : TaskInput)
    (edges : List WorkflowEdge) (nodeOutputs : GoMap TaskOutput)
    (hnone : ∀ e ∈ edges, e.Target ≠ nodeID) :
    (∀ k, (prepareInput nodeID config edges nodeOutputs).get? k
        = config.get? k)
      ∧ (∀ k, k ∈ (prepareInput nodeID config edges nodeOutputs).keys
          ↔ k ∈ config.keys)
      ∧ ("$previous" ∈ (prepareInput nodeID config edges nodeOutputs).keys
          ↔ "$previous" ∈ config.keys) := by
  have h0 : (getPredecessors nodeID edges).length = 0 := by
    rw [length_getPredecessors, List.length_eq_zero, List.filter_eq_nil_iff]
    intro e he
    simpa using hnone e he
  have hget := get?_prepareInput_none nodeID config edges nodeOutputs h0
  have hkeys : ∀ k, k ∈ (prepareInput nodeID config edges nodeOutputs).keys
      ↔ k ∈ config.keys := by
    intro k
    rw [GoMap.mem_keys_iff, GoMap.mem_keys_iff, hget]
  exact ⟨hget, hkeys, hkeys _⟩

/-- C14. Config wins: a key of `config` other than `$previous` reads in the
composed input as in `config`, whatever the edges and the recorded outputs. -/
theorem prepareInput_config_wins (nodeID : String) (config : TaskInput)
    (edges : List WorkflowEdge) (nodeOutputs : GoMap TaskOutput)
    (k : String) (v : Value) (hk : config.get? k = some v)
    (hne : k ≠ "$previous") :
    (prepareInput nodeID config edges nodeOutputs).get? k = some v :=
  get?_prepareInput_config nodeID config edges nodeOutputs k v hk hne

/-- Witness of C12: node C with the incoming edges A → C and B → C, an output
recorded for A only. -/
theorem prepareInput_no_flatten_witness :
    (∀ k, k ∈ (prepareInput "C" configY [⟨"A", "C"⟩, ⟨"B", "C"⟩]
          recordedA).keys
        ↔ k ∈ configY.keys ∨ k = "$previous")
      ∧ (∀ k, k ≠ "$previous" →
          (prepareInput "C" configY [⟨"A", "C"⟩, ⟨"B", "C"⟩] recordedA).get? k
            = configY.get? k)
      ∧ ∃ previous : GoMap Value,
        (prepareInput "C" configY [⟨"A", "C"⟩, ⟨"B", "C"⟩]
            recordedA).get? "$previous"
          = some (Value.obj previous)
        ∧ (∀ p, p ∈ previous.keys
            ↔ (∃ e ∈ [(⟨"A", "C"⟩ : WorkflowEdge), ⟨"B", "C"⟩],
                e.Target = "C" ∧ e.Source = p)
              ∧ ∃ o, recordedA.get? p = some o)
        ∧ (∀ p o, p ∈ previous.keys → recordedA.get? p = some o →
            previous.get? p
              = some (Value.obj
                  [("error", Value.str o.Error), ("data", o.Data)])) :=
  prepareInput_no_flatten "C" configY [⟨"A", "C"⟩, ⟨"B", "C"⟩] recordedA
    (by decide)

/-- Witness of C13: node A of the edge A → B, with recorded outputs that the
composed input ignores. -/
theorem prepareInput_no_predecessor_witness :
    (∀ k, (prepareInput "A" configY [⟨"A", "B"⟩] recordedA).get? k
        = configY.get? k)
      ∧ (∀ k, k ∈ (prepareInput "A" configY [⟨"A", "B"⟩] recordedA).keys
          ↔ k ∈ configY.keys)
      ∧ ("$previous" ∈ (prepareInput "A" configY [⟨"A", "B"⟩] recordedA).keys
          ↔ "$previous" ∈ configY.keys) :=
  prepareInput_no_predecessor "A" configY [⟨"A", "B"⟩] recordedA (by decide)

/-- Witness of C14: the key `y` of the config, which the data recorded for the
single predecessor A also has. -/
theorem prepareInput_config_wins_witness :
    (prepareInput "B" configY [⟨"A", "B"⟩] recordedA).get? "y"
      = some (Value.num 99) :=
  prepareInput_config_wins "B" configY [⟨"A", "B"⟩] recordedA "y"
    (Value.num 99) rfl (by decide)

/-- C20, the code at a node whose two incoming edges have the same source:
`getPredecessors` lists the source A twice, so the test on the number of
predecessors fails and the data recorded for A is not flattened (the key `x`
is absent), although A is the only predecessor; with the edge given once the
key `x` is merged. -/
theorem prepareInput_duplicate_edge :
    getPredecessors "B" [⟨"A", "B"⟩, ⟨"A", "B"⟩] = ["A", "A"]
      ∧ (prepareInput "B" [] [⟨"A", "B"⟩, ⟨"A", "B"⟩] recordedA).get? "x"
        = none
      ∧ (prepareInput "B" [] [⟨"A", "B"⟩, ⟨"A", "B"⟩] recordedA).get?
          "$previous"
        = some (Value.obj [("A", Value.obj [("error", Value.str ""),
            ("data", Value.obj [("x", Value.num 1), ("y", Value.num 2)])])])
      ∧ (prepareInput "B" [] [⟨"A", "B"⟩] recordedA).get? "x"
        = some (Value.num 1) :=
  ⟨rfl, rfl, rfl, rfl⟩

/-! ## The node loop: what each call is given -/

theorem recordOutputs_cons (m : GoMap TaskOutput) (c : Invocation)
    (cs : List Invocation) :
    recordOutputs m (c :: cs)
      = recordOutputs (m.set c.NodeID c.Output) cs := rfl

theorem get?_recordOutputs_of_not_mem (cs : List Invocation) (id : String)
    (h : id ∉ cs.map (fun c => c.NodeID)) :
    ∀ m : GoMap TaskOutput, (recordOutputs m cs).get? id = m.get? id := by
  induction cs with
  | nil => intro m; rfl
  | cons c cs ih =>
    intro m
    simp only [List.map_cons, List.mem_cons, not_or] at h
    have h1 : ¬ c.NodeID = id := fun e => h.1 e.symm
    rw [recordOutputs_cons, ih h.2, GoMap.get?_set, if_neg h1]

theorem get?_recordOutputs_of_mem (cs : List Invocation)
    (hnd : (cs.map (fun c => c.NodeID)).Nodup) (c : Invocation) (hc : c ∈ cs) :
    ∀ m : GoMap TaskOutput,
      (recordOutputs m cs).get? c.NodeID = some c.Output := by
  induction cs with
  | nil => simp at hc
  | cons c0 cs ih =>
    intro m
    simp only [List.map_cons, List.nodup_cons] at hnd
    rw [recordOutputs_cons]
    rcases List.mem_cons.1 hc with h | h
    · subst h
      rw [get?_recordOutputs_of_not_mem cs c.NodeID hnd.1, GoMap.get?_set,
        if_pos rfl]
    · exact ih hnd.2 h _

theorem isSome_get?_recordOutputs (cs : List Invocation) (id : String) :
    ∀ m : GoMap TaskOutput,
      ((recordOutputs m cs).get? id).isSome = true
        ↔ (m.get? id).isSome = true ∨ id ∈ cs.map (fun c => c.NodeID) := by
  induction cs with
  | nil => intro m; simp [recordOutputs]
  | cons c cs ih =>
    intro m
    rw [recordOutputs_cons, ih, GoMap.get?_set]
    by_cases h : c.NodeID = id
    · simp [h]
    · have h2 : ¬ id = c.NodeID := fun e => h e.symm
      simp [h, h2]

/-- Every call of the node loop is made with the type and the config of the
node found in `nodeMap`, on the input composed from the outputs recorded so
far, and its output is what the executor returns for it. -/
theorem runNodes_inputs (env : Env) (workflow : Workflow)
    (nodeMap : GoMap WorkflowNode) (startTime : Int) :
    ∀ (ids : List String) (s : RunState),
      ∃ new, (runNodes env workflow nodeMap startTime ids s).calls
          = s.calls ++ new
        ∧ ∀ i c, new[i]? = some c →
          c.TaskType = (nodeMap.getD c.NodeID zeroNode).Type_
          ∧ c.Input = prepareInput c.NodeID
              (nodeMap.getD c.NodeID zeroNode).Config workflow.Edges
              (recordOutputs s.nodeOutputs (new.take i))
          ∧ c.Output = env.execute (s.calls.length + i) c.TaskType c.Input := by
  intro ids
  induction ids with
  | nil =>
    intro s
    exact ⟨[], by simp [runNodes_nil], by simp⟩
  | cons nodeID rest ih =>
    intro s
    have h0 : ∀ c, c = invocationAt env workflow nodeMap s nodeID →
        c.TaskType = (nodeMap.getD c.NodeID zeroNode).Type_
        ∧ c.Input = prepareInput c.NodeID
            (nodeMap.getD c.NodeID zeroNode).Config workflow.Edges
            (recordOutputs s.nodeOutputs [])
        ∧ c.Output = env.execute (s.calls.length + 0) c.TaskType c.Input := by
      intro c hc
      subst hc
      exact ⟨rfl, rfl, rfl⟩
    by_cases h : (invocationAt env workflow nodeMap s nodeID).Output.IsSuccess
        = true
    · rw [runNodes_cons_ok _ _ _ _ _ _ _ h]
      obtain ⟨new, hcalls, hnew⟩ :=
        ih (nextState env nodeMap s (invocationAt env workflow nodeMap s nodeID))
      refine ⟨invocationAt env workflow nodeMap s nodeID :: new, ?_, ?_⟩
      · rw [hcalls]; simp [nextState]
      · intro i c hi
        cases i with
        | zero =>
          simp only [List.getElem?_cons_zero, Option.some.injEq] at hi
          simpa using h0 c hi.symm
        | succ i =>
          simp only [List.getElem?_cons_succ] at hi
          obtain ⟨h1, h2, h3⟩ := hnew i c hi
          refine ⟨h1, ?_, ?_⟩
          · rw [h2]
            simp [nextState, recordOutputs_cons]
          · rw [h3]
            simp [nextState]
            congr 1
            omega
    · have hf : (invocationAt env workflow nodeMap s nodeID).Output.IsSuccess
          = false := by simpa using h
      rw [runNodes_cons_fail _ _ _ _ _ _ _ hf]
      refine ⟨[invocationAt env workflow nodeMap s nodeID], rfl, ?_⟩
      intro i c hi
      cases i with
      | zero =>
        simp only [List.getElem?_cons_zero, Option.some.injEq] at hi
        simpa using h0 c hi.symm
      | succ i => simp at hi

/-- The entries of the `i`-th call in the log of a sequence of calls. -/
theorem logsOf_getElem? (env : Env) (nodeMap : GoMap WorkflowNode)
    (cs : List Invocation) :
    ∀ (clock i : Nat) (c : Invocation), cs[i]? = some c →
      (logsOf env nodeMap clock cs)[2 * i]?
          = some (runningEntry env nodeMap (clock + 2 * i) c)
        ∧ (logsOf env nodeMap clock cs)[2 * i + 1]?
          = some (terminalEntry env nodeMap (clock + 2 * i) c) := by
  induction cs with
  | nil => intro clock i c h; simp at h
  | cons c0 cs ih =>
    intro clock i c h
    cases i with
    | zero =>
      simp only [List.getElem?_cons_zero, Option.some.injEq] at h
      subst h
      simp [logsOf]
    | succ i =>
      simp only [List.getElem?_cons_succ] at h
      obtain ⟨h1, h2⟩ := ih (clock + 2) i c h
      have e1 : 2 * (i + 1) = (2 * i + 1) + 1 := by omega
      have e3 : clock + 2 + 2 * i = clock + (2 * i + 1 + 1) := by omega
      rw [e1]
      rw [e3] at h1 h2
      simp only [logsOf, List.getElem?_cons_succ]
      exact ⟨h1, h2⟩

/-! ## The orchestrator: calls of a run -/

/-- The calls of a run: they go through an initial part of the execution
order, the log is the log of the calls, every call but the last succeeds, and
each call is made on the input composed from the outputs of the calls before
it. -/
theorem runWorkflow_calls (env : Env) (fuel : Nat) (iter : List String)
    (workflow : Workflow) (run : Run)
    (hrun : runWorkflow env fuel iter workflow = some run) :
    ∃ order, topologicalSort fuel iter workflow.Nodes workflow.Edges
        = some order
      ∧ run.calls.map (fun c => c.NodeID) = order.take run.calls.length
      ∧ run.result.Logs
        = logsOf env (buildNodeMap workflow.Nodes) 1 run.calls
      ∧ (∀ c ∈ run.calls.dropLast, c.Output.Error = "")
      ∧ (∀ i c, run.calls[i]? = some c →
          c.TaskType
            = ((buildNodeMap workflow.Nodes).getD c.NodeID zeroNode).Type_
          ∧ c.Input = prepareInput c.NodeID
              ((buildNodeMap workflow.Nodes).getD c.NodeID zeroNode).Config
              workflow.Edges (recordOutputs [] (run.calls.take i))
          ∧ c.Output = env.execute i c.TaskType c.Input) := by
  obtain ⟨order, hsort, hcase | ⟨hlen, _⟩⟩ :=
    runWorkflow_cases env fuel iter workflow run hrun
  · obtain ⟨_, hcalls, hlogs, _⟩ := hcase
    refine ⟨order, hsort, ?_, ?_, ?_, ?_⟩
    · simp [hcalls]
    · simp [hcalls, hlogs, logsOf]
    · simp [hcalls]
    · intro i c hi
      simp [hcalls] at hi
  · obtain ⟨tr, hlogs⟩ := runWorkflow_trace env fuel iter workflow order run
      hsort hlen hrun
    refine ⟨order, hsort, tr.ids_eq, hlogs, tr.init_ok, ?_⟩
    obtain ⟨new, hcalls, hnew⟩ := runNodes_inputs env workflow
      (buildNodeMap workflow.Nodes) (env.now 0) order initialState
    rw [runWorkflow_of_complete env fuel iter workflow order hsort hlen] at hrun
    rw [Option.some.inj hrun] at hcalls
    have hc : run.calls = new := by simpa [initialState] using hcalls
    rw [← hc] at hnew
    intro i c hi
    simpa [initialState] using hnew i c hi

/-- A call with a non-empty Error is the last call of its run, and the result
of the run is the error result built from it. -/
theorem runWorkflow_failure (env : Env) (fuel : Nat) (iter : List String)
    (workflow : Workflow) (run : Run) (c : Invocation)
    (hrun : runWorkflow env fuel iter workflow = some run)
    (hc : c ∈ run.calls) (hfail : c.Output.Error ≠ "") :
    run.result.Status = "error"
      ∧ run.calls.getLast? = some c
      ∧ run.result.FinalOutput = some c.Output
      ∧ run.result.Error
        = "任务 \"" ++ labelOf (buildNodeMap workflow.Nodes) c.NodeID
          ++ "\" 执行失败: " ++ c.Output.Error := by
  obtain ⟨order, hsort, hcase | ⟨hlen, _⟩⟩ :=
    runWorkflow_cases env fuel iter workflow run hrun
  · rw [hcase.2.1] at hc
    simp at hc
  · obtain ⟨tr, _⟩ := runWorkflow_trace env fuel iter workflow order run
      hsort hlen hrun
    rcases tr.outcome with ⟨_, h2, _⟩ | ⟨c1, h1, _, h3, h4, h5⟩
    · exact absurd (h2 c hc) hfail
    · have hcc : c = c1 :=
        eq_last_of_not_mem_dropLast _ c c1 h1 hc
          (fun hd => hfail (tr.init_ok c hd))
      subst hcc
      exact ⟨h3, h1, h4, h5⟩

/-- C15. In every run, the call made at position `i` is given the input
`prepareInput` composes for its node (id, and config as found in `nodeMap`)
from the workflow edges and the map `M` of the outputs recorded so far; `M`
has exactly the nodes of the calls before position `i` as keys, each mapped
to the output the executor returned for it; the output of the call is what
the executor returns on that input, and the terminal log entry of the node
records that input and that output. -/
theorem runWorkflow_inputs (env : Env) (fuel : Nat) (iter : List String)
    (workflow : Workflow) (run : Run) (i : Nat) (c : Invocation)
    (hiter : IsRangeOrder iter workflow.Nodes workflow.Edges)
    (hrun : runWorkflow env fuel iter workflow = some run)
    (hi : run.calls[i]? = some c) :
    c.TaskType = ((buildNodeMap workflow.Nodes).getD c.NodeID zeroNode).Type_
      ∧ c.Input = prepareInput c.NodeID
          ((buildNodeMap workflow.Nodes).getD c.NodeID zeroNode).Config
          workflow.Edges (recordOutputs [] (run.calls.take i))
      ∧ c.Output = env.execute i c.TaskType c.Input
      ∧ (∀ id, id ∈ (recordOutputs [] (run.calls.take i)).keys
          ↔ id ∈ (run.calls.take i).map (fun c => c.NodeID))
      ∧ (∀ c1 ∈ run.calls.take i,
          (recordOutputs [] (run.calls.take i)).get? c1.NodeID
            = some c1.Output)
      ∧ ∃ entry, run.result.Logs[2 * i + 1]? = some entry
        ∧ entry.NodeID = c.NodeID
        ∧ (entry.Status = "success" ∨ entry.Status = "error")
        ∧ entry.Input = c.Input
        ∧ entry.Output = some c.Output := by
  obtain ⟨order, hsort, hids, hlogs, _, hin⟩ :=
    runWorkflow_calls env fuel iter workflow run hrun
  obtain ⟨deg1, inv⟩ := topologicalSort_sound _ _ iter fuel hiter order hsort
  have hnd : (run.calls.map (fun c => c.NodeID)).Nodup := by
    rw [hids]
    exact inv.result_nodup.sublist (List.take_sublist _ _)
  have hnd1 : ((run.calls.take i).map (fun c => c.NodeID)).Nodup :=
    hnd.sublist ((List.take_sublist _ _).map _)
  obtain ⟨h1, h2, h3⟩ := hin i c hi
  refine ⟨h1, h2, h3, ?_, ?_, ?_⟩
  · intro id
    rw [GoMap.mem_keys_iff, ← Option.isSome_iff_ne_none,
      isSome_get?_recordOutputs]
    simp [GoMap.get?]
  · intro c1 hc1
    exact get?_recordOutputs_of_mem _ hnd1 c1 hc1 []
  · refine ⟨_, by rw [hlogs]; exact (logsOf_getElem? env _ _ 1 i c hi).2,
      rfl, ?_, rfl, rfl⟩
    by_cases hs : c.Output.IsSuccess = true
    · left; simp [terminalEntry, hs]
    · right; simp [terminalEntry, hs]

/-- Witness of C15: the call for B, at position 1, in the run of the chain
A → B → C. -/
theorem runWorkflow_inputs_witness :
    chainCallB.TaskType
        = ((buildNodeMap chainWorkflow.Nodes).getD chainCallB.NodeID
            zeroNode).Type_
      ∧ chainCallB.Input = prepareInput chainCallB.NodeID
          ((buildNodeMap chainWorkflow.Nodes).getD chainCallB.NodeID
            zeroNode).Config
          chainWorkflow.Edges (recordOutputs [] (chainRun.calls.take 1))
      ∧ chainCallB.Output
        = demoEnv.execute 1 chainCallB.TaskType chainCallB.Input
      ∧ (∀ id, id ∈ (recordOutputs [] (chainRun.calls.take 1)).keys
          ↔ id ∈ (chainRun.calls.take 1).map (fun c => c.NodeID))
      ∧ (∀ c1 ∈ chainRun.calls.take 1,
          (recordOutputs [] (chainRun.calls.take 1)).get? c1.NodeID
            = some c1.Output)
      ∧ ∃ entry, chainRun.result.Logs[2 * 1 + 1]? = some entry
        ∧ entry.NodeID = chainCallB.NodeID
        ∧ (entry.Status = "success" ∨ entry.Status = "error")
        ∧ entry.Input = chainCallB.Input
        ∧ entry.Output = some chainCallB.Output :=
  runWorkflow_inputs demoEnv 3 ["A", "B", "C"] chainWorkflow chainRun 1
    chainCallB (by unfold IsRangeOrder; decide) rfl rfl

/-! ## The task registry: results -/

theorem unknownType_ne_empty (taskType : String) :
    "未知的任务类型: " ++ taskType ≠ "" := by
  intro h
  have h1 := congrArg String.length h
  rw [String.length_append] at h1
  have h2 : "未知的任务类型: ".length = 9 := by decide
  have h3 : "".length = 0 := by decide
  omega

theorem Execute_of_get?_none (registry : GoMap registeredExecutor)
    (taskType : String) (hreg : registry.get? taskType = none)
    (input : TaskInput) :
    Execute registry taskType input
      = { Error := "未知的任务类型: " ++ taskType, Data := Value.null,
          Extra := [] } := by
  simp [Execute, Get, hreg]

/-- C17. For a registry in which `taskType` is not registered, `Execute`
returns for every input the output with Error "未知的任务类型: " followed by
the task type, which is not empty, and nil Data; and in every run whose
executor answers like `Execute` on that type, a call for a node of that type
is handled like any failing call: it is the last call and the run returns
Status "error" with the output and the message of that call. -/
theorem Execute_unregistered (registry : GoMap registeredExecutor)
    (taskType : String) (hreg : registry.get? taskType = none) :
    (∀ input, Execute registry taskType input
        = { Error := "未知的任务类型: " ++ taskType, Data := Value.null,
            Extra := [] })
      ∧ "未知的任务类型: " ++ taskType ≠ ""
      ∧ ∀ (env : Env) (fuel : Nat) (iter : List String) (workflow : Workflow)
          (run : Run) (c : Invocation),
          (∀ k input, env.execute k taskType input
            = Execute registry taskType input) →
          runWorkflow env fuel iter workflow = some run →
          c ∈ run.calls → c.TaskType = taskType →
          c.Output.Error = "未知的任务类型: " ++ taskType
            ∧ c.Output.Data = Value.null
            ∧ run.result.Status = "error"
            ∧ run.calls.getLast? = some c
            ∧ run.result.FinalOutput = some c.Output
            ∧ run.result.Error
              = "任务 \"" ++ labelOf (buildNodeMap workflow.Nodes) c.NodeID
                ++ "\" 执行失败: " ++ ("未知的任务类型: " ++ taskType) := by
  refine ⟨Execute_of_get?_none registry taskType hreg,
    unknownType_ne_empty taskType, ?_⟩
  intro env fuel iter workflow run c henv hrun hc hty
  obtain ⟨_, _, _, _, _, hin⟩ :=
    runWorkflow_calls env fuel iter workflow run hrun
  obtain ⟨i, hi⟩ := List.mem_iff_getElem?.1 hc
  have hout : c.Output
      = { Error := "未知的任务类型: " ++ taskType, Data := Value.null,
          Extra := [] } := by
    rw [(hin i c hi).2.2, hty, henv,
      Execute_of_get?_none registry taskType hreg]
  have herr : c.Output.Error = "未知的任务类型: " ++ taskType := by
    rw [hout]
  have hfail : c.Output.Error ≠ "" := by
    rw [herr]; exact unknownType_ne_empty taskType
  obtain ⟨h1, h2, h3, h4⟩ :=
    runWorkflow_failure env fuel iter workflow run c hrun hc hfail
  refine ⟨herr, by rw [hout], h1, h2, h3, ?_⟩
  rw [h4, herr]

/-- Witness of C17: the type "nope" in a registry that holds only "log", and
the run of the workflow A → B in which B has that type. -/
theorem Execute_unregistered_witness :
    Execute logRegistry "nope" []
        = { Error := "未知的任务类型: " ++ "nope", Data := Value.null,
            Extra := [] }
      ∧ (unknownCallB.Output.Error = "未知的任务类型: " ++ "nope"
        ∧ unknownCallB.Output.Data = Value.null
        ∧ unknownRun.result.Status = "error"
        ∧ unknownRun.calls.getLast? = some unknownCallB
        ∧ unknownRun.result.FinalOutput = some unknownCallB.Output
        ∧ unknownRun.result.Error
          = "任务 \"" ++ labelOf (buildNodeMap unknownWorkflow.Nodes)
              unknownCallB.NodeID
            ++ "\" 执行失败: " ++ ("未知的任务类型: " ++ "nope")) :=
  ⟨(Execute_unregistered logRegistry "nope" rfl).1 [],
    (Execute_unregistered logRegistry "nope" rfl).2.2 logEnv 2 ["A", "B"]
      unknownWorkflow unknownRun unknownCallB (fun _ _ => rfl) rfl
      (List.mem_cons_of_mem _ (List.mem_cons_self _ _)) rfl⟩

/-- C18. `IsSuccess` is true exactly when Error is the empty string, whatever
Data and Extra are; and in a run on a complete sort there is a call after the
call at position `i` exactly when that call returned an empty Error and the
order has a node after position `i`. -/
theorem isSuccess_decides_continue :
    (∀ o : TaskOutput, o.IsSuccess = true ↔ o.Error = "")
      ∧ (∀ (e : String) (d1 d2 : Value) (x1 x2 : GoMap Value),
          (TaskOutput.mk e d1 x1).IsSuccess = (TaskOutput.mk e d2 x2).IsSuccess)
      ∧ ∀ (env : Env) (fuel : Nat) (iter : List String) (workflow : Workflow)
          (order : List String) (run : Run) (i : Nat) (c : Invocation),
          topologicalSort fuel iter workflow.Nodes workflow.Edges
            = some order →
          order.length = workflow.Nodes.length →
          runWorkflow env fuel iter workflow = some run →
          run.calls[i]? = some c →
          (i + 1 < run.calls.length
            ↔ c.Output.Error = "" ∧ i + 1 < order.length) := by
  refine ⟨isSuccess_iff, fun _ _ _ _ _ => rfl, ?_⟩
  intro env fuel iter workflow order run i c hsort hlen hrun hi
  obtain ⟨tr, _⟩ := runWorkflow_trace env fuel iter workflow order run
    hsort hlen hrun
  have hilt : i < run.calls.length := (List.getElem?_eq_some.1 hi).1
  have hle : run.calls.length ≤ order.length := by
    have := congrArg List.length tr.ids_eq
    simp at this
    omega
  constructor
  · intro h
    exact ⟨tr.init_ok c (mem_dropLast_of_getElem? _ i c hi h), by omega⟩
  · rintro ⟨hok, hnext⟩
    rcases tr.outcome with ⟨h1, _⟩ | ⟨c1, h1, h2, _⟩
    · omega
    · by_contra hn
      have hlast : i = run.calls.length - 1 := by omega
      have hc1 : run.calls[i]? = some c1 := by
        rw [hlast, ← List.getLast?_eq_getElem?]
        exact h1
      rw [hi] at hc1
      exact h2 (Option.some.inj hc1 ▸ hok)

/-- Witness of C18: in the run of the chain A → B → C in which A returns an
empty Error with nil data and B returns the error "boom" with the data 7, the
run continues past A and stops at B. -/
theorem isSuccess_decides_continue_witness :
    (0 + 1 < dataRun.calls.length
        ↔ (⟨"", Value.null, []⟩ : TaskOutput).Error = ""
          ∧ 0 + 1 < ["A", "B", "C"].length)
      ∧ (1 + 1 < dataRun.calls.length
        ↔ (⟨"boom", Value.num 7, []⟩ : TaskOutput).Error = ""
          ∧ 1 + 1 < ["A", "B", "C"].length)
      ∧ dataRun.calls.length = 2 :=
  ⟨isSuccess_decides_continue.2.2 dataEnv 3 ["A", "B", "C"] chainWorkflow
      ["A", "B", "C"] dataRun 0 ⟨"A", "log", [], ⟨"", Value.null, []⟩⟩
      (by decide) (by decide) rfl rfl,
    isSuccess_decides_continue.2.2 dataEnv 3 ["A", "B", "C"] chainWorkflow
      ["A", "B", "C"] dataRun 1
      ⟨"B", "fail",
        [("$previous", Value.obj [("A", previousRecord ⟨"", Value.null, []⟩)])],
        ⟨"boom", Value.num 7, []⟩⟩
      (by decide) (by decide) rfl rfl,
    by decide⟩

/-! ## Runs of well-formed acyclic workflows -/

/-- On a workflow with pairwise distinct node ids, no dangling edge and no
cycle, whatever `topologicalSort` returns is a permutation of the node ids
without repetition in which every edge points forward. -/
theorem topologicalSort_wellFormed (nodes : List WorkflowNode)
    (edges : List WorkflowEdge) (iter : List String) (fuel : Nat)
    (r : List String)
    (hids : (nodeIDs nodes).Nodup)
    (hends : ∀ e ∈ edges, e.Source ∈ nodeIDs nodes ∧ e.Target ∈ nodeIDs nodes)
    (hacyc : Acyclic edges)
    (hiter : IsRangeOrder iter nodes edges)
    (hsort : topologicalSort fuel iter nodes edges = some r) :
    r.Perm (nodeIDs nodes) ∧ r.Nodup ∧ EdgesForward edges r := by
  have htgt : ∀ e ∈ edges, e.Target ∈ nodeIDs nodes :=
    fun e he => (hends e he).2
  obtain ⟨deg1, inv⟩ := topologicalSort_sound nodes edges iter fuel hiter r
    hsort
  have hall : ∀ k ∈ (buildInDegree nodes edges).keys, k ∈ r := by
    intro k hk
    by_contra hn
    obtain ⟨a, ha⟩ := hasCycle_of_stuck edges
      ((buildInDegree nodes edges).keys.filter (fun x => x ∉ r)) k
      (List.mem_filter.2 ⟨hk, by simpa using hn⟩)
      (by
        intro x hx
        obtain ⟨hxK, hxr⟩ := List.mem_filter.1 hx
        obtain ⟨e, he, het, hes⟩ := inv.blocked x hxK (by simpa using hxr)
        exact ⟨e.Source,
          List.mem_filter.2
            ⟨nodeIDs_subset_keys nodes edges (hends e he).1, by simpa using hes⟩,
          e, he, rfl, het⟩)
    exact hacyc a ha
  have hperm : r.Perm (nodeIDs nodes) := by
    rw [List.perm_ext_iff_of_nodup inv.result_nodup hids]
    intro k
    exact ⟨fun hk => keys_subset_nodeIDs nodes edges htgt (inv.result_subset hk),
      fun hk => hall k (nodeIDs_subset_keys nodes edges hk)⟩
  exact ⟨hperm, inv.result_nodup, (inv.forward_all
    (fun e he => hall _ (target_mem_keys nodes edges e he))).1⟩

theorem logsOf_terminal_count (env : Env) (nodeMap : GoMap WorkflowNode)
    (cs : List Invocation) (n : String) :
    ∀ clock,
      ((logsOf env nodeMap clock cs).filter
          (fun l => l.NodeID = n
            ∧ (l.Status = "success" ∨ l.Status = "error"))).length
        = (cs.map (fun c => c.NodeID)).count n := by
  induction cs with
  | nil => intro clock; simp [logsOf]
  | cons c cs ih =>
    intro clock
    simp only [logsOf, List.map_cons]
    rw [List.filter_cons_of_neg (by simp [runningEntry])]
    by_cases hn : c.NodeID = n
    · rw [List.filter_cons_of_pos (by
        by_cases hs : c.Output.IsSuccess = true <;>
          simp [terminalEntry, hn, hs])]
      rw [List.length_cons, ih, hn, List.count_cons_self]
    · rw [List.filter_cons_of_neg (by simp [terminalEntry, hn]), ih]
      have hn2 : ¬ n = c.NodeID := fun e => hn e.symm
      simp [List.count_cons, hn]

theorem exists_call_at (cs : List Invocation) (order : List String)
    (h : cs.map (fun c => c.NodeID) = order) (k : String) (hk : k ∈ order) :
    ∃ c, cs[order.indexOf k]? = some c ∧ c.NodeID = k := by
  have hlt : order.indexOf k < order.length := List.indexOf_lt_length.2 hk
  have h1 : (cs.map (fun c => c.NodeID))[order.indexOf k]? = some k := by
    rw [h, List.getElem?_eq_getElem hlt, List.getElem_indexOf hlt]
  rw [List.getElem?_map] at h1
  obtain ⟨c, hc, hck⟩ := Option.map_eq_some'.1 h1
  exact ⟨c, hc, hck⟩

theorem indexOf_call (cs : List Invocation) (order : List String)
    (h : cs.map (fun c => c.NodeID) = order) (hnd : order.Nodup)
    (i : Nat) (c : Invocation) (hi : cs[i]? = some c) :
    order.indexOf c.NodeID = i := by
  have hlt : i < order.length := by
    rw [← h, List.length_map]
    exact (List.getElem?_eq_some.1 hi).1
  have h1 : order[i]? = some c.NodeID := by
    rw [← h, List.getElem?_map, hi]
    rfl
  rw [List.getElem?_eq_getElem hlt] at h1
  rw [← Option.some.inj h1]
  exact List.indexOf_getElem hnd i hlt

/-- C16. For a workflow with pairwise distinct node ids, no dangling edge and
no cycle, in a run where every call returns an empty Error: the calls go
through all the nodes, every node id has exactly one terminal log entry, for
every edge the terminal entry of the source comes before the running entry of
the target, and the input composed for a node holds under `$previous` the
record of the output of each of its predecessors. -/
theorem runWorkflow_topological (env : Env) (fuel : Nat) (iter : List String)
    (workflow : Workflow) (run : Run)
    (hids : (nodeIDs workflow.Nodes).Nodup)
    (hends : ∀ e ∈ workflow.Edges,
      e.Source ∈ nodeIDs workflow.Nodes ∧ e.Target ∈ nodeIDs workflow.Nodes)
    (hacyc : Acyclic workflow.Edges)
    (hiter : IsRangeOrder iter workflow.Nodes workflow.Edges)
    (hrun : runWorkflow env fuel iter workflow = some run)
    (hok : ∀ c ∈ run.calls, c.Output.Error = "") :
    (run.calls.map (fun c => c.NodeID)).Perm (nodeIDs workflow.Nodes)
      ∧ (∀ n ∈ nodeIDs workflow.Nodes,
          (run.result.Logs.filter
              (fun l => l.NodeID = n
                ∧ (l.Status = "success" ∨ l.Status = "error"))).length = 1)
      ∧ (∀ e ∈ workflow.Edges, ∃ (i j : Nat) (a b : NodeExecutionLog), i < j
          ∧ run.result.Logs[i]? = some a ∧ a.NodeID = e.Source
          ∧ a.Status = "success"
          ∧ run.result.Logs[j]? = some b ∧ b.NodeID = e.Target
          ∧ b.Status = "running")
      ∧ (∀ c ∈ run.calls, ∀ p ∈ getPredecessors c.NodeID workflow.Edges,
          ∃ (previous : GoMap Value) (cp : Invocation),
            cp ∈ run.calls ∧ cp.NodeID = p
            ∧ c.Input.get? "$previous" = some (Value.obj previous)
            ∧ previous.get? p
              = some (Value.obj [("error", Value.str cp.Output.Error),
                  ("data", cp.Output.Data)])) := by
  obtain ⟨order, hsort, _, hlogs, _, hin⟩ :=
    runWorkflow_calls env fuel iter workflow run hrun
  obtain ⟨hperm, hnd, hfw⟩ := topologicalSort_wellFormed workflow.Nodes
    workflow.Edges iter fuel order hids hends hacyc hiter hsort
  have hlen : order.length = workflow.Nodes.length := by
    simpa [nodeIDs] using hperm.length_eq
  obtain ⟨tr, _⟩ := runWorkflow_trace env fuel iter workflow order run
    hsort hlen hrun
  have hcalls : run.calls.map (fun c => c.NodeID) = order := by
    rcases tr.outcome with ⟨h1, _⟩ | ⟨c1, h1, h2, _⟩
    · have := tr.ids_eq
      rw [h1, List.take_length] at this
      exact this
    · exact absurd (hok c1 (List.mem_of_mem_getLast? h1)) h2
  refine ⟨hcalls ▸ hperm, ?_, ?_, ?_⟩
  · intro n hn
    rw [hlogs, logsOf_terminal_count, hcalls]
    exact List.count_eq_one_of_mem hnd (hperm.mem_iff.2 hn)
  · intro e he
    obtain ⟨h1, h2⟩ := hfw e he
    have hs : e.Source ∈ order := List.indexOf_lt_length.1
      (show order.indexOf e.Source < order.length by omega)
    have ht : e.Target ∈ order := List.indexOf_lt_length.1 h2
    obtain ⟨cs, hcs, hcsid⟩ := exists_call_at run.calls order hcalls _ hs
    obtain ⟨ct, hct, hctid⟩ := exists_call_at run.calls order hcalls _ ht
    have hsok : cs.Output.IsSuccess = true :=
      (isSuccess_iff _).2 (hok cs (List.getElem?_mem hcs))
    refine ⟨2 * order.indexOf e.Source + 1, 2 * order.indexOf e.Target,
      terminalEntry env (buildNodeMap workflow.Nodes)
        (1 + 2 * order.indexOf e.Source) cs,
      runningEntry env (buildNodeMap workflow.Nodes)
        (1 + 2 * order.indexOf e.Target) ct,
      by omega, ?_, ?_, ?_, ?_, ?_, rfl⟩
    · rw [hlogs]
      exact (logsOf_getElem? env _ _ 1 _ cs hcs).2
    · exact hcsid
    · simp [terminalEntry, hsok]
    · rw [hlogs]
      exact (logsOf_getElem? env _ _ 1 _ ct hct).1
    · exact hctid
  · intro c hc p hp
    obtain ⟨i, hi⟩ := List.mem_iff_getElem?.1 hc
    obtain ⟨e, he, het, hes⟩ :=
      (mem_getPredecessors c.NodeID workflow.Edges p).1 hp
    have hidx := indexOf_call run.calls order hcalls hnd i c hi
    obtain ⟨h1, _⟩ := hfw e he
    rw [het, hes, hidx] at h1
    have hilt : i < order.length := by
      rw [← hcalls, List.length_map]
      exact (List.getElem?_eq_some.1 hi).1
    have hpo : p ∈ order := List.indexOf_lt_length.1
      (show order.indexOf p < order.length by omega)
    obtain ⟨cp, hcp, hcpid⟩ := exists_call_at run.calls order hcalls p hpo
    have hcptake : cp ∈ run.calls.take i :=
      List.getElem?_mem (n := order.indexOf p)
        (by rw [List.getElem?_take_of_lt h1]; exact hcp)
    have hndtake : ((run.calls.take i).map (fun c => c.NodeID)).Nodup := by
      have : (run.calls.map (fun c => c.NodeID)).Nodup := hcalls ▸ hnd
      exact this.sublist ((List.take_sublist _ _).map _)
    have hM : (recordOutputs [] (run.calls.take i)).get? p = some cp.Output := by
      rw [← hcpid]
      exact get?_recordOutputs_of_mem _ hndtake cp hcptake []
    refine ⟨buildPrevious (getPredecessors c.NodeID workflow.Edges)
        (recordOutputs [] (run.calls.take i)), cp,
      List.getElem?_mem hcp, hcpid, ?_, ?_⟩
    · rw [(hin i c hi).2.1]
      exact get?_prepareInput_previous _ _ _ _ ⟨e, he, het⟩
    · rw [get?_buildPrevious, if_pos hp, hM]
      rfl

/-- Witness of C16: the workflow A → B, A → C, B → C with tasks that all
succeed. -/
theorem runWorkflow_topological_witness :
    (diamondRun.calls.map (fun c => c.NodeID)).Perm
        (nodeIDs diamondWorkflow.Nodes)
      ∧ (∀ n ∈ nodeIDs diamondWorkflow.Nodes,
          (diamondRun.result.Logs.filter
              (fun l => l.NodeID = n
                ∧ (l.Status = "success" ∨ l.Status = "error"))).length = 1)
      ∧ (∀ e ∈ diamondWorkflow.Edges, ∃ (i j : Nat) (a b : NodeExecutionLog), i < j
          ∧ diamondRun.result.Logs[i]? = some a ∧ a.NodeID = e.Source
          ∧ a.Status = "success"
          ∧ diamondRun.result.Logs[j]? = some b ∧ b.NodeID = e.Target
          ∧ b.Status = "running")
      ∧ (∀ c ∈ diamondRun.calls,
          ∀ p ∈ getPredecessors c.NodeID diamondWorkflow.Edges,
          ∃ (previous : GoMap Value) (cp : Invocation),
            cp ∈ diamondRun.calls ∧ cp.NodeID = p
            ∧ c.Input.get? "$previous" = some (Value.obj previous)
            ∧ previous.get? p
              = some (Value.obj [("error", Value.str cp.Output.Error),
                  ("data", cp.Output.Data)])) :=
  runWorkflow_topological demoEnv 3 ["C", "B", "A"] diamondWorkflow
    diamondRun (by decide) (by decide)
    (acyclic_of_rank diamondEdges diamondRank (by decide))
    (by unfold IsRangeOrder; decide) rfl (by decide)

/-! ## Dangling edges -/

theorem mem_removeDangling (nodes : List WorkflowNode)
    (edges : List WorkflowEdge) (e : WorkflowEdge) :
    e ∈ removeDangling nodes edges
      ↔ e ∈ edges ∧ e.Source ∈ nodeIDs nodes ∧ e.Target ∈ nodeIDs nodes := by
  unfold removeDangling
  simp [List.mem_filter]

theorem mem_of_indexOf_lt {l : List String} {a b : String}
    (h : l.indexOf a < l.indexOf b) : a ∈ l := by
  apply List.indexOf_lt_length.1
  have := List.indexOf_le_length (a := b) (l := l)
  omega

/-- When no edge runs from an id that is not a node to a node, the node ids
emitted with the dangling edges are those emitted without them. -/
theorem dangling_same_nodes (nodes : List WorkflowNode)
    (edges : List WorkflowEdge) (deg deg1 : GoMap Int) (r r1 : List String)
    (hno : ∀ e ∈ edges, e.Target ∈ nodeIDs nodes → e.Source ∈ nodeIDs nodes)
    (inv : SortInv edges (buildInDegree nodes edges).keys deg [] r)
    (inv1 : SortInv (removeDangling nodes edges)
      (buildInDegree nodes (removeDangling nodes edges)).keys deg1 [] r1) :
    ∀ k, k ∈ r1 ↔ k ∈ r ∧ k ∈ nodeIDs nodes := by
  have hsub1 : r1 ⊆ nodeIDs nodes := fun k hk =>
    keys_subset_nodeIDs nodes (removeDangling nodes edges)
      (fun e he => ((mem_removeDangling nodes edges e).1 he).2.2)
      (inv1.result_subset hk)
  have hto : ∀ n k, r.indexOf k = n → k ∈ r → k ∈ nodeIDs nodes → k ∈ r1 := by
    intro n
    induction n using Nat.strong_induction_on with
    | _ n ih =>
      intro k hn hk hnode
      have hmem := (inv1.mem_iff k).2
        ⟨nodeIDs_subset_keys nodes _ hnode,
          (pending_eq_zero_iff _ r1 k).2 (by
            intro e he het
            obtain ⟨he0, hes, _⟩ := (mem_removeDangling nodes edges e).1 he
            have hfw := inv.forward e he0 (het ▸ hk)
            rw [het, hn] at hfw
            exact ih _ hfw e.Source rfl
              (mem_of_indexOf_lt (hn ▸ hfw)) hes)⟩
      simpa using hmem
  have hfrom : ∀ n k, r1.indexOf k = n → k ∈ r1 → k ∈ r := by
    intro n
    induction n using Nat.strong_induction_on with
    | _ n ih =>
      intro k hn hk
      have hnode := hsub1 hk
      have hmem := (inv.mem_iff k).2
        ⟨nodeIDs_subset_keys nodes _ hnode,
          (pending_eq_zero_iff _ r k).2 (by
            intro e he het
            have hes := hno e he (het ▸ hnode)
            have he1 : e ∈ removeDangling nodes edges :=
              (mem_removeDangling nodes edges e).2 ⟨he, hes, het ▸ hnode⟩
            have hfw := inv1.forward e he1 (het ▸ hk)
            rw [het, hn] at hfw
            exact ih _ hfw e.Source rfl (mem_of_indexOf_lt (hn ▸ hfw)))⟩
      simpa using hmem
  intro k
  exact ⟨fun hk => ⟨hfrom _ k rfl hk, hsub1 hk⟩,
    fun hk => hto _ k rfl hk.1 hk.2⟩

/-- C19, as amended. For a workflow with pairwise distinct node ids in which
no edge runs from an id that is not a node to a node, the dangling edges
contribute nothing to the ordering of the nodes: the node ids contained in
the sort of all the edges are exactly the ids contained in the sort without
the dangling edges; so when the workflow is acyclic without its dangling
edges, every node is in the order. -/
theorem topologicalSort_dangling (nodes : List WorkflowNode)
    (edges : List WorkflowEdge) (iter iter1 : List String) (fuel fuel1 : Nat)
    (hids : (nodeIDs nodes).Nodup)
    (hno : ∀ e ∈ edges, e.Target ∈ nodeIDs nodes → e.Source ∈ nodeIDs nodes)
    (hiter : IsRangeOrder iter nodes edges)
    (hiter1 : IsRangeOrder iter1 nodes (removeDangling nodes edges))
    (hfuel : (mentionedIDs nodes edges).length ≤ fuel)
    (hfuel1 : nodes.length ≤ fuel1) :
    ∃ r r1, topologicalSort fuel iter nodes edges = some r
      ∧ topologicalSort fuel1 iter1 nodes (removeDangling nodes edges)
        = some r1
      ∧ (∀ k, k ∈ r1 ↔ k ∈ r ∧ k ∈ nodeIDs nodes)
      ∧ (Acyclic (removeDangling nodes edges) →
          r1.Perm (nodeIDs nodes) ∧ ∀ k ∈ nodeIDs nodes, k ∈ r) := by
  have hends1 : ∀ e ∈ removeDangling nodes edges,
      e.Source ∈ nodeIDs nodes ∧ e.Target ∈ nodeIDs nodes :=
    fun e he => ((mem_removeDangling nodes edges e).1 he).2
  obtain ⟨r, deg, hr, inv⟩ := topologicalSort_spec nodes edges iter fuel hiter
    (le_trans (keys_length_le_mentionedIDs nodes edges) hfuel)
  obtain ⟨r1, deg1, hr1, inv1⟩ := topologicalSort_spec nodes
    (removeDangling nodes edges) iter1 fuel1 hiter1
    (le_trans (keys_length_le_nodes nodes _ (fun e he => (hends1 e he).2))
      hfuel1)
  have hsame := dangling_same_nodes nodes edges deg deg1 r r1 hno inv inv1
  refine ⟨r, r1, hr, hr1, hsame, ?_⟩
  intro hacyc
  obtain ⟨hperm, _, _⟩ := topologicalSort_wellFormed nodes
    (removeDangling nodes edges) iter1 fuel1 r1 hids hends1 hacyc hiter1 hr1
  exact ⟨hperm, fun k hk => ((hsame k).1 (hperm.mem_iff.2 hk)).1⟩

/-- Witness of C19 as amended: the workflow A → B, A → C, B → C with the
additional edge C → X to an id that is not a node. -/
theorem topologicalSort_dangling_witness :
    ∃ r r1, topologicalSort 4 ["X", "C", "B", "A"] diamondNodes
          diamondDanglingEdges = some r
      ∧ topologicalSort 3 ["C", "B", "A"] diamondNodes
          (removeDangling diamondNodes diamondDanglingEdges) = some r1
      ∧ (∀ k, k ∈ r1 ↔ k ∈ r ∧ k ∈ nodeIDs diamondNodes)
      ∧ (Acyclic (removeDangling diamondNodes diamondDanglingEdges) →
          r1.Perm (nodeIDs diamondNodes)
            ∧ ∀ k ∈ nodeIDs diamondNodes, k ∈ r) :=
  topologicalSort_dangling diamondNodes diamondDanglingEdges
    ["X", "C", "B", "A"] ["C", "B", "A"] 4 3 (by decide) (by decide)
    (by unfold IsRangeOrder; decide) (by unfold IsRangeOrder; decide)
    (by decide) (by decide)

/-- Counterexample to C19 as stated: for the single node A, the edge X → A
from an id that is not a node keeps A out of the order, which without that
edge is A; and the edge A → X to an id that is not a node makes the order
A, X, so that `runWorkflow` answers with the cycle error and makes no call,
while without that edge it runs A with success. -/
theorem topologicalSort_dangling_counterexample :
    (nodeIDs soloNodes).Nodup
      ∧ IsRangeOrder ["A"] soloNodes [⟨"X", "A"⟩]
      ∧ IsRangeOrder ["A"] soloNodes (removeDangling soloNodes [⟨"X", "A"⟩])
      ∧ topologicalSort 2 ["A"] soloNodes [⟨"X", "A"⟩] = some []
      ∧ topologicalSort 2 ["A"] soloNodes
          (removeDangling soloNodes [⟨"X", "A"⟩]) = some ["A"]
      ∧ topologicalSort 2 ["A", "X"] soloNodes [⟨"A", "X"⟩]
          = some ["A", "X"]
      ∧ (runWorkflow demoEnv 2 ["A", "X"] ⟨soloNodes, [⟨"A", "X"⟩]⟩).map
          (fun run => (run.result.Status, run.calls.length))
        = some ("error", 0)
      ∧ (runWorkflow demoEnv 2 ["A"]
            ⟨soloNodes, removeDangling soloNodes [⟨"A", "X"⟩]⟩).map
          (fun run => (run.result.Status, run.calls.length))
        = some ("success", 1) := by
  refine ⟨by decide, by unfold IsRangeOrder; decide,
    by unfold IsRangeOrder; decide, by decide, by decide, by decide,
    by decide, by decide⟩

/-! ## The orchestrator: the shape of the result -/

theorem failureMessage_ne_empty (label err : String) :
    "任务 \"" ++ label ++ "\" 执行失败: " ++ err ≠ "" := by
  intro h
  have h1 := congrArg String.length h
  simp only [String.length_append] at h1
  have h2 : "任务 \"".length = 4 := by decide
  have h3 : "".length = 0 := by decide
  omega

theorem cycleMessage_ne_empty : "工作流存在循环依赖，无法执行" ≠ "" := by
  decide

/-- The FinalOutput of a run is the output of its last call. -/
theorem finalOutput_eq_last (env : Env) (fuel : Nat) (iter : List String)
    (workflow : Workflow) (run : Run)
    (hrun : runWorkflow env fuel iter workflow = some run) :
    run.result.FinalOutput = run.calls.getLast?.map (fun c => c.Output) := by
  obtain ⟨order, hsort, hcase | ⟨hlen, _⟩⟩ :=
    runWorkflow_cases env fuel iter workflow run hrun
  · obtain ⟨_, hcalls, _, _, _, hfin⟩ := hcase
    rw [hcalls, hfin]
    rfl
  · obtain ⟨tr, _⟩ := runWorkflow_trace env fuel iter workflow order run
      hsort hlen hrun
    rcases tr.outcome with ⟨_, _, _, _, h5⟩ | ⟨c1, h1, _, _, h4, _⟩
    · rw [h5]
      simp [initialState]
    · rw [h4, h1]
      rfl

/-- C21, as amended. In every run the FinalOutput of the result is the output
of the last call made: the output of the last node when all calls succeed,
the output of the failing node when a call fails; it is absent exactly when
no call was made. -/
theorem runWorkflow_finalOutput (env : Env) (fuel : Nat) (iter : List String)
    (workflow : Workflow) (run : Run)
    (hrun : runWorkflow env fuel iter workflow = some run) :
    run.result.FinalOutput = run.calls.getLast?.map (fun c => c.Output)
      ∧ (run.result.FinalOutput = none ↔ run.calls = [])
      ∧ (∀ c ∈ run.calls, c.Output.Error ≠ "" →
          run.result.FinalOutput = some c.Output) := by
  have h := finalOutput_eq_last env fuel iter workflow run hrun
  refine ⟨h, ?_, ?_⟩
  · rw [h]
    cases hl : run.calls.getLast? with
    | none => simpa using List.getLast?_eq_none_iff.1 hl
    | some c =>
      have hne : run.calls ≠ [] := by
        intro he
        rw [he] at hl
        simp at hl
      simp [hne]
  · intro c hc hfail
    exact (runWorkflow_failure env fuel iter workflow run c hrun hc hfail).2.2.1

/-- Witness of C21 as amended: the run of the chain A → B → C in which the
task of B fails. -/
theorem runWorkflow_finalOutput_witness :
    chainRun.result.FinalOutput = chainRun.calls.getLast?.map (fun c => c.Output)
      ∧ (chainRun.result.FinalOutput = none ↔ chainRun.calls = [])
      ∧ (∀ c ∈ chainRun.calls, c.Output.Error ≠ "" →
          chainRun.result.FinalOutput = some c.Output) :=
  runWorkflow_finalOutput demoEnv 3 ["A", "B", "C"] chainWorkflow chainRun rfl

/-- Counterexample to C21 as stated: in the run of the chain A → B → C the
task of A succeeds and the task of B fails with "boom", and FinalOutput is the
failing output of B, not the output of A; and in the run of the single
failing node F no node succeeds, yet FinalOutput is present. -/
theorem runWorkflow_finalOutput_counterexample :
    runWorkflow demoEnv 3 ["A", "B", "C"] chainWorkflow = some chainRun
      ∧ chainRun.calls.map (fun c => (c.NodeID, c.Output.Error))
        = [("A", ""), ("B", "boom")]
      ∧ chainRun.result.FinalOutput.map (fun o => o.Error) = some "boom"
      ∧ (runWorkflow demoEnv 1 ["F"] failOnlyWorkflow).map
          (fun run => (run.calls.map (fun c => c.Output.Error),
            run.result.FinalOutput.map (fun o => o.Error)))
        = some (["boom"], some "boom") :=
  ⟨rfl, by decide, by decide, by decide⟩

/-- C22. For every workflow and task executor `runWorkflow` returns a result
whose Status is "success" or "error", and the Status is "error" exactly when
the Error message is not empty. -/
theorem runWorkflow_status (env : Env) (fuel : Nat) (iter : List String)
    (workflow : Workflow)
    (hiter : IsRangeOrder iter workflow.Nodes workflow.Edges)
    (hfuel : (mentionedIDs workflow.Nodes workflow.Edges).length ≤ fuel) :
    ∃ run, runWorkflow env fuel iter workflow = some run
      ∧ (run.result.Status = "success" ∨ run.result.Status = "error")
      ∧ (run.result.Status = "error" ↔ run.result.Error ≠ "") := by
  obtain ⟨order, _, hsort, _⟩ := topologicalSort_spec workflow.Nodes
    workflow.Edges iter fuel hiter
    (le_trans (keys_length_le_mentionedIDs _ _) hfuel)
  by_cases hlen : order.length = workflow.Nodes.length
  · have hrun := runWorkflow_of_complete env fuel iter workflow order hsort hlen
    obtain ⟨tr, _⟩ := runWorkflow_trace env fuel iter workflow order _
      hsort hlen hrun
    refine ⟨_, hrun, ?_⟩
    rcases tr.outcome with ⟨_, _, h3, h4, _⟩ | ⟨c1, _, _, h3, _, h5⟩
    · rw [h3, h4]
      exact ⟨Or.inl rfl, fun h => absurd h (by decide), fun h => absurd rfl h⟩
    · rw [h3, h5]
      exact ⟨Or.inr rfl,
        fun _ => failureMessage_ne_empty _ _, fun _ => rfl⟩
  · refine ⟨_, runWorkflow_of_incomplete env fuel iter workflow order hsort
      hlen, Or.inr rfl, ?_⟩
    exact ⟨fun _ => cycleMessage_ne_empty, fun _ => rfl⟩

/-- Witness of C22: the chain A → B → C in which the task of B fails. -/
theorem runWorkflow_status_witness :
    ∃ run, runWorkflow demoEnv 3 ["A", "C", "B"] chainWorkflow = some run
      ∧ (run.result.Status = "success" ∨ run.result.Status = "error")
      ∧ (run.result.Status = "error" ↔ run.result.Error ≠ "") :=
  runWorkflow_status demoEnv 3 ["A", "C", "B"] chainWorkflow
    (by unfold IsRangeOrder; decide) (by decide)

/-! ## The dependency sorter: order of emission -/

theorem relax_queue (ns : List String) :
    ∀ (deg : GoMap Int) (queue : List String),
      ∃ added, (relax ns deg queue).2 = queue ++ added := by
  induction ns with
  | nil => intro deg queue; exact ⟨[], by simp [relax]⟩
  | cons n ns ih =>
    intro deg queue
    simp only [relax]
    split
    · obtain ⟨added, h⟩ := ih (deg.set n (deg.getD n 0 - 1)) (queue ++ [n])
      exact ⟨n :: added, by rw [h]; simp⟩
    · exact ih _ _

/-- What is emitted or queued stays at the front of the result. -/
theorem bfs_prefix (graph : GoMap (List String)) :
    ∀ (fuel : Nat) (deg : GoMap Int) (queue result r : List String),
      bfs graph fuel deg queue result = some r → result ++ queue <+: r := by
  intro fuel
  induction fuel with
  | zero =>
    intro deg queue result r h
    cases queue with
    | nil =>
      simp only [bfs, Option.some.injEq] at h
      subst h
      simp
    | cons c q => simp [bfs] at h
  | succ fuel ih =>
    intro deg queue result r h
    cases queue with
    | nil =>
      simp only [bfs, Option.some.injEq] at h
      subst h
      simp
    | cons c q =>
      simp only [bfs] at h
      obtain ⟨added, hadd⟩ := relax_queue (graph.getD c []) deg q
      have := ih _ _ _ _ h
      rw [hadd] at this
      have hpre : result ++ c :: q <+: result ++ [c] ++ (q ++ added) := by
        refine ⟨added, ?_⟩
        simp
      exact hpre.trans this

/-- A key of the in-degree map has the counter 0 exactly when no edge
targets it. -/
theorem get?_buildInDegree_zero (nodes : List WorkflowNode)
    (edges : List WorkflowEdge) (k : String)
    (hk : k ∈ (buildInDegree nodes edges).keys) :
    (buildInDegree nodes edges).get? k = some 0
      ↔ ∀ e ∈ edges, e.Target ≠ k := by
  rw [get?_buildInDegree,
    if_pos ((mem_keys_buildInDegree nodes edges k).1 hk)]
  have h0 := pending_eq_zero_iff edges [] k
  constructor
  · intro h e he het
    have hz : pending edges [] k = 0 := by
      have := Option.some.inj h
      exact_mod_cast this
    simpa using h0.1 hz e he het
  · intro h
    have hz : pending edges [] k = 0 :=
      h0.2 (fun e he het => absurd het (h e he))
    rw [hz]
    rfl

/-- The ids without incoming edge, in the visiting order of the in-degree
map, are the front of the result. -/
theorem initialBlock_prefix (nodes : List WorkflowNode)
    (edges : List WorkflowEdge) (iter : List String) (fuel : Nat)
    (r : List String) (hiter : IsRangeOrder iter nodes edges)
    (hsort : topologicalSort fuel iter nodes edges = some r) :
    iter.filter (fun k => ∀ e ∈ edges, e.Target ≠ k) <+: r := by
  have h := bfs_prefix _ _ _ _ _ _ hsort
  have hf : iter.filter (fun k => ∀ e ∈ edges, e.Target ≠ k)
      = iter.filter
          (fun nodeID => (buildInDegree nodes edges).get? nodeID = some 0) := by
    apply List.filter_congr
    intro k hk
    have hkey : k ∈ (buildInDegree nodes edges).keys := hiter.mem_iff.1 hk
    have := get?_buildInDegree_zero nodes edges k hkey
    by_cases hz : (buildInDegree nodes edges).get? k = some 0
    · have hp := this.1 hz
      simp only [hz, decide_True, decide_eq_true_eq]
      exact hp
    · have hn : ¬ ∀ e ∈ edges, e.Target ≠ k := fun hh => hz (this.2 hh)
      simp only [hz, decide_False, decide_eq_false_iff_not]
      exact hn
  rw [hf]
  simpa using h

theorem topologicalSort_fuel_irrelevant (nodes : List WorkflowNode)
    (edges : List WorkflowEdge) (iter : List String) (fuel fuel1 : Nat)
    (r r1 : List String)
    (h : topologicalSort fuel iter nodes edges = some r)
    (h1 : topologicalSort fuel1 iter nodes edges = some r1) : r1 = r := by
  have a := topologicalSort_fuel_mono nodes edges iter fuel (max fuel fuel1)
    (le_max_left _ _) r h
  have b := topologicalSort_fuel_mono nodes edges iter fuel1 (max fuel fuel1)
    (le_max_right _ _) r1 h1
  rw [a] at b
  exact (Option.some.inj b).symm

/-- C26, as amended. The output of `topologicalSort` is a function of the node
list, the edge list and the order in which the in-degree map is visited: all
fuels that give a result give the same one. The ids that have in-degree 0
at the start are emitted first, in that visiting order; with no edges the
output is the visiting order itself. -/
theorem topologicalSort_tieBreak (nodes : List WorkflowNode)
    (edges : List WorkflowEdge) (iter : List String) (fuel : Nat)
    (r : List String) (hiter : IsRangeOrder iter nodes edges)
    (hsort : topologicalSort fuel iter nodes edges = some r) :
    (∀ fuel1 r1, topologicalSort fuel1 iter nodes edges = some r1 → r1 = r)
      ∧ iter.filter (fun k => ∀ e ∈ edges, e.Target ≠ k) <+: r
      ∧ (edges = [] → r = iter) := by
  have hpre := initialBlock_prefix nodes edges iter fuel r hiter hsort
  refine ⟨fun fuel1 r1 h1 =>
    topologicalSort_fuel_irrelevant nodes edges iter fuel fuel1 r r1 hsort h1,
    hpre, ?_⟩
  intro he
  subst he
  obtain ⟨deg1, inv⟩ := topologicalSort_sound nodes [] iter fuel hiter r hsort
  have hfilter : iter.filter (fun k => ∀ e ∈ ([] : List WorkflowEdge),
      e.Target ≠ k) = iter := by
    simp
  rw [hfilter] at hpre
  have hlen : r.length ≤ iter.length := by
    rw [hiter.length_eq]
    exact inv.result_length_le
  exact (hpre.eq_of_length (le_antisymm hpre.length_le hlen)).symm

/-- Witness of C26 as amended: the nodes A, B, C without edges, the in-degree
map visited in the order C, B, A. -/
theorem topologicalSort_tieBreak_witness :
    (∀ fuel1 r1, topologicalSort fuel1 ["C", "B", "A"] diamondNodes []
        = some r1 → r1 = ["C", "B", "A"])
      ∧ ["C", "B", "A"].filter
          (fun k => ∀ e ∈ ([] : List WorkflowEdge), e.Target ≠ k)
        <+: ["C", "B", "A"]
      ∧ (([] : List WorkflowEdge) = [] → ["C", "B", "A"] = ["C", "B", "A"]) :=
  topologicalSort_tieBreak diamondNodes [] ["C", "B", "A"] 3 ["C", "B", "A"]
    (by unfold IsRangeOrder; decide) (by decide)

/-- Counterexample to C26 as stated: for the nodes A, B, C without edges the
output is C, B, A when the in-degree map is visited in that order, and
A, B, C when it is visited in node-sequence order. -/
theorem topologicalSort_tieBreak_counterexample :
    IsRangeOrder ["C", "B", "A"] diamondNodes []
      ∧ IsRangeOrder ["A", "B", "C"] diamondNodes []
      ∧ topologicalSort 3 ["C", "B", "A"] diamondNodes []
        = some ["C", "B", "A"]
      ∧ topologicalSort 3 ["A", "B", "C"] diamondNodes []
        = some ["A", "B", "C"]
      ∧ nodeIDs diamondNodes = ["A", "B", "C"] := by
  refine ⟨by unfold IsRangeOrder; decide, by unfold IsRangeOrder; decide,
    by decide, by decide, by decide⟩

/-- C27. A node with no incoming and no outgoing edge is always in the output
of `topologicalSort`, in the initial block of the ids without incoming edge,
which is the front of the output; so it comes before every id that has an
incoming edge. -/
theorem topologicalSort_isolated (nodes : List WorkflowNode)
    (edges : List WorkflowEdge) (iter : List String) (fuel : Nat)
    (n : String) (hn : n ∈ nodeIDs nodes)
    (hiso : ∀ e ∈ edges, e.Source ≠ n ∧ e.Target ≠ n)
    (hiter : IsRangeOrder iter nodes edges)
    (hfuel : (mentionedIDs nodes edges).length ≤ fuel) :
    ∃ r, topologicalSort fuel iter nodes edges = some r
      ∧ n ∈ r
      ∧ (∃ block rest, r = block ++ rest ∧ n ∈ block
          ∧ (∀ k ∈ block, ∀ e ∈ edges, e.Target ≠ k)
          ∧ (∀ m, (∃ e ∈ edges, e.Target = m) → m ∉ block))
      ∧ (∀ m, (∃ e ∈ edges, e.Target = m) → r.indexOf n < r.indexOf m) := by
  obtain ⟨r, _, hsort, _⟩ := topologicalSort_spec nodes edges iter fuel hiter
    (le_trans (keys_length_le_mentionedIDs _ _) hfuel)
  obtain ⟨rest, hrest⟩ := initialBlock_prefix nodes edges iter fuel r hiter
    hsort
  have hnb : n ∈ iter.filter (fun k => ∀ e ∈ edges, e.Target ≠ k) := by
    refine List.mem_filter.2
      ⟨hiter.mem_iff.2 (nodeIDs_subset_keys nodes edges hn), ?_⟩
    simpa using fun e he => (hiso e he).2
  have hblock : ∀ k ∈ iter.filter (fun k => ∀ e ∈ edges, e.Target ≠ k),
      ∀ e ∈ edges, e.Target ≠ k := by
    intro k hk
    simpa using (List.mem_filter.1 hk).2
  have hout : ∀ m, (∃ e ∈ edges, e.Target = m) →
      m ∉ iter.filter (fun k => ∀ e ∈ edges, e.Target ≠ k) := by
    rintro m ⟨e, he, het⟩ hm
    exact hblock m hm e he het
  refine ⟨r, hsort, ?_, ⟨_, rest, hrest.symm, hnb, hblock, hout⟩, ?_⟩
  · rw [← hrest]
    exact List.mem_append_left _ hnb
  · intro m hm
    rw [← hrest, List.indexOf_append_of_mem hnb,
      List.indexOf_append_of_not_mem (hout m hm)]
    have := List.indexOf_lt_length.2 hnb
    omega

/-- Witness of C27: the isolated node D next to the cycle B → C → B reached
from A. -/
theorem topologicalSort_isolated_witness :
    ∃ r, topologicalSort 4 ["C", "D", "B", "A"] isolatedNodes loopEdges
        = some r
      ∧ "D" ∈ r
      ∧ (∃ block rest, r = block ++ rest ∧ "D" ∈ block
          ∧ (∀ k ∈ block, ∀ e ∈ loopEdges, e.Target ≠ k)
          ∧ (∀ m, (∃ e ∈ loopEdges, e.Target = m) → m ∉ block))
      ∧ (∀ m, (∃ e ∈ loopEdges, e.Target = m) → r.indexOf "D" < r.indexOf m) :=
  topologicalSort_isolated isolatedNodes loopEdges ["C", "D", "B", "A"] 4 "D"
    (by decide) (by decide) (by unfold IsRangeOrder; decide) (by decide)

/-- C29. Whatever the nodes and edges are, the list that `topologicalSort`
returns holds no id twice; every id in it was enqueued once, at the start
when no edge targets it, and otherwise only after the sources of all the
edges into it were emitted. -/
theorem topologicalSort_nodup (nodes : List WorkflowNode)
    (edges : List WorkflowEdge) (iter : List String) (fuel : Nat)
    (r : List String) (hiter : IsRangeOrder iter nodes edges)
    (hsort : topologicalSort fuel iter nodes edges = some r) :
    r.Nodup
      ∧ (∀ k, r.count k ≤ 1)
      ∧ (∀ e ∈ edges, e.Target ∈ r → r.indexOf e.Source < r.indexOf e.Target)
    := by
  obtain ⟨deg1, inv⟩ := topologicalSort_sound nodes edges iter fuel hiter r
    hsort
  exact ⟨inv.result_nodup, fun k => List.nodup_iff_count_le_one.1
    inv.result_nodup k, inv.forward⟩

/-- Witness of C29: the nodes A, A, B with the edges A → B twice, B → B and
A → X, for which the sort returns A, X. -/
theorem topologicalSort_nodup_witness :
    ["A", "X"].Nodup
      ∧ (∀ k, ["A", "X"].count k ≤ 1)
      ∧ (∀ e ∈ messyEdges, e.Target ∈ ["A", "X"] →
          ["A", "X"].indexOf e.Source < ["A", "X"].indexOf e.Target) :=
  topologicalSort_nodup repeatedNodes messyEdges ["X", "B", "A"] 3 ["A", "X"]
    (by unfold IsRangeOrder; decide) (by decide)

/-! ## Two runs of one workflow -/

theorem invocationAt_congr (env1 env2 : Env) (workflow : Workflow)
    (nodeMap : GoMap WorkflowNode) (s1 s2 : RunState) (nodeID : String)
    (hdet : ∀ k1 k2 taskType input,
      env1.execute k1 taskType input = env2.execute k2 taskType input)
    (hout : s1.nodeOutputs = s2.nodeOutputs) :
    invocationAt env1 workflow nodeMap s1 nodeID
      = invocationAt env2 workflow nodeMap s2 nodeID := by
  simp only [invocationAt, hout]
  rw [hdet s1.calls.length s2.calls.length]

/-- With a deterministic executor, the node loop started in two states that
agree up to the clock ends in results that agree up to the clock. -/
theorem runNodes_deterministic (env1 env2 : Env) (workflow : Workflow)
    (nodeMap : GoMap WorkflowNode) (start1 start2 : Int)
    (hdet : ∀ k1 k2 taskType input,
      env1.execute k1 taskType input = env2.execute k2 taskType input) :
    ∀ (ids : List String) (s1 s2 : RunState),
      s1.nodeOutputs = s2.nodeOutputs → s1.finalOutput = s2.finalOutput →
      s1.logs.map eraseTime = s2.logs.map eraseTime → s1.calls = s2.calls →
      (runNodes env1 workflow nodeMap start1 ids s1).result.Logs.map eraseTime
          = (runNodes env2 workflow nodeMap start2 ids s2).result.Logs.map
              eraseTime
        ∧ (runNodes env1 workflow nodeMap start1 ids s1).result.Status
          = (runNodes env2 workflow nodeMap start2 ids s2).result.Status
        ∧ (runNodes env1 workflow nodeMap start1 ids s1).result.FinalOutput
          = (runNodes env2 workflow nodeMap start2 ids s2).result.FinalOutput
        ∧ (runNodes env1 workflow nodeMap start1 ids s1).result.Error
          = (runNodes env2 workflow nodeMap start2 ids s2).result.Error
        ∧ (runNodes env1 workflow nodeMap start1 ids s1).calls
          = (runNodes env2 workflow nodeMap start2 ids s2).calls := by
  intro ids
  induction ids with
  | nil =>
    intro s1 s2 _ hfin hlogs hcalls
    rw [runNodes_nil, runNodes_nil]
    exact ⟨hlogs, rfl, hfin, rfl, hcalls⟩
  | cons nodeID rest ih =>
    intro s1 s2 hout hfin hlogs hcalls
    have hinv := invocationAt_congr env1 env2 workflow nodeMap s1 s2 nodeID
      hdet hout
    by_cases h : (invocationAt env1 workflow nodeMap s1 nodeID).Output.IsSuccess
        = true
    · rw [runNodes_cons_ok _ _ _ _ _ _ _ h,
        runNodes_cons_ok _ _ _ _ _ _ _ (hinv ▸ h)]
      apply ih
      · simp [nextState, hout, hinv]
      · simp [nextState, hinv]
      · simp only [nextState, List.map_append, hlogs, hinv]
        rfl
      · simp [nextState, hcalls, hinv]
    · have hf : (invocationAt env1 workflow nodeMap s1 nodeID).Output.IsSuccess
          = false := by simpa using h
      rw [runNodes_cons_fail _ _ _ _ _ _ _ hf,
        runNodes_cons_fail _ _ _ _ _ _ _ (hinv ▸ hf)]
      refine ⟨?_, rfl, by rw [hinv], by rw [hinv], by rw [hcalls, hinv]⟩
      simp only [List.map_append, hlogs, hinv]
      rfl

/-- C25, as amended. For a deterministic task executor, two executions of
`runWorkflow` on one workflow that visit the in-degree map in the same order
give the same Status, the same FinalOutput, the same calls, and Logs that are
equal once Timestamp and Duration are erased, whatever their clocks are. -/
theorem runWorkflow_idempotent (env1 env2 : Env) (fuel1 fuel2 : Nat)
    (iter : List String) (workflow : Workflow) (run1 run2 : Run)
    (hdet : ∀ k1 k2 taskType input,
      env1.execute k1 taskType input = env2.execute k2 taskType input)
    (hrun1 : runWorkflow env1 fuel1 iter workflow = some run1)
    (hrun2 : runWorkflow env2 fuel2 iter workflow = some run2) :
    run1.result.Logs.map eraseTime = run2.result.Logs.map eraseTime
      ∧ run1.result.Status = run2.result.Status
      ∧ run1.result.FinalOutput = run2.result.FinalOutput
      ∧ run1.result.Error = run2.result.Error
      ∧ run1.calls = run2.calls := by
  obtain ⟨order1, hsort1, _⟩ :=
    runWorkflow_cases env1 fuel1 iter workflow run1 hrun1
  obtain ⟨order2, hsort2, _⟩ :=
    runWorkflow_cases env2 fuel2 iter workflow run2 hrun2
  have ho := topologicalSort_fuel_irrelevant _ _ iter fuel1 fuel2 order1 order2
    hsort1 hsort2
  subst ho
  by_cases hlen : order2.length = workflow.Nodes.length
  · rw [runWorkflow_of_complete env1 fuel1 iter workflow order2 hsort1 hlen]
      at hrun1
    rw [runWorkflow_of_complete env2 fuel2 iter workflow order2 hsort2 hlen]
      at hrun2
    rw [← Option.some.inj hrun1, ← Option.some.inj hrun2]
    exact runNodes_deterministic env1 env2 workflow _ _ _ hdet order2
      initialState initialState rfl rfl rfl rfl
  · rw [runWorkflow_of_incomplete env1 fuel1 iter workflow order2 hsort1 hlen]
      at hrun1
    rw [runWorkflow_of_incomplete env2 fuel2 iter workflow order2 hsort2 hlen]
      at hrun2
    rw [← Option.some.inj hrun1, ← Option.some.inj hrun2]
    exact ⟨rfl, rfl, rfl, rfl, rfl⟩

/-- Witness of C25 as amended: the chain A → B → C run under `demoEnv` and
under the same tasks with another clock. -/
theorem runWorkflow_idempotent_witness :
    chainRun.result.Logs.map eraseTime
        = (runNodes demoEnvLate chainWorkflow
            (buildNodeMap chainWorkflow.Nodes) (demoEnvLate.now 0)
            ["A", "B", "C"] initialState).result.Logs.map eraseTime
      ∧ chainRun.result.Status
        = (runNodes demoEnvLate chainWorkflow
            (buildNodeMap chainWorkflow.Nodes) (demoEnvLate.now 0)
            ["A", "B", "C"] initialState).result.Status
      ∧ chainRun.result.FinalOutput
        = (runNodes demoEnvLate chainWorkflow
            (buildNodeMap chainWorkflow.Nodes) (demoEnvLate.now 0)
            ["A", "B", "C"] initialState).result.FinalOutput
      ∧ chainRun.result.Error
        = (runNodes demoEnvLate chainWorkflow
            (buildNodeMap chainWorkflow.Nodes) (demoEnvLate.now 0)
            ["A", "B", "C"] initialState).result.Error
      ∧ chainRun.calls
        = (runNodes demoEnvLate chainWorkflow
            (buildNodeMap chainWorkflow.Nodes) (demoEnvLate.now 0)
            ["A", "B", "C"] initialState).calls :=
  runWorkflow_idempotent demoEnv demoEnvLate 3 5 ["A", "B", "C"]
    chainWorkflow chainRun _ (fun _ _ _ _ => rfl) rfl rfl

/-- Counterexample to C25 as stated: for the nodes A and B without edge and
the deterministic tasks of `demoEnv`, the execution that visits the in-degree
map in the order A, B logs A and then the failure of B, and the execution
that visits it in the order B, A logs only the failure of B. -/
theorem runWorkflow_idempotent_counterexample :
    IsRangeOrder ["A", "B"] raceWorkflow.Nodes raceWorkflow.Edges
      ∧ IsRangeOrder ["B", "A"] raceWorkflow.Nodes raceWorkflow.Edges
      ∧ (runWorkflow demoEnv 2 ["A", "B"] raceWorkflow).map
          (fun run => run.result.Logs.map (fun l => (l.NodeID, l.Status)))
        = some [("A", "running"), ("A", "success"), ("B", "running"),
            ("B", "error")]
      ∧ (runWorkflow demoEnv 2 ["B", "A"] raceWorkflow).map
          (fun run => run.result.Logs.map (fun l => (l.NodeID, l.Status)))
        = some [("B", "running"), ("B", "error")] := by
  refine ⟨by unfold IsRangeOrder; decide, by unfold IsRangeOrder; decide,
    by decide, by decide⟩

/-! ## The records under `$previous` in a run -/

theorem get?_recordOutputs_some (cs : List Invocation) (p : String)
    (o : TaskOutput) :
    ∀ m : GoMap TaskOutput, (recordOutputs m cs).get? p = some o →
      (∃ c ∈ cs, c.Output = o) ∨ m.get? p = some o := by
  induction cs with
  | nil => intro m h; exact Or.inr h
  | cons c cs ih =>
    intro m h
    rw [recordOutputs_cons] at h
    rcases ih _ h with ⟨c1, hc1, ho⟩ | hm
    · exact Or.inl ⟨c1, List.mem_cons_of_mem _ hc1, ho⟩
    · rw [GoMap.get?_set] at hm
      by_cases hk : c.NodeID = p
      · rw [if_pos hk] at hm
        exact Or.inl ⟨c, List.mem_cons_self _ _, Option.some.inj hm⟩
      · rw [if_neg hk] at hm
        exact Or.inr hm

/-- C30, as amended. In every run, the input handed to the task of a node
with at least one incoming edge holds under `$previous` only records of
successful outputs: every entry of that mapping is a record whose error is
the empty string. -/
theorem runWorkflow_previous_successful (env : Env) (fuel : Nat)
    (iter : List String) (workflow : Workflow) (run : Run) (i : Nat)
    (c : Invocation)
    (hrun : runWorkflow env fuel iter workflow = some run)
    (hi : run.calls[i]? = some c)
    (hedge : ∃ e ∈ workflow.Edges, e.Target = c.NodeID) :
    ∃ previous : GoMap Value,
      c.Input.get? "$previous" = some (Value.obj previous)
      ∧ ∀ p entry, previous.get? p = some entry →
          ∃ data, entry
            = Value.obj [("error", Value.str ""), ("data", data)] := by
  obtain ⟨order, _, _, _, hinit, hin⟩ :=
    runWorkflow_calls env fuel iter workflow run hrun
  have hilt : i < run.calls.length := (List.getElem?_eq_some.1 hi).1
  refine ⟨buildPrevious (getPredecessors c.NodeID workflow.Edges)
    (recordOutputs [] (run.calls.take i)), ?_, ?_⟩
  · rw [(hin i c hi).2.1]
    exact get?_prepareInput_previous _ _ _ _ hedge
  · intro p entry hp
    rw [get?_buildPrevious] at hp
    by_cases hpp : p ∈ getPredecessors c.NodeID workflow.Edges
    · rw [if_pos hpp] at hp
      obtain ⟨o, ho, hrec⟩ := Option.map_eq_some'.1 hp
      rcases get?_recordOutputs_some _ p o [] ho with ⟨c1, hc1, hco⟩ | hm
      · obtain ⟨j, hj, hcj⟩ := List.mem_take_iff_getElem.1 hc1
        have hj1 : j < i := (lt_min_iff.1 hj).1
        have hc1ok : c1.Output.Error = "" := by
          apply hinit
          apply mem_dropLast_of_getElem? _ j c1 _ (by omega)
          rw [List.getElem?_eq_getElem (by omega), hcj]
        refine ⟨o.Data, ?_⟩
        rw [← hrec, previousRecord, ← hco, hc1ok]
      · simp [GoMap.get?] at hm
    · rw [if_neg hpp] at hp
      simp at hp

/-- Witness of C30 as amended: the call for B, at position 1, in the run of
the chain A → B → C. -/
theorem runWorkflow_previous_successful_witness :
    ∃ previous : GoMap Value,
      chainCallB.Input.get? "$previous" = some (Value.obj previous)
      ∧ ∀ p entry, previous.get? p = some entry →
          ∃ data, entry
            = Value.obj [("error", Value.str ""), ("data", data)] :=
  runWorkflow_previous_successful demoEnv 3 ["A", "B", "C"] chainWorkflow
    chainRun 1 chainCallB rfl rfl ⟨⟨"A", "B"⟩, by decide, rfl⟩

/-- Counterexample to C30 as stated: the node R has no incoming edge and a
config with its own `$previous`, which holds a record with the error "bad";
the input handed to its task is that config, `$previous` included. -/
theorem runWorkflow_previous_successful_counterexample :
    (runWorkflow demoEnv 1 ["R"] staleWorkflow).map
        (fun run => run.calls.map (fun c => c.Input.get? "$previous"))
      = some [some (Value.obj [("up",
          Value.obj [("error", Value.str "bad"), ("data", Value.null)])])] :=
  rfl

/-! ## Two-node workflows and the registry at process start -/

/-- The sort of two nodes A and B with the single edge A → B is A, B. -/
theorem topologicalSort_pair (nodes : List WorkflowNode) (iter : List String)
    (fuel : Nat) (hnodes : nodeIDs nodes = ["A", "B"])
    (hiter : IsRangeOrder iter nodes [⟨"A", "B"⟩]) (hfuel : 2 ≤ fuel) :
    topologicalSort fuel iter nodes [⟨"A", "B"⟩] = some ["A", "B"] := by
  have hlen : nodes.length = 2 := by
    have := congrArg List.length hnodes
    simpa [nodeIDs] using this
  have hends : ∀ e ∈ [(⟨"A", "B"⟩ : WorkflowEdge)],
      e.Source ∈ nodeIDs nodes ∧ e.Target ∈ nodeIDs nodes := by
    intro e he
    rw [hnodes]
    simp only [List.mem_singleton] at he
    subst he
    decide
  obtain ⟨r, _, hr, _⟩ := topologicalSort_spec nodes [⟨"A", "B"⟩] iter fuel
    hiter (le_trans (keys_length_le_nodes nodes _
      (fun e he => (hends e he).2)) (by omega))
  obtain ⟨hperm, hnd, hfw⟩ := topologicalSort_wellFormed nodes [⟨"A", "B"⟩]
    iter fuel r (by rw [hnodes]; decide) hends
    (acyclic_of_rank _ (fun k => if k = "A" then 0 else 1) (by decide))
    hiter hr
  rw [hnodes] at hperm
  have hl := hperm.length_eq
  have hf := (hfw ⟨"A", "B"⟩ (by simp)).1
  rw [hr]
  match r, hperm, hnd, hl, hf with
  | [x, y], hperm, hnd, _, hf =>
    have hx : x ∈ ["A", "B"] := hperm.subset (by simp)
    have hy : y ∈ ["A", "B"] := hperm.subset (by simp)
    simp only [List.mem_cons, List.mem_singleton, List.not_mem_nil,
      or_false] at hx hy
    rcases hx with rfl | rfl <;> rcases hy with rfl | rfl
    · simp at hnd
    · rfl
    · exact absurd hf (by decide)
    · simp at hnd


/-- Claim C28, as the code behaves: starting from an empty registry,
InitExecutors registers exactly "http-request" and "if-condition". For each
of the nine other task types the executor package defines, GetConfig finds
nothing and Execute answers "未知的任务类型: " followed by the type. -/
theorem InitExecutors_registers_two (send : TaskInput → TaskOutput)
    (executeIfCondition : TaskExecutorFunc) :
    (InitExecutors send executeIfCondition []).keys
        = ["http-request", "if-condition"]
      ∧ (GetConfig (InitExecutors send executeIfCondition [])
          "http-request").isSome = true
      ∧ (GetConfig (InitExecutors send executeIfCondition [])
          "if-condition").isSome = true
      ∧ (∀ t ∈ definedTaskTypes, t ∈ otherTaskTypes
          ∨ t = "http-request" ∨ t = "if-condition")
      ∧ ∀ t ∈ otherTaskTypes,
          (GetConfig (InitExecutors send executeIfCondition []) t).isSome
              = false
            ∧ ∀ input : TaskInput,
                Execute (InitExecutors send executeIfCondition []) t input
                  = { Error := "未知的任务类型: " ++ t, Data := Value.null,
                      Extra := [] } := by
  refine ⟨rfl, rfl, rfl, by decide, ?_⟩
  intro t ht
  simp only [otherTaskTypes, List.mem_cons, List.mem_singleton,
    List.not_mem_nil, or_false] at ht
  rcases ht with rfl | rfl | rfl | rfl | rfl | rfl | rfl | rfl | rfl <;>
    exact ⟨rfl, fun _ => rfl⟩


/-- The executor found under "log" once registerLog ran is executeLog. -/
theorem Execute_registerLog (timestamp : String)
    (registry : GoMap registeredExecutor) (input : TaskInput) :
    Execute (registerLog timestamp registry) "log" input
      = executeLog timestamp input := by
  simp [Execute, Get, registerLog, Register, GoMap.get?_set, logConfig]

/-- With the delay and log tasks also registered, which no path of the program
does, the run of the delay-then-log workflow succeeds: four log entries (two
per node), one call for A and then one for B, and FinalOutput the output of
the log task of B. -/
theorem runWorkflow_delay_log_registered (send : TaskInput → TaskOutput)
    (executeIfCondition : TaskExecutorFunc) (startTime endTime timestamp : String)
    (now : Nat → Int) (format : Int → String) (fuel : Nat)
    (iter : List String)
    (hiter : IsRangeOrder iter delayLogWorkflow.Nodes delayLogWorkflow.Edges)
    (hfuel : 2 ≤ fuel) :
    ∃ run : Run,
      runWorkflow
          (registryEnv
            (registerLog timestamp
              (registerDelay startTime endTime
                (InitExecutors send executeIfCondition [])))
            now format)
          fuel iter delayLogWorkflow = some run
        ∧ run.result.Status = "success"
        ∧ run.result.Error = ""
        ∧ run.result.Logs.map (fun l => (l.NodeID, l.Status))
            = [("A", "running"), ("A", "success"),
                ("B", "running"), ("B", "success")]
        ∧ run.calls.map (fun c => (c.NodeID, c.TaskType))
            = [("A", "delay"), ("B", "log")]
        ∧ ∃ callB : Invocation,
            run.calls.getLast? = some callB
              ∧ callB.NodeID = "B"
              ∧ callB.Output = executeLog timestamp callB.Input
              ∧ callB.Input.get? "message" = some (Value.str "hi")
              ∧ run.result.FinalOutput = some callB.Output := by
  have hsort := topologicalSort_pair delayLogWorkflow.Nodes iter fuel rfl
    hiter hfuel
  have hrun := runWorkflow_of_complete
    (registryEnv
      (registerLog timestamp
        (registerDelay startTime endTime
          (InitExecutors send executeIfCondition [])))
      now format) fuel iter delayLogWorkflow _ hsort rfl
  rw [runNodes_cons_ok, runNodes_cons_ok, runNodes_nil] at hrun
  · refine ⟨_, hrun, rfl, rfl, rfl, rfl,
      invocationAt _ delayLogWorkflow (buildNodeMap delayLogWorkflow.Nodes)
        (nextState _ _ initialState
          (invocationAt _ delayLogWorkflow _ initialState "A")) "B",
      rfl, rfl, ?_, rfl, rfl⟩
    dsimp only [invocationAt, registryEnv]
    exact Execute_registerLog timestamp _ _
  · rfl
  · rfl

/-- Claim C23, as the code behaves: given the two-node workflow A (type
"delay", config seconds=0) and B (type "log", config message="hi") with the
single edge A→B, run against the task registry as populated at process start
by InitExecutors, runWorkflow yields Status "error": the type "delay" is not
registered, so the call for A returns "未知的任务类型: delay", the Logs are A
running and A error, FinalOutput is that failing output, and B is never
executed. -/
theorem runWorkflow_delay_unregistered (send : TaskInput → TaskOutput)
    (executeIfCondition : TaskExecutorFunc) (now : Nat → Int)
    (format : Int → String) (fuel : Nat) (iter : List String)
    (hiter : IsRangeOrder iter delayLogWorkflow.Nodes delayLogWorkflow.Edges)
    (hfuel : 2 ≤ fuel) :
    ∃ run : Run,
      runWorkflow
          (registryEnv (InitExecutors send executeIfCondition []) now format)
          fuel iter delayLogWorkflow = some run
        ∧ run.result.Status = "error"
        ∧ run.result.Error = "任务 \"A\" 执行失败: 未知的任务类型: delay"
        ∧ run.result.Logs.map (fun l => (l.NodeID, l.Status))
            = [("A", "running"), ("A", "error")]
        ∧ run.calls.map (fun c => (c.NodeID, c.TaskType, c.Output.Error))
            = [("A", "delay", "未知的任务类型: delay")]
        ∧ (∀ c ∈ run.calls, c.NodeID ≠ "B")
        ∧ run.result.FinalOutput
            = some { Error := "未知的任务类型: delay", Data := Value.null,
                     Extra := [] }
        ∧ (Get (InitExecutors send executeIfCondition []) "delay").isNone
            = true
        ∧ (Get (InitExecutors send executeIfCondition []) "log").isNone
            = true := by
  have hsort := topologicalSort_pair delayLogWorkflow.Nodes iter fuel rfl
    hiter hfuel
  have hrun := runWorkflow_of_complete
    (registryEnv (InitExecutors send executeIfCondition []) now format)
    fuel iter delayLogWorkflow _ hsort rfl
  rw [runNodes_cons_fail] at hrun
  · refine ⟨_, hrun, rfl, rfl, rfl, rfl, ?_, rfl, rfl, rfl⟩
    intro c hc
    have hc : c.NodeID ∈ ["A"] :=
      List.mem_map_of_mem (fun c => c.NodeID) hc
    intro hB
    rw [hB] at hc
    exact absurd hc (by decide)
  · rfl

/-- Claim C23 at a concrete clock and visiting order. -/
theorem runWorkflow_delay_unregistered_witness :
    ∃ run : Run,
      runWorkflow
          (registryEnv (InitExecutors noTask noTask [])
            (fun k => (k : Int)) (fun _ => "t"))
          2 ["A", "B"] delayLogWorkflow = some run
        ∧ run.result.Status = "error"
        ∧ run.result.Error = "任务 \"A\" 执行失败: 未知的任务类型: delay"
        ∧ run.result.Logs.map (fun l => (l.NodeID, l.Status))
            = [("A", "running"), ("A", "error")]
        ∧ run.calls.map (fun c => (c.NodeID, c.TaskType, c.Output.Error))
            = [("A", "delay", "未知的任务类型: delay")]
        ∧ (∀ c ∈ run.calls, c.NodeID ≠ "B")
        ∧ run.result.FinalOutput
            = some { Error := "未知的任务类型: delay", Data := Value.null,
                     Extra := [] }
        ∧ (Get (InitExecutors noTask noTask []) "delay").isNone = true
        ∧ (Get (InitExecutors noTask noTask []) "log").isNone = true :=
  runWorkflow_delay_unregistered noTask noTask (fun k => (k : Int))
    (fun _ => "t") 2 ["A", "B"] (by unfold IsRangeOrder; decide) (by decide)

/-- The executor found under "http-request" once InitExecutors ran on the
empty registry is executeHTTPRequest. -/
theorem Execute_httpRequest (send : TaskInput → TaskOutput)
    (executeIfCondition : TaskExecutorFunc) (input : TaskInput) :
    Execute (InitExecutors send executeIfCondition []) "http-request" input
      = executeHTTPRequest send input := rfl

/-- Claim C24, amended: executeHTTPRequest returns Error "URL 不能为空" with
nil Data for every input whose url is missing, empty or not a string. Given a
two-node workflow A (type "http-request", config url="") and B with the edge
A→B, runWorkflow returns Status "error" with exactly two log entries (A
running, then A error), the only call is the one of A, B is neither logged nor
executed, and FinalOutput is the failing output of A. -/
theorem runWorkflow_empty_url (send : TaskInput → TaskOutput) :
    (∀ input : TaskInput,
        (∀ s : String, input.get? "url" = some (Value.str s) → s = "") →
        executeHTTPRequest send input
          = { Error := "URL 不能为空", Data := Value.null, Extra := [] })
      ∧ ∀ (executeIfCondition : TaskExecutorFunc) (now : Nat → Int)
          (format : Int → String) (typeB labelB : String)
          (configB : TaskInput) (fuel : Nat) (iter : List String),
          IsRangeOrder iter (httpWorkflow typeB labelB configB).Nodes
            (httpWorkflow typeB labelB configB).Edges →
          2 ≤ fuel →
          ∃ run : Run,
            runWorkflow
                (registryEnv (InitExecutors send executeIfCondition [])
                  now format)
                fuel iter (httpWorkflow typeB labelB configB) = some run
              ∧ run.result.Status = "error"
              ∧ run.result.Error = "任务 \"A\" 执行失败: URL 不能为空"
              ∧ run.result.Logs.map (fun l => (l.NodeID, l.Status))
                  = [("A", "running"), ("A", "error")]
              ∧ run.result.Logs.length = 2
              ∧ (∀ l ∈ run.result.Logs, l.NodeID ≠ "B")
              ∧ run.calls.map (fun c => (c.NodeID, c.TaskType))
                  = [("A", "http-request")]
              ∧ (∀ c ∈ run.calls, c.NodeID ≠ "B")
              ∧ run.result.FinalOutput
                  = some { Error := "URL 不能为空", Data := Value.null,
                           Extra := [] } := by
  constructor
  · intro input h
    unfold executeHTTPRequest
    cases hu : input.get? "url" with
    | none => rfl
    | some v =>
      cases v with
      | str s =>
        have := h s hu
        subst this
        rfl
      | null => rfl
      | bool b => rfl
      | num n => rfl
      | arr a => rfl
      | obj o => rfl
  · intro executeIfCondition now format typeB labelB configB fuel iter hiter
      hfuel
    have hsort := topologicalSort_pair (httpWorkflow typeB labelB configB).Nodes
      iter fuel rfl hiter hfuel
    have hrun := runWorkflow_of_complete
      (registryEnv (InitExecutors send executeIfCondition []) now format)
      fuel iter (httpWorkflow typeB labelB configB) _ hsort rfl
    rw [runNodes_cons_fail] at hrun
    · refine ⟨_, hrun, rfl, rfl, rfl, rfl, ?_, rfl, ?_, rfl⟩
      · intro l hl
        have hl : l.NodeID ∈ ["A", "A"] :=
          List.mem_map_of_mem (fun l => l.NodeID) hl
        intro hB
        rw [hB] at hl
        exact absurd hl (by decide)
      · intro c hc
        have hc : c.NodeID ∈ ["A"] :=
          List.mem_map_of_mem (fun c => c.NodeID) hc
        intro hB
        rw [hB] at hc
        exact absurd hc (by decide)
    · rfl

/-- Claim C24 at a concrete input, clock, node B and visiting order. -/
theorem runWorkflow_empty_url_witness :
    executeHTTPRequest noTask [("url", Value.num 7)]
        = { Error := "URL 不能为空", Data := Value.null, Extra := [] }
      ∧ ∃ run : Run,
          runWorkflow
              (registryEnv (InitExecutors noTask noTask [])
                (fun k => (k : Int)) (fun _ => "t"))
              2 ["A", "B"] (httpWorkflow "log" "B" []) = some run
            ∧ run.result.Status = "error"
            ∧ run.result.Error = "任务 \"A\" 执行失败: URL 不能为空"
            ∧ run.result.Logs.map (fun l => (l.NodeID, l.Status))
                = [("A", "running"), ("A", "error")]
            ∧ run.result.Logs.length = 2
            ∧ (∀ l ∈ run.result.Logs, l.NodeID ≠ "B")
            ∧ run.calls.map (fun c => (c.NodeID, c.TaskType))
                = [("A", "http-request")]
            ∧ (∀ c ∈ run.calls, c.NodeID ≠ "B")
            ∧ run.result.FinalOutput
                = some { Error := "URL 不能为空", Data := Value.null,
                         Extra := [] } :=
  ⟨(runWorkflow_empty_url noTask).1 [("url", Value.num 7)]
      (fun s h => by simp [GoMap.get?] at h),
    (runWorkflow_empty_url noTask).2 noTask (fun k => (k : Int))
      (fun _ => "t") "log" "B" [] 2 ["A", "B"]
      (by unfold IsRangeOrder; decide) (by decide)⟩

/-- Claim C24 as stated fails: the run of the workflow whose node A is an
http-request with an empty url has two log entries, not one. -/
theorem runWorkflow_empty_url_counterexample :
    (runWorkflow
        (registryEnv (InitExecutors noTask noTask [])
          (fun k => (k : Int)) (fun _ => "t"))
        2 ["A", "B"] (httpWorkflow "log" "B" [])).map
        (fun run => (run.result.Status, run.result.Logs.length,
          run.result.Logs.map (fun l => (l.NodeID, l.Status))))
      = some ("error", 2, [("A", "running"), ("A", "error")]) := by
  decide


/-! ## The workflow without nodes -/

/-- Without nodes no key of the in-degree map has the counter 0. -/
theorem get?_buildInDegree_nil_ne_zero (edges : List WorkflowEdge)
    (k : String) : (buildInDegree [] edges).get? k ≠ some 0 := by
  rw [get?_buildInDegree]
  split
  · rename_i h
    have hk : k ∈ edges.map (fun e => e.Target) := by
      rcases h with h | h
      · simp [nodeIDs] at h
      · exact h
    obtain ⟨e, he, hek⟩ := List.mem_map.1 hk
    have hpos : 0 < pending edges [] k := by
      unfold pending
      exact List.countP_pos_iff.2 ⟨e, he, by simpa using hek⟩
    intro h0
    have : (pending edges [] k : Int) = 0 := Option.some.inj h0
    omega
  · simp

/-- Without nodes the sort returns the empty order, whatever the edges, the
visiting order and the fuel are. -/
theorem topologicalSort_no_nodes (fuel : Nat) (iter : List String)
    (edges : List WorkflowEdge) :
    topologicalSort fuel iter [] edges = some [] := by
  have hq : iter.filter
      (fun nodeID => (buildInDegree [] edges).get? nodeID = some 0) = [] := by
    rw [List.filter_eq_nil_iff]
    intro k _
    simpa using get?_buildInDegree_nil_ne_zero edges k
  unfold topologicalSort
  simp only [hq]
  cases fuel <;> rfl

/-- Claim C31: for the workflow with no nodes, with any edge list, runWorkflow
returns Status "success" with an empty Logs list, no FinalOutput and an empty
Error, and makes no call of the task executor; this holds for every task
executor, clock, visiting order and fuel. -/
theorem runWorkflow_no_nodes (env : Env) (fuel : Nat) (iter : List String)
    (edges : List WorkflowEdge) :
    ∃ run : Run,
      runWorkflow env fuel iter { Nodes := [], Edges := edges } = some run
        ∧ run.result.Status = "success"
        ∧ run.result.Logs = []
        ∧ run.result.FinalOutput = none
        ∧ run.result.Error = ""
        ∧ run.calls = [] := by
  refine ⟨_, runWorkflow_of_complete env fuel iter
    { Nodes := [], Edges := edges } [] (topologicalSort_no_nodes fuel iter edges)
    rfl, rfl, rfl, rfl, rfl, rfl⟩

/-! ## The registry: reads after `Register` -/

theorem get?_Register (registry : GoMap registeredExecutor)
    (config : TaskConfig) (f : TaskExecutorFunc) (taskType : String) :
    (Register registry config f).get? taskType
      = if config.ID = taskType then some { config := config, executor := f }
        else registry.get? taskType := by
  unfold Register
  exact GoMap.get?_set registry config.ID taskType _

/-- Claim C32: for every registry state, config and executor f, after
Register(config, f) GetConfig(config.ID) returns config and found,
Get(config.ID) returns f and Execute(config.ID, input) equals f(input) for
every input, also when the ID was registered before; Get, GetConfig and
Execute for every other task type answer as before the registration. -/
theorem Register_roundTrip (registry : GoMap registeredExecutor)
    (config : TaskConfig) (f : TaskExecutorFunc) :
    GetConfig (Register registry config f) config.ID = some config
      ∧ Get (Register registry config f) config.ID = some f
      ∧ (∀ input : TaskInput,
          Execute (Register registry config f) config.ID input = f input)
      ∧ (∀ (config0 : TaskConfig) (f0 : TaskExecutorFunc) (input : TaskInput),
          config0.ID = config.ID →
          GetConfig (Register (Register registry config0 f0) config f)
              config.ID = some config
            ∧ Execute (Register (Register registry config0 f0) config f)
              config.ID input = f input)
      ∧ ∀ taskType : String, taskType ≠ config.ID →
          Get (Register registry config f) taskType = Get registry taskType
            ∧ GetConfig (Register registry config f) taskType
              = GetConfig registry taskType
            ∧ ∀ input : TaskInput,
              Execute (Register registry config f) taskType input
                = Execute registry taskType input := by
  have hself : ∀ r : GoMap registeredExecutor,
      (Register r config f).get? config.ID
        = some { config := config, executor := f } := by
    intro r
    rw [get?_Register, if_pos rfl]
  refine ⟨?_, ?_, ?_, ?_, ?_⟩
  · simp only [GetConfig, hself]
  · simp only [Get, hself]
  · intro input
    simp only [Execute, Get, hself]
  · intro config0 f0 input _
    constructor
    · simp only [GetConfig, hself]
    · simp only [Execute, Get, hself]
  · intro taskType hne
    have hother : (Register registry config f).get? taskType
        = registry.get? taskType := by
      rw [get?_Register, if_neg (fun h => hne h.symm)]
    refine ⟨?_, ?_, ?_⟩
    · simp only [Get, hother]
    · simp only [GetConfig, hother]
    · intro input
      simp only [Execute, Get, hother]

/-- Claim C32 on the registry of the process start: registering a new
executor under "http-request" replaces the HTTP task, and "if-condition" still
answers as before. -/
theorem Register_roundTrip_witness :
    (∀ input : TaskInput,
        Execute (Register (InitExecutors noTask noTask [])
          { httpRequestConfig with Name := "stub" } (executeLog "t"))
          "http-request" input = executeLog "t" input)
      ∧ GetConfig (Register (InitExecutors noTask noTask [])
          { httpRequestConfig with Name := "stub" } (executeLog "t"))
          "if-condition"
        = GetConfig (InitExecutors noTask noTask []) "if-condition" :=
  ⟨(Register_roundTrip (InitExecutors noTask noTask [])
      { httpRequestConfig with Name := "stub" } (executeLog "t")).2.2.1,
    ((Register_roundTrip (InitExecutors noTask noTask [])
      { httpRequestConfig with Name := "stub" } (executeLog "t")).2.2.2.2
      "if-condition" (by decide)).2.1⟩


/-! ## Nested field paths (`getNestedValue`) -/

theorem walkPath_eq_lookupChain (keys : List String) :
    ∀ v : Value, walkPath keys v = (lookupChain v keys).getD Value.null := by
  induction keys with
  | nil => intro v; rfl
  | cons k ks ih =>
    intro v
    cases v with
    | obj m =>
      simp only [walkPath, lookupChain, lookupKey]
      cases h : GoMap.get? m k with
      | none => rfl
      | some val => simpa using ih val
    | null => rfl
    | bool b => rfl
    | num n => rfl
    | str s => rfl
    | arr a => rfl

theorem splitDots_joinDots (keys : List String) (hne : keys ≠ [])
    (hdot : ∀ k ∈ keys, '.' ∉ k.data) : splitDots (joinDots keys) = keys := by
  unfold splitDots joinDots
  rw [List.splitOn_intercalate]
  · rw [List.map_map]
    have : (String.mk ∘ String.data) = id := by
      funext s
      rfl
    rw [this, List.map_id]
  · intro l hl
    obtain ⟨k, hk, rfl⟩ := List.mem_map.1 hl
    exact hdot k hk
  · simpa using hne

theorem splitDots_ne_nil (path : String) : splitDots path ≠ [] := by
  unfold splitDots
  intro h
  have := List.map_eq_nil_iff.1 h
  exact List.splitOnP_ne_nil _ _ this

theorem getNestedValue_eq_lookupChain (data : Value) (path : String) :
    getNestedValue data path
      = (lookupChain data (splitDots path)).getD Value.null := by
  cases data with
  | null =>
    unfold getNestedValue
    cases h : splitDots path with
    | nil => exact absurd h (splitDots_ne_nil path)
    | cons k ks => rfl
  | bool b => exact walkPath_eq_lookupChain _ _
  | num n => exact walkPath_eq_lookupChain _ _
  | str s => exact walkPath_eq_lookupChain _ _
  | arr a => exact walkPath_eq_lookupChain _ _
  | obj m => exact walkPath_eq_lookupChain _ _

/-- Claim C34: for every value data and every path k1.k2.….kn of keys
without a dot, getNestedValue(data, path) is the value reached by looking up
k1, then k2, … then kn in successive mappings, and nil as soon as a key is
missing or the current value is not a mapping; for every path at all it is
that lookup along the parts into which the path splits on ".", it is nil for
nil data, and the path "data.value" on {data: {value: v}} yields v. -/
theorem getNestedValue_path (data : Value) (keys : List String)
    (hne : keys ≠ []) (hdot : ∀ k ∈ keys, '.' ∉ k.data) :
    getNestedValue data (joinDots keys)
        = (lookupChain data keys).getD Value.null
      ∧ (∀ path : String, getNestedValue data path
          = (lookupChain data (splitDots path)).getD Value.null)
      ∧ (∀ path : String, getNestedValue Value.null path = Value.null)
      ∧ (∀ v : Value,
          getNestedValue (Value.obj [("data", Value.obj [("value", v)])])
            "data.value" = v) := by
  refine ⟨?_, getNestedValue_eq_lookupChain data, fun _ => rfl, ?_⟩
  · rw [getNestedValue_eq_lookupChain, splitDots_joinDots keys hne hdot]
  · intro v
    have h : splitDots "data.value" = ["data", "value"] := by decide
    rw [getNestedValue_eq_lookupChain, h]
    rfl

/-- Claim C34 on the path "a.b.c": on {a: {b: {c: 7}}} it yields 7, and the
keys "a", "b", "c" join to that path. -/
theorem getNestedValue_path_witness :
    joinDots ["a", "b", "c"] = "a.b.c"
      ∧ getNestedValue
          (Value.obj [("a", Value.obj [("b", Value.obj [("c", Value.num 7)])])])
          (joinDots ["a", "b", "c"])
        = (lookupChain
            (Value.obj [("a",
              Value.obj [("b", Value.obj [("c", Value.num 7)])])])
            ["a", "b", "c"]).getD Value.null
      ∧ (lookupChain
            (Value.obj [("a",
              Value.obj [("b", Value.obj [("c", Value.num 7)])])])
            ["a", "b", "c"]).isSome = true :=
  ⟨by decide,
    (getNestedValue_path
      (Value.obj [("a", Value.obj [("b", Value.obj [("c", Value.num 7)])])])
      ["a", "b", "c"] (by decide) (by decide)).1,
    rfl⟩


/-! ## The operators of `evaluateCondition` -/

/-- Claim C36: for every fieldValue and compareValue, and whatever DeepEqual
and the "%v" format answer, evaluateCondition with "notEquals" is the negation
of evaluateCondition with "equals", and evaluateCondition with "isNotEmpty" is
the negation of evaluateCondition with "isEmpty". -/
theorem evaluateCondition_complement (lib : GoLib)
    (fieldValue compareValue : Value) :
    evaluateCondition lib fieldValue "notEquals" compareValue
        = !evaluateCondition lib fieldValue "equals" compareValue
      ∧ evaluateCondition lib fieldValue "isNotEmpty" compareValue
        = !evaluateCondition lib fieldValue "isEmpty" compareValue := by
  constructor
  · have h1 : ("notEquals" = "equals") = False := by decide
    simp only [evaluateCondition, h1, if_true, if_false, Bool.not_or, bne]
  · have h1 : ("isNotEmpty" = "equals") = False := by decide
    have h2 : ("isNotEmpty" = "notEquals") = False := by decide
    have h3 : ("isNotEmpty" = "contains") = False := by decide
    have h4 : ("isNotEmpty" = "isEmpty") = False := by decide
    have h5 : ("isEmpty" = "equals") = False := by decide
    have h6 : ("isEmpty" = "notEquals") = False := by decide
    have h7 : ("isEmpty" = "contains") = False := by decide
    simp only [evaluateCondition, h1, h2, h3, h4, h5, h6, h7, if_true,
      if_false]
    cases fieldValue with
    | null => rfl
    | bool b => rfl
    | num n => rfl
    | str s => simp [bne]
    | arr a => cases a <;> simp
    | obj m => cases h : GoMap.keys m <;> simp [h]

/-! ## The if-condition task (`executeIfCondition`) -/

theorem conditionMessage_ne_empty (rest : String) :
    "条件不满足: " ++ rest ≠ "" := by
  intro h
  have h1 := congrArg String.length h
  rw [String.length_append] at h1
  have h2 : "条件不满足: ".length = 7 := by decide
  have h3 : "".length = 0 := by decide
  omega

/-- With a non-empty field, `executeIfCondition` is the evaluation of the
condition on the field value, followed by the choice of the output. -/
theorem executeIfCondition_eq (lib : GoLib) (order : List String)
    (input : TaskInput) (field : String)
    (hfield : input.get? "field" = some (Value.str field))
    (hne : field ≠ "") :
    executeIfCondition lib order input
      = if evaluateCondition lib
            (getNestedValue (resolvedData "sourceData" order input) field)
            (conditionOperator input) (input.getD "value" Value.null) = true
        then
          { Error := ""
            Data := Value.obj [
              ("condition", Value.bool true),
              ("field", Value.str field),
              ("operator", Value.str (conditionOperator input)),
              ("value", input.getD "value" Value.null),
              ("fieldValue",
                getNestedValue (resolvedData "sourceData" order input) field),
              ("message", Value.str "条件满足，继续执行")]
            Extra := [] }
        else
          { Error := "条件不满足: " ++ (field ++ (" " ++ (conditionOperator input
              ++ (" " ++ lib.sprint (input.getD "value" Value.null)))))
            Data := Value.obj [
              ("condition", Value.bool false),
              ("field", Value.str field),
              ("operator", Value.str (conditionOperator input)),
              ("value", input.getD "value" Value.null),
              ("fieldValue",
                getNestedValue (resolvedData "sourceData" order input) field)]
            Extra := [] } := by
  have hop : (if (match input.get? "operator" with
        | some (Value.str s) => s
        | _ => "") = "" then "equals"
      else (match input.get? "operator" with
        | some (Value.str s) => s
        | _ => "")) = conditionOperator input := by
    unfold conditionOperator
    cases input.get? "operator" with
    | none => rfl
    | some v => cases v <;> rfl
  have hsrc : (match input.getD "sourceData" Value.null with
      | Value.null =>
        match input.get? "$previous" with
        | some (Value.obj previous) => previousData previous order
        | _ => Value.null
      | v => v) = resolvedData "sourceData" order input := rfl
  have hval : ∀ v : Value, (match v with
      | Value.null => Value.null
      | v => getNestedValue v field) = getNestedValue v field := by
    intro v
    cases v <;> rfl
  unfold executeIfCondition
  simp only [hfield, hne, if_false, hop, hsrc, hval]
  cases evaluateCondition lib
    (getNestedValue (resolvedData "sourceData" order input) field)
    (conditionOperator input) (input.getD "value" Value.null)
  · simp [String.append_assoc]
  · simp


/-- Claim C33: for every input whose "field" is a non-empty string,
executeIfCondition returns an output with empty Error if and only if
evaluateCondition(fieldValue, operator, value) is true, where the operator is
"equals" when it is absent (or empty, or not a string) and fieldValue is the
nested value of the field in the source data; when the condition is false the
output is a failure whose Data has condition=false. For every input whose
"field" is missing, empty or not a string it returns Error "判断字段不能为空"
with nil Data. -/
theorem executeIfCondition_decides (lib : GoLib) (order : List String) :
    (∀ (input : TaskInput) (field : String),
        input.get? "field" = some (Value.str field) → field ≠ "" →
        ((executeIfCondition lib order input).Error = ""
            ↔ evaluateCondition lib
                (getNestedValue (resolvedData "sourceData" order input) field)
                (conditionOperator input) (input.getD "value" Value.null)
              = true)
          ∧ (evaluateCondition lib
                (getNestedValue (resolvedData "sourceData" order input) field)
                (conditionOperator input) (input.getD "value" Value.null)
              = false →
              (executeIfCondition lib order input).Error ≠ ""
                ∧ (executeIfCondition lib order input).Data
                  = Value.obj [
                      ("condition", Value.bool false),
                      ("field", Value.str field),
                      ("operator", Value.str (conditionOperator input)),
                      ("value", input.getD "value" Value.null),
                      ("fieldValue",
                        getNestedValue (resolvedData "sourceData" order input) field)])
          ∧ (input.get? "operator" = none → conditionOperator input = "equals")
          ∧ (∀ s : String, input.get? "operator" = some (Value.str s) →
              s ≠ "" → conditionOperator input = s))
      ∧ ∀ input : TaskInput,
          (∀ s : String, input.get? "field" = some (Value.str s) → s = "") →
          executeIfCondition lib order input
            = { Error := "判断字段不能为空", Data := Value.null, Extra := [] } := by
  constructor
  · intro input field hfield hne
    have heq := executeIfCondition_eq lib order input field hfield hne
    refine ⟨?_, ?_, ?_, ?_⟩
    · rw [heq]
      constructor
      · intro h
        by_contra hc
        rw [if_neg hc] at h
        exact conditionMessage_ne_empty _ h
      · intro h
        rw [if_pos h]
    · intro h
      rw [heq, if_neg (by simp [h])]
      exact ⟨conditionMessage_ne_empty _, rfl⟩
    · intro h
      simp [conditionOperator, h]
    · intro s h hs
      simp [conditionOperator, h, hs]
  · intro input h
    unfold executeIfCondition
    cases hf : input.get? "field" with
    | none => rfl
    | some v =>
      cases v with
      | str s =>
        have := h s hf
        subst this
        rfl
      | null => rfl
      | bool b => rfl
      | num n => rfl
      | arr a => rfl
      | obj o => rfl

/-- Claim C33 at concrete inputs: the condition that `status` equals "ok"
holds on the source data {status: "ok"}, and the empty input has no field. -/
theorem executeIfCondition_decides_witness :
    ((executeIfCondition demoLib [] statusInput).Error = ""
        ↔ evaluateCondition demoLib
            (getNestedValue (resolvedData "sourceData" [] statusInput) "status")
            (conditionOperator statusInput)
            (statusInput.getD "value" Value.null) = true)
      ∧ evaluateCondition demoLib
          (getNestedValue (resolvedData "sourceData" [] statusInput) "status")
          (conditionOperator statusInput)
          (statusInput.getD "value" Value.null) = true
      ∧ executeIfCondition demoLib [] []
        = { Error := "判断字段不能为空", Data := Value.null, Extra := [] } :=
  ⟨((executeIfCondition_decides demoLib []).1 statusInput "status" rfl
      (by decide)).1,
    by decide,
    (executeIfCondition_decides demoLib []).2 []
      (fun s h => by simp [GoMap.get?] at h)⟩


/-! ## The data source of the transforms -/

/-- When the map `previous` has the single key `p`, with a record that has
data, the loop over `previous` finds that data. -/
theorem previousData_single (previous : GoMap Value) (order : List String)
    (p : String) (record : GoMap Value) (d : Value)
    (horder : IsVisitOrder order previous)
    (hkeys : GoMap.keys previous = [p])
    (hp : previous.get? p = some (Value.obj record))
    (hd : record.get? "data" = some d) :
    previousData previous order = d := by
  unfold IsVisitOrder at horder
  rw [hkeys] at horder
  rw [List.perm_singleton.1 horder]
  simp [previousData, hp, hd]

/-- When no record visited has non-nil data, the loop over `previous` leaves
the source data nil. -/
theorem previousData_null (previous : GoMap Value) (order : List String)
    (h : ∀ k ∈ order, ∀ record : GoMap Value,
      previous.get? k = some (Value.obj record) →
      record.getD "data" Value.null = Value.null) :
    previousData previous order = Value.null := by
  induction order with
  | nil => rfl
  | cons k rest ih =>
    have ih1 := ih (fun k1 hk1 => h k1 (List.mem_cons_of_mem _ hk1))
    unfold previousData
    cases hk : previous.get? k with
    | none => simpa using ih1
    | some v =>
      cases v with
      | obj record =>
        have hr := h k (List.mem_cons_self _ _) record hk
        cases hdata : GoMap.get? record "data" with
        | none => simpa [hdata] using ih1
        | some data =>
          simp only [GoMap.getD, hdata, Option.getD_some] at hr
          simpa [hdata] using hr
      | null => simpa using ih1
      | bool b => simpa using ih1
      | num n => simpa using ih1
      | str s => simpa using ih1
      | arr a => simpa using ih1

/-- The function `executeDataTransform` is the transform of the resolved
source data, or the error when that is nil. -/
theorem executeDataTransform_eq (order renameOrder : List String)
    (input : TaskInput) :
    executeDataTransform order renameOrder input
      = match resolvedData "sourceData" order input with
        | Value.null =>
          { Error := "没有可转换的数据", Data := Value.null, Extra := [] }
        | sourceData =>
          applyTransform renameOrder (transformOperation input) sourceData
            (input.getD "fields" Value.null) := by
  have hop : (if (match input.get? "operation" with
        | some (Value.str s) => s
        | _ => "") = "" then "extract"
      else (match input.get? "operation" with
        | some (Value.str s) => s
        | _ => "")) = transformOperation input := by
    unfold transformOperation
    cases input.get? "operation" with
    | none => rfl
    | some v => cases v <;> rfl
  have hsrc : (match input.getD "sourceData" Value.null with
      | Value.null =>
        match input.get? "$previous" with
        | some (Value.obj previous) => previousData previous order
        | _ => Value.null
      | v => v) = resolvedData "sourceData" order input := rfl
  unfold executeDataTransform
  simp only [hop, hsrc]

/-! ## Extracting and removing fields -/

theorem toStringSlice_names (names : List String) :
    toStringSlice (Value.arr (names.map Value.str))
      = (names, decide (names.length > 0)) := by
  have key : ∀ (l acc : List String),
      (l.map Value.str).foldl
        (fun (result : List String) item =>
          match item with
          | Value.str s => result ++ [s]
          | _ => result)
        acc = acc ++ l := by
    intro l
    induction l with
    | nil => intro acc; simp
    | cons s tl ih =>
      intro acc
      rw [List.map_cons, List.foldl_cons, ih]
      simp
  simp only [toStringSlice, key, List.nil_append]

theorem get?_extractLoop (sourceMap : GoMap Value) (k : String)
    (names : List String) :
    ∀ acc : GoMap Value,
      GoMap.get?
          (names.foldl
            (fun (result : GoMap Value) field =>
              match GoMap.get? sourceMap field with
              | some value => result.set field value
              | none => result)
            acc) k
        = if k ∈ names ∧ (sourceMap.get? k).isSome = true
          then sourceMap.get? k else acc.get? k := by
  induction names with
  | nil => intro acc; simp
  | cons a tl ih =>
    intro acc
    rw [List.foldl_cons, ih]
    by_cases hk : k ∈ tl ∧ (sourceMap.get? k).isSome = true
    · rw [if_pos hk, if_pos ⟨List.mem_cons_of_mem _ hk.1, hk.2⟩]
    · rw [if_neg hk]
      by_cases ha : a = k
      · subst ha
        cases hs : GoMap.get? sourceMap a with
        | none => simp [hs]
        | some v => simp [hs, GoMap.get?_set]
      · have hka : ¬ k = a := fun e => ha e.symm
        have hk2 : ¬ (k ∈ a :: tl ∧ (sourceMap.get? k).isSome = true) := by
          intro h
          rcases List.mem_cons.1 h.1 with e | e
          · exact hka e
          · exact hk ⟨e, h.2⟩
        rw [if_neg hk2]
        cases hs : GoMap.get? sourceMap a with
        | none => rfl
        | some v => simp [GoMap.get?_set, ha]

theorem getD_removeSet (k : String) (names : List String) :
    ∀ acc : GoMap Bool,
      GoMap.getD
          (names.foldl
            (fun (removeSet : GoMap Bool) field => removeSet.set field true)
            acc) k false
        = (decide (k ∈ names) || acc.getD k false) := by
  induction names with
  | nil => intro acc; simp
  | cons a tl ih =>
    intro acc
    rw [List.foldl_cons, ih]
    by_cases ha : a = k
    · subst ha
      simp [GoMap.getD, GoMap.get?_set]
    · have hka : ¬ k = a := fun e => ha e.symm
      simp [GoMap.getD, GoMap.get?_set, ha, hka]

theorem foldl_set_filter (P : String → Bool) (l : List (String × Value)) :
    ∀ acc : GoMap Value,
      l.foldl
          (fun (result : GoMap Value) kv =>
            if P kv.1 = true then result.set kv.1 kv.2 else result)
          acc
        = (l.filter (fun kv => P kv.1)).foldl
            (fun (result : GoMap Value) kv => result.set kv.1 kv.2) acc := by
  induction l with
  | nil => intro acc; rfl
  | cons hd tl ih =>
    intro acc
    rw [List.foldl_cons, ih]
    by_cases h : P hd.1 = true
    · rw [if_pos h]
      simp only [List.filter_cons, h, if_true, List.foldl_cons]
    · rw [if_neg h]
      simp only [List.filter_cons, h, Bool.false_eq_true, if_false]

theorem get?_filter_key (P : String → Bool) (l : List (String × Value))
    (k : String) :
    GoMap.get? (l.filter (fun kv => P kv.1)) k
      = if P k = true then GoMap.get? l k else none := by
  induction l with
  | nil => simp [GoMap.get?]
  | cons hd tl ih =>
    obtain ⟨a, b⟩ := hd
    by_cases h : P a = true
    · simp only [List.filter_cons, h, if_true]
      by_cases ha : a = k
      · subst ha
        simp [GoMap.get?, h]
      · simp only [GoMap.get?, if_neg ha, ih]
    · have hf : List.filter (fun kv => P kv.1) ((a, b) :: tl)
          = List.filter (fun kv => P kv.1) tl := by
        simp [List.filter_cons, h]
      rw [hf, ih]
      by_cases ha : a = k
      · subst ha
        simp [h]
      · simp only [GoMap.get?, if_neg ha]

theorem get?_removeLoop (sourceMap : GoMap Value) (P : String → Bool)
    (k : String) :
    GoMap.get?
        ((GoMap.range sourceMap).foldl
          (fun (result : GoMap Value) kv =>
            if P kv.1 = true then result.set kv.1 kv.2 else result)
          []) k
      = if P k = true then sourceMap.get? k else none := by
  rw [foldl_set_filter]
  have hnd : (((GoMap.range sourceMap).filter (fun kv => P kv.1)).map
      Prod.fst).Nodup :=
    (GoMap.keys_nodup sourceMap).sublist
      (List.Sublist.map _ (List.filter_sublist _))
  rw [get?_foldl_set _ _ hnd, get?_filter_key, GoMap.get?_range]
  simp [GoMap.get?]


/-- Claim C37: for every source mapping and every non-empty list of field
names, extractFields and removeFields both succeed; extractFields returns
exactly the source entries whose key is in the list, removeFields exactly
those whose key is not in the list; the two results have no key in common and
every source entry is in one of them. -/
theorem extractFields_removeFields_split (sourceMap : GoMap Value)
    (names : List String) (hne : names ≠ []) :
    ∃ picked rest : GoMap Value,
      extractFields (Value.obj sourceMap) (Value.arr (names.map Value.str))
          = { Error := "", Data := Value.obj picked, Extra := [] }
        ∧ removeFields (Value.obj sourceMap) (Value.arr (names.map Value.str))
          = { Error := "", Data := Value.obj rest, Extra := [] }
        ∧ (∀ k : String,
            picked.get? k = if k ∈ names then sourceMap.get? k else none)
        ∧ (∀ k : String,
            rest.get? k = if k ∈ names then none else sourceMap.get? k)
        ∧ (∀ k : String, k ∈ GoMap.keys picked → k ∉ GoMap.keys rest)
        ∧ (∀ k : String,
            k ∈ GoMap.keys sourceMap
              ↔ k ∈ GoMap.keys picked ∨ k ∈ GoMap.keys rest)
        ∧ ∀ k : String,
            sourceMap.get? k = (picked.get? k).or (rest.get? k) := by
  have hlen : 0 < names.length := List.length_pos.2 hne
  have hcond : ¬ ((!decide (names.length > 0)) = true ∨ names.length = 0) := by
    intro h
    rcases h with h | h
    · simp [hlen] at h
    · omega
  have hpicked : ∀ k : String,
      GoMap.get?
          (names.foldl
            (fun (result : GoMap Value) field =>
              match GoMap.get? sourceMap field with
              | some value => result.set field value
              | none => result)
            []) k
        = if k ∈ names then sourceMap.get? k else none := by
    intro k
    rw [get?_extractLoop]
    by_cases hk : k ∈ names
    · cases hs : GoMap.get? sourceMap k <;> simp [hk, GoMap.get?]
    · simp [hk, GoMap.get?]
  have hrest : ∀ k : String,
      GoMap.get?
          ((GoMap.range sourceMap).foldl
            (fun (result : GoMap Value) kv =>
              if (!GoMap.getD
                    (names.foldl
                      (fun (removeSet : GoMap Bool) field =>
                        removeSet.set field true) [])
                    kv.1 false) = true
              then result.set kv.1 kv.2 else result)
            []) k
        = if k ∈ names then none else sourceMap.get? k := by
    intro k
    rw [get?_removeLoop sourceMap
      (fun x => !GoMap.getD
        (names.foldl
          (fun (removeSet : GoMap Bool) field => removeSet.set field true) [])
        x false) k]
    simp only [getD_removeSet]
    by_cases hk : k ∈ names <;> simp [hk, GoMap.getD, GoMap.get?]
  refine ⟨_, _, ?_, ?_, hpicked, hrest, ?_, ?_, ?_⟩
  · simp only [extractFields, toStringSlice_names, hcond, if_false]
  · simp only [removeFields, toStringSlice_names, hcond, if_false]
  · intro k hk1 hk2
    rw [GoMap.mem_keys_iff, hpicked] at hk1
    rw [GoMap.mem_keys_iff, hrest] at hk2
    by_cases hk : k ∈ names
    · simp [hk] at hk2
    · simp [hk] at hk1
  · intro k
    rw [GoMap.mem_keys_iff, GoMap.mem_keys_iff, GoMap.mem_keys_iff, hpicked,
      hrest]
    by_cases hk : k ∈ names <;> simp [hk]
  · intro k
    rw [hpicked, hrest]
    by_cases hk : k ∈ names <;> simp [hk]

/-- Claim C37 on the source `{id: 1, name: "n"}` and the field list
`["name"]`: extractFields keeps `name`, removeFields keeps `id`. -/
theorem extractFields_removeFields_split_witness :
    (∃ picked rest : GoMap Value,
      extractFields (Value.obj [("id", Value.num 1), ("name", Value.str "n")])
          (Value.arr (["name"].map Value.str))
          = { Error := "", Data := Value.obj picked, Extra := [] }
        ∧ removeFields
            (Value.obj [("id", Value.num 1), ("name", Value.str "n")])
            (Value.arr (["name"].map Value.str))
          = { Error := "", Data := Value.obj rest, Extra := [] }
        ∧ (∀ k : String,
            picked.get? k = if k ∈ ["name"]
              then GoMap.get? [("id", Value.num 1), ("name", Value.str "n")] k
              else none)
        ∧ (∀ k : String,
            rest.get? k = if k ∈ ["name"] then none
              else GoMap.get? [("id", Value.num 1), ("name", Value.str "n")] k)
        ∧ (∀ k : String, k ∈ GoMap.keys picked → k ∉ GoMap.keys rest)
        ∧ (∀ k : String,
            k ∈ GoMap.keys [("id", Value.num 1), ("name", Value.str "n")]
              ↔ k ∈ GoMap.keys picked ∨ k ∈ GoMap.keys rest)
        ∧ ∀ k : String,
            GoMap.get? [("id", Value.num 1), ("name", Value.str "n")] k
              = (picked.get? k).or (rest.get? k))
      ∧ extractFields
          (Value.obj [("id", Value.num 1), ("name", Value.str "n")])
          (Value.arr [Value.str "name"])
        = { Error := "", Data := Value.obj [("name", Value.str "n")],
            Extra := [] }
      ∧ removeFields
          (Value.obj [("id", Value.num 1), ("name", Value.str "n")])
          (Value.arr [Value.str "name"])
        = { Error := "", Data := Value.obj [("id", Value.num 1)],
            Extra := [] } :=
  ⟨extractFields_removeFields_split
      [("id", Value.num 1), ("name", Value.str "n")] ["name"] (by decide),
    rfl, rfl⟩


/-! ## The hand-written substring search (`contains`, `findSubstring`) -/

theorem occursIn_iff_window {α : Type} (substr s : List α) :
    OccursIn substr s
      ↔ ∃ i : Nat, i + substr.length ≤ s.length
          ∧ (s.drop i).take substr.length = substr := by
  constructor
  · rintro ⟨front, back, rfl⟩
    refine ⟨front.length, ?_, ?_⟩
    · simp only [List.length_append]
      omega
    · rw [List.append_assoc, List.drop_left, List.take_left]
  · rintro ⟨i, _, hi⟩
    refine ⟨s.take i, (s.drop i).drop substr.length, ?_⟩
    have h1 : (s.drop i).take substr.length
        ++ (s.drop i).drop substr.length = s.drop i :=
      List.take_append_drop _ _
    rw [hi] at h1
    rw [List.append_assoc, h1, List.take_append_drop]

theorem findSubstringAt_spec {α : Type} [DecidableEq α] (s substr : List α)
    (idxs : List Nat) (hin : ∀ i ∈ idxs, i + substr.length ≤ s.length) :
    ∃ b : Bool, findSubstringAt s substr idxs = some b
      ∧ (b = true
        ↔ ∃ i ∈ idxs, (s.drop i).take substr.length = substr) := by
  induction idxs with
  | nil => exact ⟨false, rfl, by simp⟩
  | cons i rest ih =>
    obtain ⟨b, hb, hiff⟩ := ih (fun j hj => hin j (List.mem_cons_of_mem _ hj))
    have hi := hin i (List.mem_cons_self _ _)
    have hslice : sliceBytes s i (i + substr.length)
        = some ((s.drop i).take substr.length) := by
      unfold sliceBytes
      rw [if_pos ⟨by omega, hi⟩]
      congr 2
      omega
    by_cases hw : (s.drop i).take substr.length = substr
    · refine ⟨true, ?_, ?_⟩
      · simp only [findSubstringAt, hslice, hw, if_true]
      · simp only [true_iff]
        exact ⟨i, List.mem_cons_self _ _, hw⟩
    · refine ⟨b, ?_, ?_⟩
      · simp only [findSubstringAt, hslice, hw, if_false, hb]
      · rw [hiff]
        constructor
        · rintro ⟨j, hj, hjw⟩
          exact ⟨j, List.mem_cons_of_mem _ hj, hjw⟩
        · rintro ⟨j, hj, hjw⟩
          rcases List.mem_cons.1 hj with e | e
          · subst e
            exact absurd hjw hw
          · exact ⟨j, e, hjw⟩

/-- The function `findSubstring` takes no slice out of range, and answers
whether `substr` occurs in `s`. -/
theorem findSubstring_spec {α : Type} [DecidableEq α] (s substr : List α) :
    ∃ b : Bool, findSubstring s substr = some b
      ∧ (b = true ↔ OccursIn substr s) := by
  obtain ⟨b, hb, hiff⟩ := findSubstringAt_spec s substr
    (List.range ((s.length : Int) - (substr.length : Int) + 1).toNat)
    (by
      intro i hi
      rw [List.mem_range] at hi
      omega)
  refine ⟨b, hb, ?_⟩
  rw [hiff, occursIn_iff_window]
  constructor
  · rintro ⟨i, hi, hw⟩
    rw [List.mem_range] at hi
    exact ⟨i, by omega, hw⟩
  · rintro ⟨i, hi, hw⟩
    exact ⟨i, by rw [List.mem_range]; omega, hw⟩

theorem occursIn_length_le {α : Type} (substr s : List α)
    (h : OccursIn substr s) : substr.length ≤ s.length := by
  obtain ⟨front, back, rfl⟩ := h
  simp only [List.length_append]
  omega

/-- The function `contains` never panics and answers whether `substr` occurs
in `s`. -/
theorem contains_eq {α : Type} [DecidableEq α] (s substr : List α) :
    ∃ b : Bool, contains s substr = some b
      ∧ (b = true ↔ OccursIn substr s) := by
  unfold contains
  by_cases hlen : s.length ≥ substr.length
  · rw [if_pos hlen]
    by_cases heq : s = substr
    · rw [if_pos heq]
      exact ⟨true, rfl, by simp only [true_iff]; exact ⟨[], [], by simp [heq]⟩⟩
    · rw [if_neg heq]
      by_cases h0 : substr.length = 0
      · rw [if_pos h0]
        have : substr = [] := List.length_eq_zero.1 h0
        exact ⟨true, rfl,
          by simp only [true_iff]; exact ⟨[], s, by simp [this]⟩⟩
      · rw [if_neg h0, if_pos ⟨by omega, by omega⟩]
        exact findSubstring_spec s substr
  · rw [if_neg hlen]
    refine ⟨false, rfl, ?_⟩
    constructor
    · intro h
      cases h
    · intro h
      exact absurd (occursIn_length_le substr s h) hlen

/-- Claim C39: for all strings s and substr, as sequences of bytes (or of
any other symbols), contains(s, substr) returns true if and only if substr
occurs as a contiguous part of s; it is true for every s when substr is empty
and false when substr is longer than s; and findSubstring takes no slice
outside s, on any two strings. -/
theorem contains_spec {α : Type} [DecidableEq α] (s substr : List α) :
    (∃ b : Bool, contains s substr = some b)
      ∧ (contains s substr = some true ↔ OccursIn substr s)
      ∧ (contains s substr = some false ↔ ¬ OccursIn substr s)
      ∧ contains s ([] : List α) = some true
      ∧ (s.length < substr.length → contains s substr = some false)
      ∧ ∃ b : Bool, findSubstring s substr = some b
          ∧ (b = true ↔ OccursIn substr s) := by
  obtain ⟨b, hb, hiff⟩ := contains_eq s substr
  refine ⟨⟨b, hb⟩, ?_, ?_, ?_, ?_, findSubstring_spec s substr⟩
  · rw [hb, ← hiff]
    simp
  · rw [hb, ← hiff]
    simp
  · obtain ⟨b0, hb0, hiff0⟩ := contains_eq s ([] : List α)
    have : b0 = true := hiff0.2 ⟨[], s, by simp⟩
    rw [hb0, this]
  · intro hlt
    have hno : ¬ OccursIn substr s := fun h =>
      absurd (occursIn_length_le substr s h) (by omega)
    cases b with
    | true => exact absurd (hiff.1 rfl) hno
    | false => exact hb


/-- The search on the bytes of two strings: "ell" is within "hello", "lo!"
is not. -/
theorem contains_example :
    contains (utf8Bytes "hello") (utf8Bytes "ell") = some true
      ∧ contains (utf8Bytes "hello") (utf8Bytes "lo!") = some false
      ∧ contains (utf8Bytes "hello") (utf8Bytes "") = some true
      ∧ contains (utf8Bytes "hi") (utf8Bytes "hello") = some false := by
  decide

/-! ## The filter task (`executeFilter`) -/

theorem matchesCondition_total (lib : GoLib) (fieldValue : Value)
    (operator : String) (compareValue : Value) :
    ∃ b : Bool,
      matchesCondition lib fieldValue operator compareValue = some b := by
  unfold matchesCondition
  split
  · exact ⟨_, rfl⟩
  · split
    · exact ⟨_, rfl⟩
    · split
      · split
        · exact Exists.imp (fun _ h => h.1) (contains_eq _ _)
        · exact ⟨_, rfl⟩
      · split
        · split <;> exact ⟨_, rfl⟩
        · split <;> exact ⟨_, rfl⟩


theorem filterLoop_spec (lib : GoLib) (field operator : String)
    (value : Value) (items : List Value) :
    ∀ result : List Value,
      filterLoop lib field operator value items result
        = some (result
            ++ items.filter (itemMatches lib field operator value)) := by
  induction items with
  | nil => intro result; simp [filterLoop]
  | cons item rest ih =>
    intro result
    cases item with
    | obj itemMap =>
      obtain ⟨b, hb⟩ := matchesCondition_total lib
        (GoMap.getD itemMap field Value.null) operator value
      cases b with
      | true =>
        have hk : itemMatches lib field operator value (Value.obj itemMap)
            = true := by
          simp [itemMatches, hb]
        simp only [filterLoop, hb, ih, List.filter_cons, hk, if_true,
          List.append_assoc, List.singleton_append]
      | false =>
        have hk : itemMatches lib field operator value (Value.obj itemMap)
            = false := by
          simp [itemMatches, hb]
        simp only [filterLoop, hb, ih, List.filter_cons, hk,
          Bool.false_eq_true, if_false]
    | null => simp [filterLoop, ih, List.filter_cons, itemMatches]
    | bool b => simp [filterLoop, ih, List.filter_cons, itemMatches]
    | num n => simp [filterLoop, ih, List.filter_cons, itemMatches]
    | str s => simp [filterLoop, ih, List.filter_cons, itemMatches]
    | arr a => simp [filterLoop, ih, List.filter_cons, itemMatches]

/-- The function `executeFilter` on the data it resolves: the filtered array
with its two counts, or the error when the data is not an array. -/
theorem executeFilter_eq (lib : GoLib) (order : List String)
    (input : TaskInput) :
    executeFilter lib order input
      = match resolvedData "data" order input with
        | Value.arr arr =>
          some
            { Error := ""
              Data := Value.obj [
                ("filtered", Value.arr (arr.filter (filterKeeps lib input))),
                ("count",
                  Value.num (arr.filter (filterKeeps lib input)).length),
                ("original", Value.num arr.length)]
              Extra := [] }
        | _ =>
          some { Error := "数据必须是数组类型", Data := Value.null, Extra := [] }
    := by
  have hsrc : (match input.getD "data" Value.null with
      | Value.null =>
        match input.get? "$previous" with
        | some (Value.obj previous) => previousData previous order
        | _ => Value.null
      | v => v) = resolvedData "data" order input := rfl
  unfold executeFilter
  simp only [hsrc]
  cases resolvedData "data" order input with
  | arr arr =>
    simp only [filterLoop_spec, List.nil_append]
    rfl
  | null => rfl
  | bool b => rfl
  | num n => rfl
  | str s => rfl
  | obj m => rfl


/-- Claim C38, amended: executeFilter works on the data it resolves, which
is input["data"] when that is not nil, and otherwise the data that the loop
over "$previous" finds. When the resolved data is an array, as it is when
input["data"] is one, executeFilter succeeds and returns "filtered" as the
subsequence (original order kept) of exactly those array items that are
mappings and whose value at "field" satisfies matchesCondition(operator,
value), with "count" the length of "filtered", "original" the length of the
array, and count ≤ original. When the resolved data is not an array it
returns Error "数据必须是数组类型" with nil Data. It never panics. -/
theorem executeFilter_spec (lib : GoLib) (order : List String)
    (input : TaskInput) :
    (∀ arr : List Value, resolvedData "data" order input = Value.arr arr →
        executeFilter lib order input
            = some
                { Error := ""
                  Data := Value.obj [
                    ("filtered",
                      Value.arr (arr.filter (filterKeeps lib input))),
                    ("count",
                      Value.num (arr.filter (filterKeeps lib input)).length),
                    ("original", Value.num arr.length)]
                  Extra := [] }
          ∧ (arr.filter (filterKeeps lib input)).Sublist arr
          ∧ (∀ item : Value, item ∈ arr.filter (filterKeeps lib input)
              ↔ item ∈ arr ∧ filterKeeps lib input item = true)
          ∧ (arr.filter (filterKeeps lib input)).length ≤ arr.length)
      ∧ (∀ v : Value, input.get? "data" = some v → v ≠ Value.null →
          resolvedData "data" order input = v)
      ∧ (input.getD "data" Value.null = Value.null →
          ∀ previous : GoMap Value,
            input.get? "$previous" = some (Value.obj previous) →
            resolvedData "data" order input = previousData previous order)
      ∧ ((∀ arr : List Value,
            resolvedData "data" order input ≠ Value.arr arr) →
          executeFilter lib order input
            = some { Error := "数据必须是数组类型", Data := Value.null,
                     Extra := [] })
      ∧ ∃ output : TaskOutput, executeFilter lib order input = some output := by
  refine ⟨?_, ?_, ?_, ?_, ?_⟩
  · intro arr harr
    refine ⟨?_, List.filter_sublist _, ?_, List.length_filter_le _ _⟩
    · rw [executeFilter_eq, harr]
    · intro item
      rw [List.mem_filter]
  · intro v hv hne
    unfold resolvedData
    simp only [GoMap.getD, hv, Option.getD_some]
  · intro hnil previous hprev
    unfold resolvedData
    rw [hnil]
    simp only [hprev]
  · intro hno
    rw [executeFilter_eq]
    cases h : resolvedData "data" order input with
    | arr arr => exact absurd h (hno arr)
    | null => rfl
    | bool b => rfl
    | num n => rfl
    | str s => rfl
    | obj m => rfl
  · rw [executeFilter_eq]
    cases resolvedData "data" order input <;> exact ⟨_, rfl⟩

/-- Claim C38 at a concrete input with its own data `[{x: 1}, 5]`: the item
`{x: 1}` is kept, the item 5 is not a mapping. -/
theorem executeFilter_spec_witness :
    (executeFilter demoLib [] filterOwnInput
        = some
            { Error := ""
              Data := Value.obj [
                ("filtered",
                  Value.arr
                    ([Value.obj [("x", Value.num 1)], Value.num 5].filter
                      (filterKeeps demoLib filterOwnInput))),
                ("count",
                  Value.num
                    ([Value.obj [("x", Value.num 1)], Value.num 5].filter
                      (filterKeeps demoLib filterOwnInput)).length),
                ("original",
                  Value.num
                    [Value.obj [("x", Value.num 1)], Value.num 5].length)]
              Extra := [] }
      ∧ ([Value.obj [("x", Value.num 1)], Value.num 5].filter
            (filterKeeps demoLib filterOwnInput)).Sublist
          [Value.obj [("x", Value.num 1)], Value.num 5]
      ∧ (∀ item : Value,
          item ∈ [Value.obj [("x", Value.num 1)], Value.num 5].filter
              (filterKeeps demoLib filterOwnInput)
            ↔ item ∈ [Value.obj [("x", Value.num 1)], Value.num 5]
              ∧ filterKeeps demoLib filterOwnInput item = true)
      ∧ ([Value.obj [("x", Value.num 1)], Value.num 5].filter
            (filterKeeps demoLib filterOwnInput)).length
          ≤ [Value.obj [("x", Value.num 1)], Value.num 5].length)
      ∧ ([Value.obj [("x", Value.num 1)], Value.num 5].filter
            (filterKeeps demoLib filterOwnInput)).length = 1
      ∧ executeFilter demoLib [] [("data", Value.str "no array")]
        = some { Error := "数据必须是数组类型", Data := Value.null,
                 Extra := [] } :=
  ⟨(executeFilter_spec demoLib [] filterOwnInput).1
      [Value.obj [("x", Value.num 1)], Value.num 5] rfl,
    by decide,
    (executeFilter_spec demoLib [] [("data", Value.str "no array")]).2.2.2.1
      (fun arr h => by cases h)⟩

/-- Claim C38 as stated fails for an input without `data`: the input has no
array under "data", yet executeFilter returns no Error; it filters the array
`[{x: 1}, 5, {y: 2}]` that the predecessor A left under "$previous". -/
theorem executeFilter_spec_counterexample :
    (GoMap.get? filterInput "data").isNone = true
      ∧ (executeFilter demoLib ["A"] filterInput).map (fun o => o.Error)
        = some ""
      ∧ (executeFilter demoLib ["A"] filterInput).isSome = true
      ∧ executeFilter demoLib ["A"] filterInput
        = some
            { Error := ""
              Data := Value.obj [
                ("filtered", Value.arr [Value.obj [("x", Value.num 1)]]),
                ("count", Value.num 1),
                ("original", Value.num 3)]
              Extra := [] } :=
  ⟨rfl, by decide, rfl, rfl⟩

/-! ## What the transforms return -/

theorem get?_copyBoth (sourceMap second : GoMap Value) (k : String) :
    (copyBoth sourceMap second).get? k
      = (second.get? k).or (sourceMap.get? k) := by
  unfold copyBoth
  rw [get?_foldl_set _ _ (GoMap.keys_nodup second), GoMap.get?_range,
    get?_copyConfig]

theorem fieldList_cond (names : List String) (hne : names ≠ []) :
    ¬ ((!decide (names.length > 0)) = true ∨ names.length = 0) := by
  have hlen : 0 < names.length := List.length_pos.2 hne
  intro h
  rcases h with h | h
  · simp [hlen] at h
  · omega

theorem extractFields_eq (sourceMap : GoMap Value) (names : List String)
    (hne : names ≠ []) :
    extractFields (Value.obj sourceMap) (Value.arr (names.map Value.str))
      = { Error := ""
          Data := Value.obj (names.foldl
            (fun (result : GoMap Value) field =>
              match GoMap.get? sourceMap field with
              | some value => result.set field value
              | none => result)
            [])
          Extra := [] } := by
  simp only [extractFields, toStringSlice_names, fieldList_cond names hne,
    if_false]

theorem get?_extractResult (sourceMap : GoMap Value) (names : List String)
    (k : String) :
    GoMap.get?
        (names.foldl
          (fun (result : GoMap Value) field =>
            match GoMap.get? sourceMap field with
            | some value => result.set field value
            | none => result)
          []) k
      = if k ∈ names then sourceMap.get? k else none := by
  rw [get?_extractLoop]
  by_cases hk : k ∈ names
  · cases hs : GoMap.get? sourceMap k <;> simp [hk, GoMap.get?]
  · simp [hk, GoMap.get?]

theorem removeFields_eq (sourceMap : GoMap Value) (names : List String)
    (hne : names ≠ []) :
    removeFields (Value.obj sourceMap) (Value.arr (names.map Value.str))
      = { Error := ""
          Data := Value.obj ((GoMap.range sourceMap).foldl
            (fun (result : GoMap Value) kv =>
              if (!GoMap.getD
                    (names.foldl
                      (fun (removeSet : GoMap Bool) field =>
                        removeSet.set field true) [])
                    kv.1 false) = true
              then result.set kv.1 kv.2 else result)
            [])
          Extra := [] } := by
  simp only [removeFields, toStringSlice_names, fieldList_cond names hne,
    if_false]

theorem get?_removeResult (sourceMap : GoMap Value) (names : List String)
    (k : String) :
    GoMap.get?
        ((GoMap.range sourceMap).foldl
          (fun (result : GoMap Value) kv =>
            if (!GoMap.getD
                  (names.foldl
                    (fun (removeSet : GoMap Bool) field =>
                      removeSet.set field true) [])
                  kv.1 false) = true
            then result.set kv.1 kv.2 else result)
          []) k
      = if k ∈ names then none else sourceMap.get? k := by
  rw [get?_removeLoop sourceMap
    (fun x => !GoMap.getD
      (names.foldl
        (fun (removeSet : GoMap Bool) field => removeSet.set field true) [])
      x false) k]
  simp only [getD_removeSet]
  by_cases hk : k ∈ names <;> simp [hk, GoMap.getD, GoMap.get?]

/-- The loop of `renameFields` leaves a name alone under which it stores no
source entry. -/
theorem get?_renameLoop_other (sourceMap fieldMap : GoMap Value) (n : String)
    (l : List String) :
    ∀ acc : GoMap Value,
      (∀ k ∈ l, (sourceMap.get? k).isSome = true → newNameOf fieldMap k ≠ n) →
      GoMap.get?
          (l.foldl
            (fun (result : GoMap Value) k =>
              match GoMap.get? sourceMap k with
              | some v => result.set (newNameOf fieldMap k) v
              | none => result)
            acc) n
        = acc.get? n := by
  induction l with
  | nil => intro acc _; rfl
  | cons a tl ih =>
    intro acc h
    rw [List.foldl_cons,
      ih _ (fun k hk => h k (List.mem_cons_of_mem _ hk))]
    cases hs : GoMap.get? sourceMap a with
    | none => rfl
    | some v =>
      have := h a (List.mem_cons_self _ _) (by simp [hs])
      simp only [GoMap.get?_set, if_neg this]

/-- The loop of `renameFields` stores every source entry it visits under its
new name, when no two visited keys get the same name. -/
theorem get?_renameLoop_hit (sourceMap fieldMap : GoMap Value)
    (l : List String) (hnd : l.Nodup)
    (hinj : ∀ a ∈ l, ∀ b ∈ l,
      newNameOf fieldMap a = newNameOf fieldMap b → a = b) :
    ∀ (acc : GoMap Value) (k : String), k ∈ l →
      (sourceMap.get? k).isSome = true →
      GoMap.get?
          (l.foldl
            (fun (result : GoMap Value) k =>
              match GoMap.get? sourceMap k with
              | some v => result.set (newNameOf fieldMap k) v
              | none => result)
            acc) (newNameOf fieldMap k)
        = sourceMap.get? k := by
  induction l with
  | nil => intro acc k hk; cases hk
  | cons a tl ih =>
    intro acc k hk hsome
    have hnd2 := List.nodup_cons.1 hnd
    rw [List.foldl_cons]
    rcases List.mem_cons.1 hk with e | e
    · subst e
      rw [get?_renameLoop_other]
      · obtain ⟨v, hv⟩ := Option.isSome_iff_exists.1 hsome
        simp only [hv, GoMap.get?_set, if_true]
      · intro b hb _ hname
        have := hinj b (List.mem_cons_of_mem _ hb) k (List.mem_cons_self _ _)
          hname
        exact hnd2.1 (this ▸ hb)
    · exact ih hnd2.2
        (fun x hx y hy => hinj x (List.mem_cons_of_mem _ hx) y
          (List.mem_cons_of_mem _ hy)) _ k e hsome

theorem renameFields_eq (order : List String)
    (sourceMap fieldMap : GoMap Value) (hne : GoMap.keys fieldMap ≠ []) :
    renameFields order (Value.obj sourceMap) (Value.obj fieldMap)
      = { Error := ""
          Data := Value.obj (order.foldl
            (fun (result : GoMap Value) k =>
              match GoMap.get? sourceMap k with
              | some v => result.set (newNameOf fieldMap k) v
              | none => result)
            [])
          Extra := [] } := by
  have hlen : ¬ (GoMap.keys fieldMap).length = 0 := by
    intro h
    exact hne (List.length_eq_zero.1 h)
  have hstep : (fun (result : GoMap Value) k =>
        match GoMap.get? sourceMap k with
        | some v =>
          match GoMap.get? fieldMap k with
          | some (Value.str newName) => result.set newName v
          | _ => result.set k v
        | none => result)
      = (fun (result : GoMap Value) k =>
        match GoMap.get? sourceMap k with
        | some v => result.set (newNameOf fieldMap k) v
        | none => result) := by
    funext result k
    cases GoMap.get? sourceMap k with
    | none => rfl
    | some v =>
      unfold newNameOf
      cases GoMap.get? fieldMap k with
      | none => rfl
      | some w => cases w <;> rfl
  simp only [renameFields, hlen, if_false, hstep]



theorem applyTransform_unknown (renameOrder : List String)
    (operation : String) (sourceData fields : Value)
    (hop : operation ∉ ["extract", "rename", "add", "remove", "merge"]) :
    applyTransform renameOrder operation sourceData fields
      = { Error := "未知的转换操作: " ++ operation, Data := Value.null,
          Extra := [] } := by
  simp only [List.mem_cons, List.mem_singleton, List.not_mem_nil, or_false,
    not_or] at hop
  simp only [applyTransform, hop.1, hop.2.1, hop.2.2.1, hop.2.2.2.1,
    hop.2.2.2.2, if_false]

/-- Claim C35: for every input, executeDataTransform transforms
input["sourceData"] when it is non-nil; when it is nil and "$previous" holds
exactly one predecessor record, whose data is non-nil, it transforms that
data; when "sourceData" is nil and "$previous" is absent, is not a mapping, or
has no record with non-nil data, it returns Error "没有可转换的数据" with nil
Data. To transform the data is to apply the operation of the input to it
("extract" when none is given): "extract" keeps the source entries named in
the field list, "remove" keeps the others, "add" and "merge" copy the source
entries and then the given fields over them, "rename" stores every source
entry under its new name, and any other operation is an error. -/
theorem executeDataTransform_source (order renameOrder : List String)
    (input : TaskInput) :
    (∀ v : Value, input.get? "sourceData" = some v → v ≠ Value.null →
        executeDataTransform order renameOrder input
          = applyTransform renameOrder (transformOperation input) v
              (input.getD "fields" Value.null))
      ∧ (∀ (previous : GoMap Value) (p : String) (record : GoMap Value)
          (d : Value),
          input.getD "sourceData" Value.null = Value.null →
          input.get? "$previous" = some (Value.obj previous) →
          IsVisitOrder order previous →
          GoMap.keys previous = [p] →
          previous.get? p = some (Value.obj record) →
          record.get? "data" = some d → d ≠ Value.null →
          executeDataTransform order renameOrder input
            = applyTransform renameOrder (transformOperation input) d
                (input.getD "fields" Value.null))
      ∧ (input.getD "sourceData" Value.null = Value.null →
          (∀ previous : GoMap Value,
            input.get? "$previous" = some (Value.obj previous) →
            ∀ k ∈ order, ∀ record : GoMap Value,
              previous.get? k = some (Value.obj record) →
              record.getD "data" Value.null = Value.null) →
          executeDataTransform order renameOrder input
            = { Error := "没有可转换的数据", Data := Value.null,
                Extra := [] })
      ∧ (input.get? "operation" = none → transformOperation input = "extract")
      ∧ (∀ s : String, input.get? "operation" = some (Value.str s) →
          s ≠ "" → transformOperation input = s)
      ∧ (∀ (sourceMap : GoMap Value) (names : List String), names ≠ [] →
          ∃ result : GoMap Value,
            applyTransform renameOrder "extract" (Value.obj sourceMap)
                (Value.arr (names.map Value.str))
              = { Error := "", Data := Value.obj result, Extra := [] }
              ∧ ∀ k : String, result.get? k
                  = if k ∈ names then sourceMap.get? k else none)
      ∧ (∀ (sourceMap : GoMap Value) (names : List String), names ≠ [] →
          ∃ result : GoMap Value,
            applyTransform renameOrder "remove" (Value.obj sourceMap)
                (Value.arr (names.map Value.str))
              = { Error := "", Data := Value.obj result, Extra := [] }
              ∧ ∀ k : String, result.get? k
                  = if k ∈ names then none else sourceMap.get? k)
      ∧ (∀ (sourceData : Value) (fieldMap : GoMap Value),
          GoMap.keys fieldMap ≠ [] →
          ∃ result : GoMap Value,
            applyTransform renameOrder "add" sourceData (Value.obj fieldMap)
              = { Error := "", Data := Value.obj result, Extra := [] }
              ∧ ∀ k : String, result.get? k
                  = (fieldMap.get? k).or ((sourceMapOf sourceData).get? k))
      ∧ (∀ (sourceData : Value) (mergeMap : GoMap Value),
          ∃ result : GoMap Value,
            applyTransform renameOrder "merge" sourceData (Value.obj mergeMap)
              = { Error := "", Data := Value.obj result, Extra := [] }
              ∧ ∀ k : String, result.get? k
                  = (mergeMap.get? k).or ((sourceMapOf sourceData).get? k))
      ∧ (∀ sourceMap fieldMap : GoMap Value, GoMap.keys fieldMap ≠ [] →
          IsVisitOrder renameOrder sourceMap →
          (∀ a ∈ GoMap.keys sourceMap, ∀ b ∈ GoMap.keys sourceMap,
            newNameOf fieldMap a = newNameOf fieldMap b → a = b) →
          ∃ result : GoMap Value,
            applyTransform renameOrder "rename" (Value.obj sourceMap)
                (Value.obj fieldMap)
              = { Error := "", Data := Value.obj result, Extra := [] }
              ∧ (∀ k ∈ GoMap.keys sourceMap,
                  result.get? (newNameOf fieldMap k) = sourceMap.get? k)
              ∧ ∀ n : String,
                  (∀ k ∈ GoMap.keys sourceMap, newNameOf fieldMap k ≠ n) →
                  result.get? n = none)
      ∧ ∀ (operation : String) (sourceData fields : Value),
          operation ∉ ["extract", "rename", "add", "remove", "merge"] →
          applyTransform renameOrder operation sourceData fields
            = { Error := "未知的转换操作: " ++ operation, Data := Value.null,
                Extra := [] } := by
  refine ⟨?_, ?_, ?_, ?_, ?_, ?_, ?_, ?_, ?_, ?_,
    applyTransform_unknown renameOrder⟩
  · intro v hv hne
    rw [executeDataTransform_eq]
    have : resolvedData "sourceData" order input = v := by
      unfold resolvedData
      simp only [GoMap.getD, hv, Option.getD_some]
    rw [this]
    cases v <;> first | rfl | exact absurd rfl hne
  · intro previous p record d hsrc hprev horder hkeys hp hd hne
    rw [executeDataTransform_eq]
    have : resolvedData "sourceData" order input = d := by
      unfold resolvedData
      rw [hsrc]
      simp only [hprev]
      exact previousData_single previous order p record d horder hkeys hp hd
    rw [this]
    cases d <;> first | rfl | exact absurd rfl hne
  · intro hsrc hnone
    rw [executeDataTransform_eq]
    have : resolvedData "sourceData" order input = Value.null := by
      unfold resolvedData
      rw [hsrc]
      cases hprev : input.get? "$previous" with
      | none => rfl
      | some v =>
        cases v with
        | obj previous =>
          exact previousData_null previous order (hnone previous hprev)
        | null => rfl
        | bool b => rfl
        | num n => rfl
        | str s => rfl
        | arr a => rfl
    rw [this]
  · intro h
    simp [transformOperation, h]
  · intro s h hs
    simp [transformOperation, h, hs]
  · intro sourceMap names hne
    have h : applyTransform renameOrder "extract" (Value.obj sourceMap)
        (Value.arr (names.map Value.str))
        = extractFields (Value.obj sourceMap)
            (Value.arr (names.map Value.str)) := rfl
    exact ⟨_, h.trans (extractFields_eq sourceMap names hne),
      get?_extractResult sourceMap names⟩
  · intro sourceMap names hne
    have h : applyTransform renameOrder "remove" (Value.obj sourceMap)
        (Value.arr (names.map Value.str))
        = removeFields (Value.obj sourceMap)
            (Value.arr (names.map Value.str)) := rfl
    exact ⟨_, h.trans (removeFields_eq sourceMap names hne),
      get?_removeResult sourceMap names⟩
  · intro sourceData fieldMap hne
    have hlen : ¬ (GoMap.keys fieldMap).length = 0 := fun h =>
      hne (List.length_eq_zero.1 h)
    have h : applyTransform renameOrder "add" sourceData (Value.obj fieldMap)
        = { Error := ""
            Data := Value.obj (copyBoth (sourceMapOf sourceData) fieldMap)
            Extra := [] } := by
      have h0 : applyTransform renameOrder "add" sourceData
          (Value.obj fieldMap) = addFields sourceData (Value.obj fieldMap) :=
        rfl
      rw [h0]
      simp only [addFields, hlen, if_false]
      rfl
    exact ⟨_, h, get?_copyBoth _ _⟩
  · intro sourceData mergeMap
    have h : applyTransform renameOrder "merge" sourceData
        (Value.obj mergeMap)
        = { Error := ""
            Data := Value.obj (copyBoth (sourceMapOf sourceData) mergeMap)
            Extra := [] } := rfl
    exact ⟨_, h, get?_copyBoth _ _⟩
  · intro sourceMap fieldMap hne horder hinj
    unfold IsVisitOrder at horder
    have hnd : renameOrder.Nodup :=
      (List.Perm.nodup_iff horder).2 (GoMap.keys_nodup sourceMap)
    have hmem : ∀ k, k ∈ renameOrder ↔ k ∈ GoMap.keys sourceMap :=
      fun k => List.Perm.mem_iff horder
    have h : applyTransform renameOrder "rename" (Value.obj sourceMap)
        (Value.obj fieldMap)
        = renameFields renameOrder (Value.obj sourceMap)
            (Value.obj fieldMap) := rfl
    refine ⟨_, h.trans (renameFields_eq renameOrder sourceMap fieldMap hne),
      ?_, ?_⟩
    · intro k hk
      have hsome : (sourceMap.get? k).isSome = true := by
        have := (GoMap.mem_keys_iff sourceMap k).1 hk
        exact Option.isSome_iff_ne_none.2 this
      exact get?_renameLoop_hit sourceMap fieldMap renameOrder hnd
        (fun a ha b hb => hinj a ((hmem a).1 ha) b ((hmem b).1 hb))
        [] k ((hmem k).2 hk) hsome
    · intro n hn
      rw [get?_renameLoop_other sourceMap fieldMap n renameOrder []
        (fun k hk _ => hn k ((hmem k).1 hk))]
      rfl


/-- Claim C35 at concrete inputs. The source data `{id: 1, name: "n"}` given
in the input is transformed; without it the data of the single predecessor A
is; the empty input has no data to transform. Extracting `name` gives
`{name: "n"}`, removing it gives `{id: 1}`, adding `age` and merging another
`name` copy the source and write the field, and renaming `name` to `label`
gives `{id: 1, label: "n"}`. -/
theorem executeDataTransform_source_witness :
    executeDataTransform [] [] (transformInput "extract"
          (Value.arr [Value.str "name"]))
        = applyTransform []
            (transformOperation (transformInput "extract"
              (Value.arr [Value.str "name"])))
            (Value.obj [("id", Value.num 1), ("name", Value.str "n")])
            (GoMap.getD (transformInput "extract"
              (Value.arr [Value.str "name"])) "fields" Value.null)
      ∧ executeDataTransform ["A"] [] extractInput
        = applyTransform [] (transformOperation extractInput)
            (Value.obj [("id", Value.num 1), ("name", Value.str "n")])
            (extractInput.getD "fields" Value.null)
      ∧ executeDataTransform [] [] []
        = { Error := "没有可转换的数据", Data := Value.null, Extra := [] }
      ∧ (∃ result : GoMap Value,
          applyTransform [] "extract"
              (Value.obj [("id", Value.num 1), ("name", Value.str "n")])
              (Value.arr (["name"].map Value.str))
            = { Error := "", Data := Value.obj result, Extra := [] }
            ∧ ∀ k : String, result.get? k
                = if k ∈ ["name"]
                  then GoMap.get?
                    [("id", Value.num 1), ("name", Value.str "n")] k
                  else none)
      ∧ executeDataTransform [] [] (transformInput "extract"
            (Value.arr [Value.str "name"]))
        = { Error := "", Data := Value.obj [("name", Value.str "n")],
            Extra := [] }
      ∧ executeDataTransform ["A"] [] extractInput
        = { Error := "", Data := Value.obj [("name", Value.str "n")],
            Extra := [] }
      ∧ executeDataTransform [] [] (transformInput "remove"
            (Value.arr [Value.str "name"]))
        = { Error := "", Data := Value.obj [("id", Value.num 1)],
            Extra := [] }
      ∧ executeDataTransform [] [] (transformInput "add"
            (Value.obj [("age", Value.num 3)]))
        = { Error := ""
            Data := Value.obj [("id", Value.num 1), ("name", Value.str "n"),
              ("age", Value.num 3)]
            Extra := [] }
      ∧ executeDataTransform [] [] (transformInput "merge"
            (Value.obj [("name", Value.str "m")]))
        = { Error := ""
            Data := Value.obj [("id", Value.num 1), ("name", Value.str "m")]
            Extra := [] }
      ∧ executeDataTransform [] ["id", "name"] (transformInput "rename"
            (Value.obj [("name", Value.str "label")]))
        = { Error := ""
            Data := Value.obj [("id", Value.num 1), ("label", Value.str "n")]
            Extra := [] }
      ∧ executeDataTransform [] [] (transformInput "zip" Value.null)
        = { Error := "未知的转换操作: zip", Data := Value.null, Extra := [] } :=
  ⟨(executeDataTransform_source [] [] (transformInput "extract"
      (Value.arr [Value.str "name"]))).1
      (Value.obj [("id", Value.num 1), ("name", Value.str "n")]) rfl
      (fun h => by cases h),
    (executeDataTransform_source ["A"] [] extractInput).2.1
      [("A", Value.obj [("error", Value.str ""),
        ("data", Value.obj [("id", Value.num 1), ("name", Value.str "n")])])]
      "A"
      [("error", Value.str ""),
        ("data", Value.obj [("id", Value.num 1), ("name", Value.str "n")])]
      (Value.obj [("id", Value.num 1), ("name", Value.str "n")])
      rfl rfl (by unfold IsVisitOrder; decide) (by decide) rfl rfl
      (fun h => by cases h),
    (executeDataTransform_source [] [] []).2.2.1 rfl
      (fun previous h => by simp [GoMap.get?] at h),
    (executeDataTransform_source [] [] []).2.2.2.2.2.1
      [("id", Value.num 1), ("name", Value.str "n")] ["name"] (by decide),
    rfl, rfl, rfl, rfl, rfl, rfl, rfl⟩

end WorkflowEngine
